import Mathlib

/-!
maintain-btrfs: a shallow embedding of the scrub and balance supervisors (scrub.c,
balance.c, util.c), of the defragmentation tree walker (defrag.c) and of the driver
(main.c).

Every system call of the C sources is answered by an explicit environment value, every
diagnostic and every kernel request of interest is appended to an explicit log, and every
C loop is a recursive function (over the list of environment answers it consumes, or over
an explicit iteration budget where the C loop has no syntactic bound).
-/

namespace MaintainBtrfs

/-! ## Constants of the system headers -/

/-- The value of ENOENT in errno.h. -/
def ENOENT : Nat := 2
/-- The value of ENOMEM in errno.h. -/
def ENOMEM : Nat := 12
/-- The value of ENODEV in errno.h. -/
def ENODEV : Nat := 19
/-- The value of EROFS in errno.h. -/
def EROFS : Nat := 30
/-- The value of ECANCELED in errno.h. -/
def ECANCELED : Nat := 125
/-- The modulus of uint64_t arithmetic. -/
def UINT64_MOD : Nat := 2 ^ 64

/-- Result codes of thrd_create and thrd_join (threads.h); other stands for any further value. -/
inductive thrd_rc
  | thrd_success
  | thrd_nomem
  | thrd_error
  | other
  deriving DecidableEq, Repr

/-- How the execution of a function body ends: it returns a value, or the process is
terminated by abort() (called directly, or by a failed assert), or by the delivery of a
signal whose disposition is the default one. -/
inductive Outcome
  | returned (value : Bool)
  | abort_called
  | assert_failed
  | killed_by_signal (signo : Nat)
  deriving DecidableEq, Repr

/-- The fields of struct btrfs_ioctl_fs_info_args read by the program (linux/btrfs.h). -/
structure btrfs_ioctl_fs_info_args where
  max_id : Nat
  num_devices : Nat
  deriving DecidableEq, Repr

/-- The fields of struct btrfs_ioctl_dev_info_args read by the program (linux/btrfs.h). -/
structure btrfs_ioctl_dev_info_args where
  devid : Nat
  bytes_used : Nat
  deriving DecidableEq, Repr

/-- The counters of struct btrfs_scrub_progress (linux/btrfs.h). -/
structure btrfs_scrub_progress where
  data_bytes_scrubbed : Nat := 0
  tree_bytes_scrubbed : Nat := 0
  read_errors : Nat := 0
  csum_errors : Nat := 0
  verify_errors : Nat := 0
  no_csum : Nat := 0
  csum_discards : Nat := 0
  super_errors : Nat := 0
  malloc_errors : Nat := 0
  uncorrectable_errors : Nat := 0
  corrected_errors : Nat := 0
  unverified_errors : Nat := 0
  deriving DecidableEq, Repr

/-- What the supervisors of scrub.c, balance.c and util.c do that is visible from outside:
text written to stderr or stdout, threads created and joined, cancel requests sent to the
kernel. -/
inductive Event
  /-- Output of perror(what) with the given errno. -/
  | perror (what : String) (errno : Nat)
  /-- A fixed line written to stderr. -/
  | stderr_line (text : String)
  /-- Line 18 of util.c: fewer devices were found than declared. -/
  | devices_missing (mountpoint : String) (num_devices found : Nat)
  /-- Line 62 of scrub.c. -/
  | num_devices_too_large (num_devices : Nat)
  /-- Line 74 of scrub.c. -/
  | extra_device (thread_count : Nat)
  /-- A successful thrd_create: the worker of this slot now runs the scrub of devid. -/
  | thread_started (slot devid : Nat)
  /-- Request ioctl(fd, BTRFS_IOC_SCRUB_CANCEL). -/
  | scrub_cancel
  /-- Call thrd_join on the thread of this slot. -/
  | thread_joined (slot : Nat)
  /-- Output of CHECK_ERROR: the line is written to stderr when to_stderr holds, else to stdout. -/
  | scrub_detected (to_stderr : Bool) (mountpoint : String) (devid value : Nat) (error_name : String)
  /-- Line 231 of scrub.c (stdout). -/
  | scrub_skipped (mountpoint : String) (devid no_csum : Nat)
  /-- Line 234 of scrub.c (stdout). -/
  | scrub_ignored (mountpoint : String) (devid csum_discards : Nat)
  /-- Line 238 of scrub.c (stderr). -/
  | scrub_failed (mountpoint : String) (devid errno : Nat)
  /-- The balance worker was created. -/
  | balance_started
  /-- Request ioctl(fd, BTRFS_IOC_BALANCE_CTL, BTRFS_BALANCE_CTL_CANCEL). -/
  | balance_cancel
  /-- Join of the balance worker. -/
  | balance_joined
  /-- Line 129 of balance.c (stdout). -/
  | balance_relocated (mountpoint : String) (completed considered : Nat)
  /-- Line 134 of balance.c (stderr). -/
  | balance_failed (mountpoint : String) (errno : Nat)
  deriving DecidableEq, Repr

/-- The log of events, oldest first. -/
abbrev Log := List Event

/-- One return of poll() in a monitor loop, with the result of the eventfd_read that follows
when the completion descriptor is readable. -/
structure PollAnswer where
  /-- Whether poll returned a negative value; errno is poll_errno. -/
  failed : Bool := false
  poll_errno : Nat := 0
  /-- Whether pfds[0].revents has POLLIN: a termination signal is pending. -/
  sig_in : Bool := false
  /-- Whether pfds[1].revents has POLLIN: the completion counter is nonzero. -/
  efd_in : Bool := false
  /-- Result of eventfd_read(efd, &count): the count, or the errno of a failure. -/
  efd_read : Except Nat Nat := Except.ok 0

/-! ## util.c -/

namespace Util

/-- The kernel as for_each_device sees it: the answer of BTRFS_IOC_FS_INFO and, per device
id, of BTRFS_IOC_DEV_INFO (bytes_used of the device, or the errno of the failure). -/
structure DeviceWorld where
  fs_info : Except Nat btrfs_ioctl_fs_info_args
  dev_info : Nat → Except Nat Nat

/-- The for loop of for_each_device (util.c lines 16-36). The first argument bounds the
number of iterations; none means the bound was reached before the loop ended. The counter
dev_id is a uint64_t and wraps. The callback receives and returns its cookie and the log. -/
def for_each_device_loop {σ : Type} (mountpoint : String) (dev_info : Nat → Except Nat Nat)
    (cb : btrfs_ioctl_fs_info_args → btrfs_ioctl_dev_info_args → σ → Log → Bool × σ × Log)
    (fs_info : btrfs_ioctl_fs_info_args) :
    Nat → Nat → Nat → σ → Log → Option (Bool × σ × Log)
  | 0, _, found, cookie, log =>
    if found < fs_info.num_devices then none else some (true, cookie, log)
  | fuel + 1, dev_id, found, cookie, log =>
    if found < fs_info.num_devices then
      if dev_id > fs_info.max_id then
        some (false, cookie, log ++ [Event.devices_missing mountpoint fs_info.num_devices found])
      else
        match dev_info dev_id with
        | Except.ok bytes_used =>
          match cb fs_info { devid := dev_id, bytes_used := bytes_used } cookie log with
          | (false, cookie1, log1) => some (true, cookie1, log1)
          | (true, cookie1, log1) =>
            for_each_device_loop mountpoint dev_info cb fs_info fuel
              ((dev_id + 1) % UINT64_MOD) (found + 1) cookie1 log1
        | Except.error errno =>
          if errno = ENODEV then
            for_each_device_loop mountpoint dev_info cb fs_info fuel
              ((dev_id + 1) % UINT64_MOD) found cookie log
          else
            some (false, cookie, log ++ [Event.perror mountpoint errno])
    else
      some (true, cookie, log)

/-- The function for_each_device of util.c. -/
def for_each_device {σ : Type} (fuel : Nat) (w : DeviceWorld) (mountpoint : String)
    (cb : btrfs_ioctl_fs_info_args → btrfs_ioctl_dev_info_args → σ → Log → Bool × σ × Log)
    (cookie : σ) (log : Log) : Option (Bool × σ × Log) :=
  match w.fs_info with
  | Except.error errno => some (false, cookie, log ++ [Event.perror mountpoint errno])
  | Except.ok fs_info => for_each_device_loop mountpoint w.dev_info cb fs_info fuel 0 0 cookie log

end Util

/-! ## scrub.c -/

namespace Scrub

/-- The struct thread_info of scrub.c. The descriptors fd and efd are the same for all
workers and are left out; started records that thrd_create stored a thread in the slot. The
fields progress, ioctl_ret and ioctl_errno are written by thread_proc of the slot. -/
structure thread_info where
  bytes_used : Nat := 0
  devid : Nat := 0
  progress : btrfs_scrub_progress := {}
  ioctl_ret : Int := 0
  ioctl_errno : Nat := 0
  started : Bool := false
  deriving DecidableEq, Repr

/-- The struct cookie of scrub.c; threads is none while the pointer is null. -/
structure cookie where
  threads : Option (List thread_info) := none
  thread_count : Nat := 0
  threads_started : Nat := 0
  deriving DecidableEq, Repr

/-- What thread_proc stores in its thread_info before it posts its completion: the return
value and errno of the blocking BTRFS_IOC_SCRUB call and the counters the kernel filled in. -/
structure WorkerResult where
  ioctl_ret : Int := 0
  ioctl_errno : Nat := 0
  progress : btrfs_scrub_progress := {}
  deriving DecidableEq, Repr

/-- The environment of one scrub run. -/
structure World where
  /-- The value of SIZE_MAX. -/
  SIZE_MAX : Nat := 2 ^ 64 - 1
  devices : Util.DeviceWorld
  /-- Whether calloc returns a non-null pointer. -/
  calloc_ok : Bool := true
  /-- Result of thrd_create for the slot. -/
  thrd_create : Nat → thrd_rc := fun _ => thrd_rc.thrd_success
  /-- The successive returns of poll in the monitor loop. -/
  polls : List PollAnswer := []
  /-- What the worker of the slot has stored by the time it can be joined. -/
  worker : Nat → WorkerResult := fun _ => {}
  /-- Result of thrd_join for the slot. -/
  thrd_join : Nat → thrd_rc := fun _ => thrd_rc.thrd_success

/-- Lines 73-98 of start_thread: fill in the next slot of the thread array ts and create
its thread. -/
def start_thread_slot (w : World) (dev_info : btrfs_ioctl_dev_info_args) (c : cookie)
    (ts : List thread_info) (log : Log) : Bool × cookie × Log :=
  -- lines 73-76
  if c.threads_started = c.thread_count then
    (false, c, log ++ [Event.extra_device c.thread_count])
  else
    -- lines 78-84
    let ti : thread_info :=
      { (ts.getD c.threads_started {}) with
        bytes_used := dev_info.bytes_used, devid := dev_info.devid }
    -- lines 85-98
    match w.thrd_create c.threads_started with
    | thrd_rc.thrd_success =>
      (true,
        { c with threads := some (ts.set c.threads_started { ti with started := true }),
                 threads_started := c.threads_started + 1 },
        log ++ [Event.thread_started c.threads_started dev_info.devid])
    | thrd_rc.thrd_nomem =>
      (false, { c with threads := some (ts.set c.threads_started ti) },
        log ++ [Event.perror "thrd_create" ENOMEM])
    | thrd_rc.thrd_error =>
      (false, { c with threads := some (ts.set c.threads_started ti) },
        log ++ [Event.stderr_line "thrd_create: failed"])
    | thrd_rc.other =>
      (false, { c with threads := some (ts.set c.threads_started ti) },
        log ++ [Event.stderr_line "thrd_create: unknown error"])

/-- The function start_thread of scrub.c, the callback given to for_each_device. -/
def start_thread (w : World) (fs_info : btrfs_ioctl_fs_info_args)
    (dev_info : btrfs_ioctl_dev_info_args) (c : cookie) (log : Log) : Bool × cookie × Log :=
  match c.threads with
  | none =>
    -- lines 60-71
    if fs_info.num_devices > w.SIZE_MAX then
      (false, c, log ++ [Event.num_devices_too_large fs_info.num_devices])
    else if w.calloc_ok then
      start_thread_slot w dev_info
        { c with thread_count := fs_info.num_devices,
                 threads := some (List.replicate fs_info.num_devices {}) }
        (List.replicate fs_info.num_devices {}) log
    else
      (false, { c with thread_count := fs_info.num_devices },
        log ++ [Event.perror "calloc" ENOMEM])
  | some ts => start_thread_slot w dev_info c ts log

/-- The macro CHECK_ERROR of scrub.c (lines 211-219) for one counter. -/
def CHECK_ERROR (mountpoint : String) (verbose : Bool) (devid value : Nat) (error_name : String)
    (st : Bool × Log) : Bool × Log :=
  if verbose ∨ value ≠ 0 then
    let log := st.2 ++ [Event.scrub_detected (decide (value ≠ 0)) mountpoint devid value error_name]
    if value ≠ 0 then (false, log) else (st.1, log)
  else
    st

/-- The body of the result loop of do_scrub_fd_auxfds after the join (scrub.c lines 210-240),
for the thread_info of one joined worker. -/
def present (mountpoint : String) (verbose cancelled : Bool) (ti : thread_info)
    (st : Bool × Log) : Bool × Log :=
  if ti.ioctl_ret ≥ 0 then
    let st := CHECK_ERROR mountpoint verbose ti.devid ti.progress.read_errors "read" st
    let st := CHECK_ERROR mountpoint verbose ti.devid ti.progress.csum_errors "checksum" st
    let st := CHECK_ERROR mountpoint verbose ti.devid ti.progress.verify_errors "verify" st
    let st := CHECK_ERROR mountpoint verbose ti.devid ti.progress.super_errors "superblock" st
    let st := CHECK_ERROR mountpoint verbose ti.devid ti.progress.malloc_errors "malloc" st
    let st := CHECK_ERROR mountpoint verbose ti.devid ti.progress.uncorrectable_errors
      "uncorrectable" st
    let st := CHECK_ERROR mountpoint verbose ti.devid ti.progress.corrected_errors "corrected" st
    let st := CHECK_ERROR mountpoint verbose ti.devid ti.progress.unverified_errors
      "unverified" st
    if verbose then
      let log := st.2
      let log := if ti.progress.no_csum ≠ 0 then
        log ++ [Event.scrub_skipped mountpoint ti.devid ti.progress.no_csum] else log
      let log := if ti.progress.csum_discards ≠ 0 then
        log ++ [Event.scrub_ignored mountpoint ti.devid ti.progress.csum_discards] else log
      (st.1, log)
    else
      st
  else if ¬ (cancelled ∧ ti.ioctl_errno = ECANCELED) then
    (false, st.2 ++ [Event.scrub_failed mountpoint ti.devid ti.ioctl_errno])
  else
    st

/-- The thread_info of a slot once its worker can be joined: thread_proc has stored the
result of its ioctl call. -/
def joined (ti : thread_info) (r : WorkerResult) : thread_info :=
  { ti with ioctl_ret := r.ioctl_ret, ioctl_errno := r.ioctl_errno, progress := r.progress }

/-- The result loop of do_scrub_fd_auxfds (scrub.c lines 203-241) from slot i on, over the
remaining slots of the thread array. -/
def join_loop (w : World) (mountpoint : String) (verbose cancelled : Bool) :
    List thread_info → Nat → Bool × Log → Outcome × Log
  | [], _, st => (Outcome.returned st.1, st.2)
  | ti :: rest, i, st =>
    if w.thrd_join i = thrd_rc.thrd_error then
      (Outcome.abort_called, st.2 ++ [Event.thread_joined i, Event.stderr_line "thrd_join: error"])
    else
      join_loop w mountpoint verbose cancelled rest (i + 1)
        (present mountpoint verbose cancelled (joined ti (w.worker i))
          (st.1, st.2 ++ [Event.thread_joined i]))

/-- How the monitor loop of do_scrub_fd_auxfds ends (scrub.c lines 122-189): the values of
remaining and cancelled on leaving the loop, or the failure of assert(count <= remaining). -/
inductive MonitorExit
  | left (remaining : Nat) (cancelled : Bool)
  | assert_failed
  deriving DecidableEq, Repr

/-- The monitor loop of do_scrub_fd_auxfds (scrub.c lines 124-189), one PollAnswer per
iteration; none means that poll blocks for ever (the answers are used up). The progress
display of the verbose mode (lines 148-188) only writes to stdout and is left out. -/
def monitor : List PollAnswer → Nat → Log → Option (MonitorExit × Log)
  | [], remaining, log =>
    if remaining = 0 then some (MonitorExit.left 0 false, log) else none
  | p :: ps, remaining, log =>
    if remaining = 0 then some (MonitorExit.left 0 false, log)
    else if p.failed then
      some (MonitorExit.left remaining false, log ++ [Event.perror "poll" p.poll_errno])
    else if p.sig_in then
      some (MonitorExit.left remaining true, log)
    else if p.efd_in then
      match p.efd_read with
      | Except.error errno =>
        some (MonitorExit.left remaining false, log ++ [Event.perror "eventfd_read" errno])
      | Except.ok count =>
        if count ≤ remaining then monitor ps (remaining - count) log
        else some (MonitorExit.assert_failed, log)
    else
      monitor ps remaining log

/-- The cleanup loop of do_scrub_fd_auxfds (scrub.c lines 109-113): join slots i, i+1, ...
below threads_started, ignoring the results. -/
def cleanup_joins : Nat → Nat → Log → Log
  | 0, _, log => log
  | n + 1, i, log => cleanup_joins n (i + 1) (log ++ [Event.thread_joined i])

/-- The function do_scrub_fd_auxfds of scrub.c. The first argument bounds the iterations of
the device loop; none means that the run does not end (the bound or the poll answers are
used up). -/
def do_scrub_fd_auxfds (fuel : Nat) (w : World) (mountpoint : String) (verbose : Bool) :
    Option (Outcome × Log) :=
  match Util.for_each_device fuel w.devices mountpoint (start_thread w) ({} : cookie) [] with
  | none => none
  | some (false, c, log) =>
    -- lines 104-116
    match c.threads with
    | some _ =>
      some (Outcome.returned false, cleanup_joins c.threads_started 0 (log ++ [Event.scrub_cancel]))
    | none => some (Outcome.returned false, log)
  | some (true, c, log) =>
    -- line 119
    if c.threads_started ≠ c.thread_count then some (Outcome.assert_failed, log)
    else
      match monitor w.polls c.thread_count log with
      | none => none
      | some (MonitorExit.assert_failed, log1) => some (Outcome.assert_failed, log1)
      | some (MonitorExit.left remaining cancelled, log1) =>
        -- lines 192-194
        let log2 := if remaining ≠ 0 then log1 ++ [Event.scrub_cancel] else log1
        -- lines 203-245
        some (join_loop w mountpoint verbose cancelled (c.threads.getD []) 0 (true, log2))

/-- The eight error counters examined by the uses of CHECK_ERROR in scrub.c lines 220-227. -/
inductive ErrorCounter
  | read
  | checksum
  | verify
  | superblock
  | malloc
  | uncorrectable
  | corrected
  | unverified
  deriving DecidableEq, Repr

/-- The field of btrfs_scrub_progress that holds the counter. -/
def ErrorCounter.value : ErrorCounter → btrfs_scrub_progress → Nat
  | ErrorCounter.read, p => p.read_errors
  | ErrorCounter.checksum, p => p.csum_errors
  | ErrorCounter.verify, p => p.verify_errors
  | ErrorCounter.superblock, p => p.super_errors
  | ErrorCounter.malloc, p => p.malloc_errors
  | ErrorCounter.uncorrectable, p => p.uncorrectable_errors
  | ErrorCounter.corrected, p => p.corrected_errors
  | ErrorCounter.unverified, p => p.unverified_errors

/-- The name under which the diagnostics mention the counter. -/
def ErrorCounter.error_name : ErrorCounter → String
  | ErrorCounter.read => "read"
  | ErrorCounter.checksum => "checksum"
  | ErrorCounter.verify => "verify"
  | ErrorCounter.superblock => "superblock"
  | ErrorCounter.malloc => "malloc"
  | ErrorCounter.uncorrectable => "uncorrectable"
  | ErrorCounter.corrected => "corrected"
  | ErrorCounter.unverified => "unverified"

end Scrub

/-! ## balance.c -/

namespace Balance

/-- The bit BTRFS_BALANCE_STATE_CANCEL_REQ of linux/btrfs.h. -/
def BTRFS_BALANCE_STATE_CANCEL_REQ : Nat := 4

/-- What thread_proc of balance.c has stored by the time it can be joined: the return value
and errno of the blocking BTRFS_IOC_BALANCE_V2 call, and the fields of args read afterwards. -/
structure WorkerResult where
  ioctl_ret : Int := 0
  ioctl_errno : Nat := 0
  state : Nat := 0
  completed : Nat := 0
  considered : Nat := 0
  deriving DecidableEq, Repr

/-- The environment of one balance run. -/
structure World where
  thrd_create : thrd_rc := thrd_rc.thrd_success
  /-- The successive returns of poll in the monitor loop. -/
  polls : List PollAnswer := []
  worker : WorkerResult := {}
  thrd_join : thrd_rc := thrd_rc.thrd_success

/-- The monitor loop of do_balance_fd_auxfds (balance.c lines 76-109); the result is the
value of done on leaving the loop, none means that poll blocks for ever. The progress
display of the verbose mode (lines 94-108) only writes to stdout and is left out. -/
def monitor : List PollAnswer → Log → Option (Bool × Log)
  | [], _ => none
  | p :: ps, log =>
    if p.failed then some (false, log ++ [Event.perror "poll" p.poll_errno])
    else if p.sig_in then some (false, log)
    else if p.efd_in then some (true, log)
    else monitor ps log

/-- The function do_balance_fd_auxfds of balance.c. -/
def do_balance_fd_auxfds (w : World) (mountpoint : String) (verbose : Bool) :
    Option (Outcome × Log) :=
  -- lines 58-73
  match w.thrd_create with
  | thrd_rc.thrd_nomem => some (Outcome.returned false, [Event.perror "thrd_create" ENOMEM])
  | thrd_rc.thrd_error => some (Outcome.returned false, [Event.stderr_line "thrd_create: failed"])
  | thrd_rc.other =>
    some (Outcome.returned false, [Event.stderr_line "thrd_create: unknown error"])
  | thrd_rc.thrd_success =>
    match monitor w.polls [Event.balance_started] with
    | none => none
    | some (done, log) =>
      -- lines 112-114
      let log := if ¬ done then log ++ [Event.balance_cancel] else log
      -- lines 123-126
      let log := log ++ [Event.balance_joined]
      if w.thrd_join = thrd_rc.thrd_error then
        some (Outcome.abort_called, log ++ [Event.stderr_line "thrd_join: error"])
      -- lines 127-137
      else if w.worker.ioctl_ret ≥ 0 then
        if verbose ∧ w.worker.state &&& BTRFS_BALANCE_STATE_CANCEL_REQ = 0 then
          some (Outcome.returned true,
            log ++ [Event.balance_relocated mountpoint w.worker.completed w.worker.considered])
        else
          some (Outcome.returned true, log)
      else
        if w.worker.ioctl_errno ≠ ECANCELED then
          some (Outcome.returned false,
            log ++ [Event.balance_failed mountpoint w.worker.ioctl_errno])
        else
          some (Outcome.returned false, log)

end Balance

/-! ## defrag.c -/

namespace Defrag

/-- The constant CHUNK_CAPACITY of defrag.c. -/
def CHUNK_CAPACITY : Nat := 8

/-- The constant BTRFS_SUPER_MAGIC of linux/magic.h. -/
def BTRFS_SUPER_MAGIC : Nat := 0x9123683E
/-- The constant S_IFMT of sys/stat.h. -/
def S_IFMT : Nat := 0o170000
/-- The constant S_IFDIR of sys/stat.h. -/
def S_IFDIR : Nat := 0o040000
/-- The constant S_IFREG of sys/stat.h. -/
def S_IFREG : Nat := 0o100000
/-- The constant STATX_TYPE of linux/stat.h. -/
def STATX_TYPE : Nat := 0x1
/-- The constant STATX_INO of linux/stat.h. -/
def STATX_INO : Nat := 0x100
/-- The constant DT_UNKNOWN of dirent.h. -/
def DT_UNKNOWN : Nat := 0
/-- The constant DT_DIR of dirent.h. -/
def DT_DIR : Nat := 4
/-- The constant DT_REG of dirent.h. -/
def DT_REG : Nat := 8

/-- The macro S_ISDIR of sys/stat.h. -/
def S_ISDIR (mode : Nat) : Bool := mode &&& S_IFMT == S_IFDIR
/-- The macro S_ISREG of sys/stat.h. -/
def S_ISREG (mode : Nat) : Bool := mode &&& S_IFMT == S_IFREG

/-- The fields of struct statx read by process. -/
structure statx where
  stx_mask : Nat := STATX_TYPE ||| STATX_INO
  stx_mode : Nat := S_IFREG
  stx_ino : Nat := 0
  stx_dev_major : Nat := 0
  stx_dev_minor : Nat := 0
  deriving DecidableEq, Repr

/-- The answers of the system calls that process makes for one name: each is the value
obtained, or the errno of the failure. -/
structure Answers where
  /-- Line 217: openat with O_PATH and O_NOFOLLOW. -/
  openat : Except Nat Unit := Except.ok ()
  /-- Line 235: statx on the path descriptor. -/
  statx : Except Nat statx := Except.ok {}
  /-- Line 246: fstatfs on the path descriptor; the value is f_type. -/
  fstatfs : Except Nat Nat := Except.ok BTRFS_SUPER_MAGIC
  /-- Line 285: open of /proc/self/fd/N. -/
  reopen : Except Nat Unit := Except.ok ()
  /-- Lines 317 and 348: ioctl BTRFS_IOC_FS_INFO on the file descriptor; the value is fsid. -/
  fs_info : Except Nat (List Nat) := Except.ok []
  /-- Line 368: ioctl BTRFS_IOC_DEFRAG_RANGE on the file descriptor. -/
  defrag : Except Nat Unit := Except.ok ()
  /-- Line 399: whether strdup returns a copy. -/
  strdup : Bool := true
  /-- Line 411: fdopendir on the file descriptor. -/
  fdopendir : Except Nat Unit := Except.ok ()
  /-- Line 55: whether malloc returns a chunk, if stack_push has to call it. -/
  malloc : Bool := true

/-- The entry stream of an open directory, as readdir will deliver it: either the stream
is over (readdir returns null, with errno 0 at the regular end and nonzero on a failure), or
it delivers an entry with its d_type and d_name, followed by the rest of the stream. With
the entry come the answers that the system calls of process will get for that name and the
entry stream that fdopendir yields for it. -/
inductive Dir
  | done (errno : Nat)
  | entry (d_type : Nat) (d_name : String) (a : Answers) (sub : Dir) (rest : Dir)

instance : Inhabited Dir := ⟨Dir.done 0⟩

/-- The number of readdir calls needed to use up the stream and all streams below it. -/
def Dir.size : Dir → Nat
  | Dir.done _ => 1
  | Dir.entry _ _ _ sub rest => 1 + sub.size + rest.size

/-- The struct stack_entry of defrag.c; dir_handle holds the unread part of the stream. -/
structure stack_entry where
  dev_major : Nat := 0
  dev_minor : Nat := 0
  inode : Nat := 0
  name : String := ""
  dir_handle : Dir := Dir.done 0

instance : Inhabited stack_entry := ⟨{}⟩

/-- The struct stack_chunk of defrag.c without its previous pointer: the chunks of a list
are linked through the list. -/
structure stack_chunk where
  entries : List stack_entry := List.replicate CHUNK_CAPACITY {}

/-- The struct stack of defrag.c; top is the list of chunks reached from stack->top through
previous (the empty list is the null pointer), free_chunks likewise. -/
structure stack where
  top : List stack_chunk := []
  top_used : Nat := 0
  free_chunks : List stack_chunk := []

/-- The function stack_init of defrag.c. -/
def stack_init : stack := { top := [], top_used := 0, free_chunks := [] }

/-- The function stack_empty of defrag.c. -/
def stack_empty (s : stack) : Bool := s.top.isEmpty

/-- The function stack_push of defrag.c; malloc_ok is the answer of malloc if it is called. -/
def stack_push (malloc_ok : Bool) (s : stack) (new : stack_entry) : Bool × stack :=
  if s.top.isEmpty ∨ s.top_used = CHUNK_CAPACITY then
    match s.free_chunks with
    | [] =>
      -- lines 55-62, then 63-71 with the chunk that malloc returned
      if malloc_ok then
        (true, { top := { entries := (List.replicate CHUNK_CAPACITY {}).set 0 new } :: s.top,
                 top_used := 1, free_chunks := [] })
      else
        (false, s)
    | new_chunk :: rest =>
      -- lines 63-71 with the first free chunk
      (true, { top := { entries := new_chunk.entries.set 0 new } :: s.top,
               top_used := 1, free_chunks := rest })
  else
    -- lines 70-71; the top chunk exists here
    match s.top with
    | [] => (false, s)
    | c :: previous =>
      (true, { top := { entries := c.entries.set s.top_used new } :: previous,
               top_used := s.top_used + 1, free_chunks := s.free_chunks })

/-- The function stack_pop of defrag.c; it is only called on a non-empty stack. -/
def stack_pop (s : stack) : stack :=
  match s.top with
  | [] => s
  | c :: previous =>
    if s.top_used - 1 = 0 then
      { top := previous, top_used := if previous.isEmpty then 0 else CHUNK_CAPACITY,
        free_chunks := c :: s.free_chunks }
    else
      { s with top_used := s.top_used - 1 }

/-- The function stack_peek of defrag.c; it is only called on a non-empty stack. -/
def stack_peek (s : stack) : stack_entry :=
  match s.top with
  | [] => default
  | c :: _ => c.entries.getD (s.top_used - 1) default

/-- The entry after a readdir on its stream: dir_handle now holds the rest of the stream. -/
def stack_entry.advance (e : stack_entry) (rest : Dir) : stack_entry :=
  { e with dir_handle := rest }

/-- The effect of readdir on the stream of the top entry: e->dir_handle now holds rest. -/
def stack_advance (s : stack) (rest : Dir) : stack :=
  match s.top with
  | [] => s
  | c :: previous =>
    let e : stack_entry := (stack_peek s).advance rest
    { s with top := { c with entries := c.entries.set (s.top_used - 1) e } :: previous }

/-- The iterations of the loop of stack_foreach_down that stay in one chunk: the callback is
applied to entries[next_index], then downwards to entries[0], until it returns false. The
result tells whether the loop goes on with the previous chunk. -/
def stack_foreach_down_chunk {σ : Type} (cb : stack_entry → σ → Bool × σ)
    (entries : List stack_entry) : Nat → σ → Bool × σ
  | 0, cookie => cb (entries.getD 0 default) cookie
  | next_index + 1, cookie =>
    match cb (entries.getD (next_index + 1) default) cookie with
    | (false, cookie1) => (false, cookie1)
    | (true, cookie1) => stack_foreach_down_chunk cb entries next_index cookie1

/-- The loop of stack_foreach_down from the given chunk and index on. -/
def stack_foreach_down_chunks {σ : Type} (cb : stack_entry → σ → Bool × σ) :
    List stack_chunk → Nat → σ → σ
  | [], _, cookie => cookie
  | chunk :: previous, next_index, cookie =>
    match stack_foreach_down_chunk cb chunk.entries next_index cookie with
    | (false, cookie1) => cookie1
    | (true, cookie1) => stack_foreach_down_chunks cb previous (CHUNK_CAPACITY - 1) cookie1

/-- The function stack_foreach_down of defrag.c; the callback returns its cookie. -/
def stack_foreach_down {σ : Type} (s : stack) (cb : stack_entry → σ → Bool × σ)
    (cookie : σ) : σ :=
  stack_foreach_down_chunks cb s.top (s.top_used - 1) cookie

/-- The iterations of the second loop of stack_foreach_up that stay in one chunk, the first
argument being CHUNK_CAPACITY - next_index. The result tells whether the loop goes on with
the chunk above. -/
def stack_foreach_up_chunk {σ : Type} (cb : stack_entry → σ → Bool × σ)
    (entries : List stack_entry) (is_top : Bool) (top_used : Nat) : Nat → Nat → σ → Bool × σ
  | 0, _, cookie => (true, cookie)
  | left + 1, next_index, cookie =>
    match cb (entries.getD next_index default) cookie with
    | (false, cookie1) => (false, cookie1)
    | (true, cookie1) =>
      if is_top ∧ next_index + 1 = top_used then (false, cookie1)
      else stack_foreach_up_chunk cb entries is_top top_used left (next_index + 1) cookie1

/-- The second loop of stack_foreach_up over the chunks from the given one upwards (the
list holds the lowest chunk first, the top chunk last). -/
def stack_foreach_up_chunks {σ : Type} (cb : stack_entry → σ → Bool × σ) (top_used : Nat) :
    List stack_chunk → σ → σ
  | [], cookie => cookie
  | chunk :: above, cookie =>
    match stack_foreach_up_chunk cb chunk.entries above.isEmpty top_used CHUNK_CAPACITY 0
      cookie with
    | (false, cookie1) => cookie1
    | (true, cookie1) => stack_foreach_up_chunks cb top_used above cookie1

/-- The function stack_foreach_up of defrag.c; the callback returns its cookie. -/
def stack_foreach_up {σ : Type} (s : stack) (cb : stack_entry → σ → Bool × σ)
    (cookie : σ) : σ :=
  stack_foreach_up_chunks cb s.top_used s.top.reverse cookie

/-- The function print_path_impl of defrag.c; the cookie is the text written so far. -/
def print_path_impl (e : stack_entry) (dest : String) : Bool × String :=
  (true, dest ++ e.name ++ "/")

/-- The function print_path of defrag.c: the text it writes. -/
def print_path (s : stack) (final_component : Option String) : String :=
  let dest := stack_foreach_up s print_path_impl ""
  match final_component with
  | some name => dest ++ name
  | none => dest

/-- The message of a diagnostic: strerror of an errno, or a fixed text. -/
inductive Message
  | strerror (errno : Nat)
  | text (s : String)
  deriving DecidableEq, Repr

/-- What the tree walker does that is visible from outside. The progress display on stdout
(clear_line, and lines 415-427 of process, which depend on clock()) is left out. -/
inductive Event
  /-- Output of show_path_error on stderr: the path written by print_path, and the message. -/
  | path_error (path : String) (message : Message)
  /-- Output of perror(what) with the given errno. -/
  | perror (what : String) (errno : Nat)
  /-- Request ioctl(file_fd, BTRFS_IOC_DEFRAG_RANGE) on the object that process has open;
  path is the text print_path writes for its name at that moment. -/
  | defrag (path : String)
  deriving DecidableEq, Repr

/-- The state shared by do_defrag and process: the stack, the fsid buffer, and the log. -/
structure Walk where
  stack : stack := stack_init
  fsid : List Nat := []
  log : List Event := []

/-- The function show_path_error of defrag.c. -/
def show_path_error (w : Walk) (final_component : Option String) (message : Message) : Walk :=
  { w with log := w.log ++ [Event.path_error (print_path w.stack final_component) message] }

/-- The function show_path_errno of defrag.c. -/
def show_path_errno (w : Walk) (final_component : Option String) (errno : Nat) : Walk :=
  show_path_error w final_component (Message.strerror errno)

/-- The struct loop_check of defrag.c. -/
structure loop_check where
  dev_major : Nat
  dev_minor : Nat
  inode : Nat
  loop_found : Bool
  deriving DecidableEq, Repr

/-- The function check_loop of defrag.c. -/
def check_loop (e : stack_entry) (check : loop_check) : Bool × loop_check :=
  if check.dev_major = e.dev_major ∧ check.dev_minor = e.dev_minor ∧ check.inode = e.inode then
    (false, { check with loop_found := true })
  else
    (true, check)

/-- Lines 403-409 of process: the name without its trailing slashes. -/
def strip_trailing_slashes (name : String) : String :=
  String.mk (name.data.reverse.dropWhile (fun c => c == '/')).reverse

/-- The stack entry that process builds for a directory (lines 394-411): the identity
that statx reported, the name without trailing slashes, and the stream of fdopendir. -/
def pushed_entry (name : String) (statbuf : statx) (sub : Dir) : stack_entry :=
  { dev_major := statbuf.stx_dev_major, dev_minor := statbuf.stx_dev_minor,
    inode := statbuf.stx_ino, name := strip_trailing_slashes name, dir_handle := sub }

/-- Lines 360-447 of process: defragment the object if it is a regular file or has a new
device number, and push it if it is a directory. -/
def process_defrag (name : String) (a : Answers) (sub : Dir) (statbuf : statx)
    (new_device_number : Bool) (w : Walk) : Bool × Walk :=
  -- lines 362-389
  let r : Bool × Walk :=
    if S_ISREG statbuf.stx_mode ∨ new_device_number then
      let w1 := { w with log := w.log ++ [Event.defrag (print_path w.stack (some name))] }
      match a.defrag with
      | Except.ok _ => (true, w1)
      | Except.error errno =>
        if errno ≠ EROFS then (false, show_path_errno w1 (some name) errno) else (true, w1)
    else
      (true, w)
  -- lines 393-445
  if S_ISDIR statbuf.stx_mode then
    if a.strdup then
      match a.fdopendir with
      | Except.ok _ =>
        match stack_push a.malloc r.2.stack (pushed_entry name statbuf sub) with
        | (true, s1) => (r.1, { r.2 with stack := s1 })
        | (false, s1) =>
          (r.1, { r.2 with stack := s1, log := r.2.log ++ [Event.perror "malloc" ENOMEM] })
      | Except.error errno => (false, show_path_errno r.2 (some name) errno)
    else
      (false, { r.2 with log := r.2.log ++ [Event.perror "strdup" ENOMEM] })
  else
    r

/-- Lines 325-447 of process: the check for a crossing into another filesystem, then
process_defrag. -/
def process_boundary (name : String) (a : Answers) (sub : Dir) (statbuf : statx)
    (w : Walk) : Bool × Walk :=
  let new_device_number : Bool :=
    stack_empty w.stack ∨ statbuf.stx_dev_major ≠ (stack_peek w.stack).dev_major ∨
      statbuf.stx_dev_minor ≠ (stack_peek w.stack).dev_minor
  if S_ISDIR statbuf.stx_mode ∧ ¬ stack_empty w.stack ∧ new_device_number then
    if statbuf.stx_ino = 2 then (true, w)
    else
      match a.fs_info with
      | Except.error errno => (false, show_path_errno w (some name) errno)
      | Except.ok args_fsid =>
        if args_fsid ≠ w.fsid then (true, w)
        else process_defrag name a sub statbuf new_device_number w
  else
    process_defrag name a sub statbuf new_device_number w

/-- The function process of defrag.c for the name whose system calls are answered by a and
whose entry stream, if it is opened as a directory, is sub. The directory descriptor dir_fd
is implicit in the answers; closing descriptors is not recorded. -/
def process (name : String) (a : Answers) (sub : Dir) (w : Walk) : Bool × Walk :=
  -- lines 217-229
  match a.openat with
  | Except.error errno =>
    if errno = ENOENT then (true, w) else (false, show_path_errno w (some name) errno)
  | Except.ok _ =>
    -- lines 234-250
    match a.statx with
    | Except.error errno => (false, show_path_errno w (some name) errno)
    | Except.ok statbuf =>
      if statbuf.stx_mask &&& (STATX_TYPE ||| STATX_INO) ≠ STATX_TYPE ||| STATX_INO then
        (false, show_path_error w (some name)
          (Message.text "statx returned with required information missing"))
      else
        match a.fstatfs with
        | Except.error errno => (false, show_path_errno w (some name) errno)
        | Except.ok f_type =>
          -- lines 256-268
          if f_type ≠ BTRFS_SUPER_MAGIC then (true, w)
          else if ¬ S_ISDIR statbuf.stx_mode ∧ ¬ S_ISREG statbuf.stx_mode then (true, w)
          else
            -- lines 281-291
            match a.reopen with
            | Except.error errno => (false, show_path_errno w (some name) errno)
            | Except.ok _ =>
              -- lines 298-311
              if S_ISDIR statbuf.stx_mode ∧
                  (stack_foreach_down w.stack check_loop
                    { dev_major := statbuf.stx_dev_major, dev_minor := statbuf.stx_dev_minor,
                      inode := statbuf.stx_ino, loop_found := false }).loop_found then
                (false, show_path_error w (some name) (Message.text "filesystem loop detected"))
              -- lines 315-323
              else if stack_empty w.stack then
                match a.fs_info with
                | Except.error errno => (false, show_path_errno w (some name) errno)
                | Except.ok args_fsid =>
                  process_boundary name a sub statbuf { w with fsid := args_fsid }
              else
                process_boundary name a sub statbuf w

/-- The while loop of do_defrag (lines 460-480). The first argument bounds the number of
iterations; none means the bound was reached before the stack became empty. -/
def do_defrag_loop : Nat → Bool → Walk → Option (Bool × Walk)
  | 0, ok, w => if stack_empty w.stack then some (ok, w) else none
  | fuel + 1, ok, w =>
    if stack_empty w.stack then some (ok, w)
    else
      match (stack_peek w.stack).dir_handle with
      | Dir.entry d_type d_name a sub rest =>
        let w1 := { w with stack := stack_advance w.stack rest }
        if d_type = DT_DIR ∨ d_type = DT_REG ∨ d_type = DT_UNKNOWN then
          if d_name ≠ "." ∧ d_name ≠ ".." then
            let r := process d_name a sub w1
            do_defrag_loop fuel (ok && r.1) r.2
          else
            do_defrag_loop fuel ok w1
        else
          do_defrag_loop fuel ok w1
      | Dir.done errno =>
        if errno ≠ 0 then
          do_defrag_loop fuel ok
            { (show_path_errno w none errno) with stack := stack_pop w.stack }
        else
          do_defrag_loop fuel ok { w with stack := stack_pop w.stack }

/-- The function do_defrag of defrag.c for the mount point whose system calls are answered
by a and whose entry stream is root; fsid0 is the initial content of the fsid buffer. The
result is the returned flag and the log. The output of the verbose mode on stdout and
stack_deinit, which only releases memory, are left out. -/
def do_defrag (fuel : Nat) (mountpoint : String) (a : Answers) (root : Dir)
    (fsid0 : List Nat) : Option (Bool × List Event) :=
  let r := process mountpoint a root { stack := stack_init, fsid := fsid0, log := [] }
  match do_defrag_loop fuel r.1 r.2 with
  | none => none
  | some (ok, w) => some (ok, w.log)

/-! ### The content of the stack, for stating properties -/

/-- All slots of a list of full chunks, the most recently pushed first. -/
def chunk_entries : List stack_chunk → List stack_entry
  | [] => []
  | c :: previous => c.entries.reverse ++ chunk_entries previous

/-- The entries that are on the stack, the current one first and the root last. -/
def stack.entries (s : stack) : List stack_entry :=
  match s.top with
  | [] => []
  | c :: previous => (c.entries.take s.top_used).reverse ++ chunk_entries previous

/-- The shape that stack_init, stack_push and stack_pop maintain: every chunk has
CHUNK_CAPACITY slots, top_used is 0 when there is no chunk and between 1 and
CHUNK_CAPACITY otherwise. -/
def stack.WF (s : stack) : Prop :=
  (∀ c ∈ s.top, c.entries.length = CHUNK_CAPACITY) ∧
  (∀ c ∈ s.free_chunks, c.entries.length = CHUNK_CAPACITY) ∧
  (s.top = [] → s.top_used = 0) ∧
  (s.top ≠ [] → 1 ≤ s.top_used ∧ s.top_used ≤ CHUNK_CAPACITY)

/-- Whether the next stack_push has to call malloc: it needs a chunk and none is free. -/
def stack.needs_malloc (s : stack) : Bool :=
  (s.top.isEmpty || s.top_used == CHUNK_CAPACITY) && s.free_chunks.isEmpty

/-- The identity of a stack entry: device major, device minor, inode. -/
def stack_entry.id (e : stack_entry) : Nat × Nat × Nat := (e.dev_major, e.dev_minor, e.inode)

/-- The identity that statx reports. -/
def statx.id (sb : statx) : Nat × Nat × Nat := (sb.stx_dev_major, sb.stx_dev_minor, sb.stx_ino)

/-- Apply a callback to the entries of a list in order until it returns false; the result
tells whether it never did. -/
def visit_flag {σ : Type} (cb : stack_entry → σ → Bool × σ) : List stack_entry → σ → Bool × σ
  | [], cookie => (true, cookie)
  | e :: l, cookie =>
    match cb e cookie with
    | (false, cookie1) => (false, cookie1)
    | (true, cookie1) => visit_flag cb l cookie1

/-- Apply a callback to the entries of a list in order until it returns false. -/
def visit {σ : Type} (cb : stack_entry → σ → Bool × σ) (l : List stack_entry) (cookie : σ) : σ :=
  (visit_flag cb l cookie).2

/-- All slots of a list of full chunks given lowest first, the first pushed first. -/
def chunk_entries_up : List stack_chunk → List stack_entry
  | [] => []
  | c :: above => c.entries ++ chunk_entries_up above

/-- Whether some entry of the list has the given identity. -/
def on_stack (id : Nat × Nat × Nat) (l : List stack_entry) : Bool :=
  l.any (fun e => decide (e.id = id))

/-- The text that print_path writes for a list of entries given root first. -/
def path_text : List stack_entry → String
  | [] => ""
  | e :: l => e.name ++ "/" ++ path_text l

/-- The device number pair that statx reports. -/
def statx.dev (sb : statx) : Nat × Nat := (sb.stx_dev_major, sb.stx_dev_minor)

/-- The device number pair of a stack entry. -/
def stack_entry.dev (e : stack_entry) : Nat × Nat := (e.dev_major, e.dev_minor)

/-- What an object is for the walk, as its own answers tell: a regular file or a directory
of the target filesystem type (with what statx reports), or anything else. -/
inductive NodeKind
  | regular_file (sb : statx)
  | directory (sb : statx)
  | other

/-- The kind of the object behind a name. -/
def Answers.kind (a : Answers) : NodeKind :=
  match a.statx, a.fstatfs with
  | Except.ok sb, Except.ok f_type =>
    if f_type ≠ BTRFS_SUPER_MAGIC then NodeKind.other
    else if S_ISREG sb.stx_mode then NodeKind.regular_file sb
    else if S_ISDIR sb.stx_mode then NodeKind.directory sb
    else NodeKind.other
  | _, _ => NodeKind.other

/-- The object behind the name can be opened by lines 217-295 of process: openat succeeds,
statx has filled in type and inode, and the descriptor can be reopened. -/
def Answers.opens (a : Answers) (sb : Defrag.statx) : Prop :=
  a.openat = Except.ok () ∧
  sb.stx_mask &&& (STATX_TYPE ||| STATX_INO) = STATX_TYPE ||| STATX_INO ∧
  a.reopen = Except.ok ()

/-- The d_type values that the filter of do_defrag (line 467) lets through. -/
def listed (d_type : Nat) : Prop := d_type = DT_DIR ∨ d_type = DT_REG ∨ d_type = DT_UNKNOWN

/-- A cycle-free tree that lies in the one target filesystem with identity token fsid, seen
from a directory whose ancestors (itself included) have the identities anc and whose device
number pair is pdev: apart from the entries . and .., every regular file and every
directory of the target filesystem type is listed with a matching d_type and can be
opened; no directory has the identity of one of its ancestors; a directory with a new
device number pair is not the empty-subvolume placeholder (inode 2) and belongs to the
filesystem fsid; and the resources needed to push a directory are available. Nothing is
asked of objects that are neither, nor of how an entry stream ends. -/
def Clean (fsid : List Nat) : List (Nat × Nat × Nat) → Nat × Nat → Dir → Prop
  | _, _, Dir.done _ => True
  | anc, pdev, Dir.entry d_type d_name a sub rest =>
    Clean fsid anc pdev rest ∧
    (d_name = "." ∨ d_name = ".." ∨
      match a.kind with
      | NodeKind.other => True
      | NodeKind.regular_file sb => listed d_type ∧ a.opens sb
      | NodeKind.directory sb =>
        listed d_type ∧ a.opens sb ∧ sb.id ∉ anc ∧
        (sb.dev ≠ pdev → sb.stx_ino ≠ 2 ∧ a.fs_info = Except.ok fsid) ∧
        a.strdup = true ∧ a.fdopendir = Except.ok () ∧ a.malloc = true ∧
        Clean fsid (sb.id :: anc) sb.dev sub)

/-- Following the words of the specification, with the traversal root left to the caller:
the pre-order sequence of the regular files and of the directories whose device number
pair differs from that of their parent, as the texts of their paths. The entries . and ..
are not nodes of the tree, and nothing below an object of another kind is part of it. -/
def expected_calls : Nat × Nat → String → Dir → List String
  | _, _, Dir.done _ => []
  | pdev, pfx, Dir.entry _ d_name a sub rest =>
    (if d_name = "." ∨ d_name = ".." then []
     else
      match a.kind with
      | NodeKind.other => []
      | NodeKind.regular_file _ => [pfx ++ d_name]
      | NodeKind.directory sb =>
        (if sb.dev ≠ pdev then [pfx ++ d_name] else []) ++
          expected_calls sb.dev (pfx ++ strip_trailing_slashes d_name ++ "/") sub)
    ++ expected_calls pdev pfx rest

/-- The number N of regular files of the tree, counted as expected_calls walks it. -/
def regular_files : Dir → Nat
  | Dir.done _ => 0
  | Dir.entry _ d_name a sub rest =>
    (if d_name = "." ∨ d_name = ".." then 0
     else
      match a.kind with
      | NodeKind.other => 0
      | NodeKind.regular_file _ => 1
      | NodeKind.directory _ => regular_files sub)
    + regular_files rest

/-- The number M of directories of the tree whose device number pair differs from that of
their parent, the parent of the outermost directories having the pair pdev. -/
def subvolume_roots : Nat × Nat → Dir → Nat
  | _, Dir.done _ => 0
  | pdev, Dir.entry _ d_name a sub rest =>
    (if d_name = "." ∨ d_name = ".." then 0
     else
      match a.kind with
      | NodeKind.other => 0
      | NodeKind.regular_file _ => 0
      | NodeKind.directory sb => (if sb.dev ≠ pdev then 1 else 0) + subvolume_roots sb.dev sub)
    + subvolume_roots pdev rest

/-- The states of the walk that can be reached from the empty stack by calls of process,
by reads of the current entry stream, and by stack_pop on a non-empty stack. -/
inductive Reachable : Walk → Prop
  | init (fsid0 : List Nat) : Reachable { stack := stack_init, fsid := fsid0, log := [] }
  | process (name : String) (a : Answers) (sub : Dir) (w : Walk) :
      Reachable w → Reachable (process name a sub w).2
  | readdir (rest : Dir) (w : Walk) :
      Reachable w → stack_empty w.stack = false →
      Reachable { w with stack := stack_advance w.stack rest }
  | report (errno : Nat) (w : Walk) : Reachable w → Reachable (show_path_errno w none errno)
  | pop (w : Walk) :
      Reachable w → stack_empty w.stack = false →
      Reachable { w with stack := stack_pop w.stack }

/-- The paths of the BTRFS_IOC_DEFRAG_RANGE requests of a log, in order. -/
def defrag_calls : List Event → List String
  | [] => []
  | Event.defrag path :: l => path :: defrag_calls l
  | _ :: l => defrag_calls l

end Defrag

/-! ## Example environments -/

namespace Examples

/-- A filesystem that declares two devices, with ids 1 and 2. -/
def two_devices : Util.DeviceWorld :=
  { fs_info := Except.ok { max_id := 2, num_devices := 2 },
    dev_info := fun id => if id = 1 ∨ id = 2 then Except.ok 4096 else Except.error ENODEV }

/-- A filesystem with the single device 1. -/
def one_device : Util.DeviceWorld :=
  { fs_info := Except.ok { max_id := 1, num_devices := 1 },
    dev_info := fun id => if id = 1 then Except.ok 4096 else Except.error ENODEV }

/-- Two devices; the thread of the first is created, thrd_create fails for the second. -/
def spawn_fails_at_second : Scrub.World :=
  { devices := two_devices,
    thrd_create := fun slot => if slot = 0 then thrd_rc.thrd_success else thrd_rc.thrd_error }

/-- One device; the first poll reports a termination signal, and the scrub call of the
worker then fails with ECANCELED. -/
def scrub_interrupted : Scrub.World :=
  { devices := one_device,
    polls := [{ sig_in := true }],
    worker := fun _ => { ioctl_ret := -1, ioctl_errno := ECANCELED } }

/-- A balance whose worker reports completion at the first poll, no signal having arrived,
and whose balance call failed with ECANCELED. -/
def balance_cancelled_elsewhere : Balance.World :=
  { polls := [{ efd_in := true, efd_read := Except.ok 1 }],
    worker := { ioctl_ret := -1, ioctl_errno := ECANCELED } }

/-- Two devices, both scrubs succeed; device 2 reports three checksum errors. -/
def checksum_errors_on_second : Scrub.World :=
  { devices := two_devices,
    polls := [{ efd_in := true, efd_read := Except.ok 2 }],
    worker := fun slot => if slot = 1 then { progress := { csum_errors := 3 } } else {} }

/-- Answers for a regular file of the btrfs filesystem with the given device number and inode. -/
def reg (dev_minor ino : Nat) : Defrag.Answers :=
  { statx := Except.ok { stx_mode := Defrag.S_IFREG ||| 0o644, stx_ino := ino,
                         stx_dev_major := 0, stx_dev_minor := dev_minor } }

/-- Answers for a directory of the btrfs filesystem with the given device number and inode;
the filesystem reports the identity token fsid. -/
def dir (dev_minor ino : Nat) (fsid : List Nat) : Defrag.Answers :=
  { statx := Except.ok { stx_mode := Defrag.S_IFDIR ||| 0o755, stx_ino := ino,
                         stx_dev_major := 0, stx_dev_minor := dev_minor },
    fs_info := Except.ok fsid }

/-- The entries . and .. that every directory stream starts with. -/
def dots (dev_minor ino : Nat) (fsid : List Nat) (rest : Defrag.Dir) : Defrag.Dir :=
  Defrag.Dir.entry Defrag.DT_DIR "." (dir dev_minor ino fsid) (Defrag.Dir.done 0)
    (Defrag.Dir.entry Defrag.DT_DIR ".." (dir dev_minor ino fsid) (Defrag.Dir.done 0) rest)

/-- The scenario of the specification: the root directory holds the file a, the directory b,
which is the root of another subvolume of the same filesystem and holds the file c, and the
directory d, on which a filesystem of another type (ext4) is mounted, holding the file e. -/
def scenario : Defrag.Dir :=
  dots 30 256 [7]
    (Defrag.Dir.entry Defrag.DT_REG "a" (reg 30 257) (Defrag.Dir.done 0)
    (Defrag.Dir.entry Defrag.DT_DIR "b" (dir 31 256 [7])
      (dots 31 256 [7]
        (Defrag.Dir.entry Defrag.DT_REG "c" (reg 31 257) (Defrag.Dir.done 0)
        (Defrag.Dir.done 0)))
    (Defrag.Dir.entry Defrag.DT_DIR "d"
      { (dir 40 2 []) with fstatfs := Except.ok 0xEF53 }
      (Defrag.Dir.entry Defrag.DT_REG "e"
        { (reg 40 12) with fstatfs := Except.ok 0xEF53 } (Defrag.Dir.done 0)
        (Defrag.Dir.done 0))
    (Defrag.Dir.done 0))))

/-- Answers for the mount point /mnt of the scenario. -/
def mnt : Defrag.Answers := dir 30 256 [7]

/-- A regular file f whose device number pair differs from that of the directory that
lists it and whose filesystem reports another identity token than the root. -/
def foreign_file : Defrag.Dir :=
  Defrag.Dir.entry Defrag.DT_REG "f" { (reg 50 300) with fs_info := Except.ok [9] }
    (Defrag.Dir.done 0) (Defrag.Dir.done 0)

/-- A chain of n nested directories named d, the innermost holding the given stream. -/
def nest : Nat → Defrag.Dir → Defrag.Dir
  | 0, inner => inner
  | n + 1, inner =>
    Defrag.Dir.entry Defrag.DT_DIR "d" (dir 30 (300 + n) [7]) (nest n inner) (Defrag.Dir.done 0)

/-- Seven nested directories below the root, so that eight entries fill the first chunk of
the stack; the innermost holds a directory x, for whose push malloc fails, and after it a
regular file f. -/
def deep : Defrag.Dir :=
  nest 7
    (Defrag.Dir.entry Defrag.DT_DIR "x" { (dir 30 400 [7]) with malloc := false }
      (Defrag.Dir.entry Defrag.DT_REG "inner" (reg 30 401) (Defrag.Dir.done 0)
        (Defrag.Dir.done 0))
    (Defrag.Dir.entry Defrag.DT_REG "f" (reg 30 402) (Defrag.Dir.done 0) (Defrag.Dir.done 0)))

/-- The root holds a directory bad, whose entry stream fails with errno 5 (EIO) at the first
readdir, and after it a regular file f. -/
def unreadable : Defrag.Dir :=
  Defrag.Dir.entry Defrag.DT_DIR "bad" (dir 30 300 [7]) (Defrag.Dir.done 5)
    (Defrag.Dir.entry Defrag.DT_REG "f" (reg 30 301) (Defrag.Dir.done 0) (Defrag.Dir.done 0))

/-- The root holds a directory loop with the identity of the root itself, and after it a
regular file f. -/
def cyclic : Defrag.Dir :=
  Defrag.Dir.entry Defrag.DT_DIR "loop" (dir 30 256 [7])
    (Defrag.Dir.entry Defrag.DT_REG "again" (reg 30 301) (Defrag.Dir.done 0) (Defrag.Dir.done 0))
    (Defrag.Dir.entry Defrag.DT_REG "f" (reg 30 301) (Defrag.Dir.done 0) (Defrag.Dir.done 0))

/-- A directory other on which another btrfs filesystem is mounted: its device number pair
is new and its filesystem reports the identity token 9. -/
def foreign_dir : Defrag.Answers := dir 50 256 [9]

/-- The state of the walk once the root /mnt of the scenario has been admitted. -/
def at_root : Defrag.Walk :=
  (Defrag.process "/mnt" mnt scenario { stack := Defrag.stack_init, fsid := [], log := [] }).2

/-- Answers for the directory x: every call succeeds, but malloc would fail. -/
def x_answers : Defrag.Answers := { (dir 30 400 [7]) with malloc := false }

/-- The stream of the directory x: one regular file. -/
def inside_x : Defrag.Dir :=
  Defrag.Dir.entry Defrag.DT_REG "inner" (reg 30 401) (Defrag.Dir.done 0) (Defrag.Dir.done 0)

/-- The stream that follows the entry x: one regular file f. -/
def after_x : Defrag.Dir :=
  Defrag.Dir.entry Defrag.DT_REG "f" (reg 30 402) (Defrag.Dir.done 0) (Defrag.Dir.done 0)

/-- The stream of the innermost directory of deep: the directory x, then the file f. -/
def innermost : Defrag.Dir :=
  Defrag.Dir.entry Defrag.DT_DIR "x" x_answers inside_x after_x

/-- A stack entry of the filesystem of the scenario with the given inode and stream. -/
def ent (ino : Nat) (handle : Defrag.Dir) : Defrag.stack_entry :=
  { dev_major := 0, dev_minor := 30, inode := ino, name := "d", dir_handle := handle }

/-- A walk whose stack holds eight directories, which fill its only chunk; the current one
is about to deliver the directory x of innermost. -/
def eight_deep : Defrag.Walk :=
  { stack :=
      { top := [{ entries := [ent 256 (Defrag.Dir.done 0), ent 300 (Defrag.Dir.done 0),
                  ent 301 (Defrag.Dir.done 0), ent 302 (Defrag.Dir.done 0),
                  ent 303 (Defrag.Dir.done 0), ent 304 (Defrag.Dir.done 0),
                  ent 305 (Defrag.Dir.done 0), ent 306 innermost] }],
        top_used := 8, free_chunks := [] },
    fsid := [7], log := [] }

/-- The state of the walk once the root /mnt holding the stream cyclic has been admitted. -/
def at_cyclic_root : Defrag.Walk :=
  (Defrag.process "/mnt" mnt cyclic { stack := Defrag.stack_init, fsid := [], log := [] }).2

end Examples

/-! ## Progress display (scrub.c lines 170-178, balance.c lines 97-104) -/

/-- The modulus of unsigned int arithmetic. -/
def UINT_MOD : Nat := 2 ^ 32

/-- Lines 170-178 of scrub.c: the value of permille for the sum bytes_scrubbed and the
bytes_used of the device, both uint64_t; the product is computed in uint64_t and the
quotient is stored in an unsigned int. -/
def Scrub.permille (bytes_scrubbed bytes_used : Nat) : Nat :=
  if bytes_used = 0 then 500
  else if bytes_scrubbed > bytes_used then 1000
  else (bytes_scrubbed * 1000 % UINT64_MOD / bytes_used) % UINT_MOD

/-- Line 171 of scrub.c: the sum of the two byte counters, in uint64_t. -/
def Scrub.bytes_scrubbed (p : btrfs_scrub_progress) : Nat :=
  (p.data_bytes_scrubbed + p.tree_bytes_scrubbed) % UINT64_MOD

/-- Lines 97-104 of balance.c: the value of permille for the counters considered and
expected of the balance, both uint64_t. -/
def Balance.permille (considered expected : Nat) : Nat :=
  if expected = 0 then 500
  else if considered > expected then 1000
  else (considered * 1000 % UINT64_MOD / expected) % UINT_MOD

/-- Following the words of the specification: the progress in tenths of a percent is
floor(1000 * min(observed, expected) / expected), and the fixed value 500 when expected
is zero. -/
def progress_tenths (observed expected : Nat) : Nat :=
  if expected = 0 then 500 else 1000 * min observed expected / expected

/-! ## Runs of the traversal stack, for stating properties -/

namespace Defrag

/-- The number of chunks that the stack holds, linked from top or on its free list. A chunk
comes into being only by the malloc of stack_push (lines 55-61), and neither stack_push nor
stack_pop releases one. -/
def stack.chunks (s : stack) : Nat := s.top.length + s.free_chunks.length

/-- The number of chunks that stack_push allocates when it pushes e on s, malloc
succeeding: the chunks that the stack holds after the call and did not hold before. -/
def stack_push_mallocs (s : stack) (e : stack_entry) : Nat :=
  (stack_push true s e).2.chunks - s.chunks

/-- The stacks reached from the initialised stack by stack_push and stack_pop, with the
entries that were pushed and not yet popped, the most recent first. -/
inductive Built : stack → List stack_entry → Prop
  | init : Built stack_init []
  | push (malloc_ok : Bool) (s : stack) (l : List stack_entry) (e : stack_entry) :
      Built s l → (stack_push malloc_ok s e).1 = true →
      Built (stack_push malloc_ok s e).2 (e :: l)
  | pop (s : stack) (e : stack_entry) (l : List stack_entry) :
      Built s (e :: l) → Built (stack_pop s) l

/-- A callback that always continues and records the entries it is given, in order. -/
def record (e : stack_entry) (seen : List stack_entry) : Bool × List stack_entry :=
  (true, seen ++ [e])

end Defrag

namespace Examples

end Examples

/-! ## Device enumeration, for stating properties -/

/-- The largest value of a uint64_t. -/
def UINT64_MAX : Nat := 2 ^ 64 - 1

namespace Util

/-- A callback that accepts every device and records the id it was called with. -/
def accept_and_record (_ : btrfs_ioctl_fs_info_args) (d : btrfs_ioctl_dev_info_args)
    (seen : List Nat) (log : Log) : Bool × List Nat × Log :=
  (true, seen ++ [d.devid], log)

/-- Whether BTRFS_IOC_DEV_INFO succeeds for the device id. -/
def device_exists (dev_info : Nat → Except Nat Nat) (id : Nat) : Bool :=
  match dev_info id with
  | Except.ok _ => true
  | Except.error _ => false

/-- The existing device ids of the interval [start, start + n), in ascending order. -/
def existing_ids (dev_info : Nat → Except Nat Nat) (start n : Nat) : List Nat :=
  (List.range' start n).filter (device_exists dev_info)

end Util

namespace Examples

/-- A filesystem that declares two devices and the largest device id a uint64_t can hold,
while BTRFS_IOC_DEV_INFO finds a device under that id only. -/
def last_id_only : Util.DeviceWorld :=
  { fs_info := Except.ok { max_id := UINT64_MAX, num_devices := 2 },
    dev_info := fun id => if id = UINT64_MAX then Except.ok 4096 else Except.error ENODEV }

/-- A filesystem that declares three devices with ids up to 5; devices 1 and 4 exist. -/
def sparse_short : Util.DeviceWorld :=
  { fs_info := Except.ok { max_id := 5, num_devices := 3 },
    dev_info := fun id => if id = 1 ∨ id = 4 then Except.ok 4096 else Except.error ENODEV }

end Examples

namespace Examples

/-- Answers for the root directory of a read-only subvolume of the filesystem [7]: every
call succeeds but the defragment request, which fails with EROFS. -/
def read_only_subvolume : Defrag.Answers :=
  { (dir 31 256 [7]) with defrag := Except.error EROFS }

end Examples

namespace Defrag

/-- The body of the while loop of do_defrag (lines 461-479), run on a non-empty stack: one
readdir on the current directory, then process on the entry, or stack_pop at the end of
the stream. -/
def do_defrag_iteration (ok : Bool) (w : Walk) : Bool × Walk :=
  match (stack_peek w.stack).dir_handle with
  | Dir.entry d_type d_name a sub rest =>
    let w1 := { w with stack := stack_advance w.stack rest }
    if d_type = DT_DIR ∨ d_type = DT_REG ∨ d_type = DT_UNKNOWN then
      if d_name ≠ "." ∧ d_name ≠ ".." then
        let r := process d_name a sub w1
        (ok && r.1, r.2)
      else
        (ok, w1)
    else
      (ok, w1)
  | Dir.done errno =>
    if errno ≠ 0 then
      (ok, { (show_path_errno w none errno) with stack := stack_pop w.stack })
    else
      (ok, { w with stack := stack_pop w.stack })

/-- The state of the while loop of do_defrag after n iterations, or when the stack became
empty if that happens earlier. -/
def do_defrag_iterations : Nat → Bool → Walk → Bool × Walk
  | 0, ok, w => (ok, w)
  | n + 1, ok, w =>
    if stack_empty w.stack then (ok, w)
    else do_defrag_iterations n (do_defrag_iteration ok w).1 (do_defrag_iteration ok w).2

end Defrag

/-! ## The completion protocol of scrub.c as a step model -/

namespace Scrub

/-- Lines 145-146 of scrub.c: assert(count <= remaining); remaining -= count. The result is
the new value of remaining; none is the failure of the assertion. -/
def monitor_read (count remaining : Nat) : Option Nat :=
  if count ≤ remaining then some (remaining - count) else none

/-- The state of the completion protocol between the workers and the monitor loop: per
started worker whether its thread_proc has executed eventfd_write(ti->efd, 1) (line 50),
the value of the eventfd counter, the variable remaining of the monitor, whether
assert(count <= remaining) has failed, and the sum of the counts that eventfd_read has
delivered so far (a ghost variable). -/
structure Completion where
  posted : List Bool := []
  counter : Nat := 0
  remaining : Nat := 0
  assert_failed : Bool := false
  read_total : Nat := 0
  deriving DecidableEq, Repr

/-- The state when the monitor loop is entered with thread_count workers (line 122): no
worker has posted, the counter is 0 as eventfd(0, 0) created it, remaining is
thread_count. -/
def Completion.start (thread_count : Nat) : Completion :=
  { posted := List.replicate thread_count false, remaining := thread_count }

/-- The step of the worker of slot i: its eventfd_write(ti->efd, 1) adds 1 to the counter.
thread_proc is straight-line code, so a worker that has posted takes no further step; the
write blocks while it would take the counter above 2^64 - 2. -/
def Completion.post (s : Completion) (i : Nat) : Option Completion :=
  if i < s.posted.length ∧ s.posted.getD i true = false ∧ s.counter + 1 < UINT64_MOD - 1 then
    some { s with posted := s.posted.set i true, counter := s.counter + 1 }
  else
    none

/-- The step of the monitor (lines 124, 138-146): while remaining is not 0 and the counter
is readable, eventfd_read delivers the counter and resets it to 0, then lines 145-146. -/
def Completion.read (s : Completion) : Option Completion :=
  if s.assert_failed = false ∧ s.remaining ≠ 0 ∧ s.counter ≠ 0 then
    match monitor_read s.counter s.remaining with
    | some r =>
      some { s with counter := 0, remaining := r, read_total := s.read_total + s.counter }
    | none => some { s with counter := 0, assert_failed := true }
  else
    none

/-- The states that the protocol reaches from the start with thread_count workers by any
interleaving of posts and reads. -/
inductive Completion.Reachable (thread_count : Nat) : Completion → Prop
  | start : Completion.Reachable thread_count (Completion.start thread_count)
  | post (i : Nat) (s s1 : Completion) :
      Completion.Reachable thread_count s → s.post i = some s1 →
      Completion.Reachable thread_count s1
  | read (s s1 : Completion) :
      Completion.Reachable thread_count s → s.read = some s1 →
      Completion.Reachable thread_count s1

end Scrub

/-! ## Signal masking (scrub.c lines 248-287, balance.c lines 140-179) -/

/-- The constant SIGINT of signal.h. -/
def SIGINT : Nat := 2
/-- The constant SIGQUIT of signal.h. -/
def SIGQUIT : Nat := 3
/-- The constant SIGTERM of signal.h. -/
def SIGTERM : Nat := 15

/-- The signal mask of the calling thread: whether the signal of the given number is
blocked. -/
abbrev SigMask := Nat → Bool

/-- The set sigs that do_scrub_fd and do_balance_fd build with sigemptyset and sigaddset. -/
def termination_signals : List Nat := [SIGINT, SIGQUIT, SIGTERM]

/-- The mask after a successful sigprocmask(SIG_BLOCK, &set, 0): the union of the mask and
the set. -/
def SIG_BLOCK (set : List Nat) (mask : SigMask) : SigMask :=
  fun signo => mask signo || set.contains signo

/-- The mask after a successful sigprocmask(SIG_UNBLOCK, &set, 0): the signals of the set
are removed from the mask. -/
def SIG_UNBLOCK (set : List Nat) (mask : SigMask) : SigMask :=
  fun signo => mask signo && !set.contains signo

/-- The answers of the system calls that do_scrub_fd and do_balance_fd make themselves. -/
structure SignalWorld where
  /-- The errno of sigprocmask(SIG_BLOCK, &sigs, 0) if it fails. -/
  sigprocmask_block : Option Nat := none
  /-- Result of signalfd(-1, &sigs, 0). -/
  signalfd : Except Nat Unit := Except.ok ()
  /-- Result of eventfd(0, 0). -/
  eventfd : Except Nat Unit := Except.ok ()
  /-- The errno of sigprocmask(SIG_UNBLOCK, &sigs, 0) if it fails. -/
  sigprocmask_unblock : Option Nat := none
  /-- The signals that are pending when sigprocmask(SIG_UNBLOCK, &sigs, 0) lifts the mask:
  those that were generated while they were blocked. Neither function reads the signalfd,
  so a termination signal that poll has reported is among them. -/
  pending : List Nat := []
  /-- Whether the disposition of the signal is SIG_IGN. Otherwise it is SIG_DFL: the
  program installs no handler. -/
  ignored : Nat → Bool := fun _ => false

/-- The signal that terminates the process when sigprocmask(SIG_UNBLOCK, &sigs, 0) lifts
the mask: the first pending signal of the set that is not ignored. The default action of
SIGINT, SIGQUIT and SIGTERM is to terminate the process. -/
def SignalWorld.delivered (sys : SignalWorld) (set : List Nat) : Option Nat :=
  (sys.pending.filter (fun signo => set.contains signo && !sys.ignored signo)).head?

/-- The body that do_scrub_fd (scrub.c lines 258-286) and do_balance_fd (balance.c lines
150-178) share word for word but for the function called once both descriptors exist;
auxfds is the run of that function, none when it does not end. The result is how the body
ends, the log, and the signal mask at that moment. -/
def block_signals_and_run (sys : SignalWorld) (auxfds : Option (Outcome × Log))
    (mask : SigMask) : Option (Outcome × Log × SigMask) :=
  match sys.sigprocmask_block with
  | some errno => some (Outcome.returned false, [Event.perror "sigprocmask" errno], mask)
  | none =>
    let mask1 := SIG_BLOCK termination_signals mask
    let r : Option (Outcome × Log) :=
      match sys.signalfd with
      | Except.error errno => some (Outcome.returned false, [Event.perror "signalfd" errno])
      | Except.ok _ =>
        match sys.eventfd with
        | Except.error errno => some (Outcome.returned false, [Event.perror "eventfd" errno])
        | Except.ok _ => auxfds
    match r with
    | none => none
    | some (Outcome.returned ret, log) =>
      match sys.sigprocmask_unblock with
      | some errno =>
        some (Outcome.abort_called, log ++ [Event.perror "sigprocmask" errno], mask1)
      | none =>
        match sys.delivered termination_signals with
        | some signo =>
          some (Outcome.killed_by_signal signo, log, SIG_UNBLOCK termination_signals mask1)
        | none => some (Outcome.returned ret, log, SIG_UNBLOCK termination_signals mask1)
    | some (o, log) => some (o, log, mask1)

/-- The function do_scrub_fd of scrub.c, called with the signal mask given last. -/
def Scrub.do_scrub_fd (fuel : Nat) (w : Scrub.World) (sys : SignalWorld) (mountpoint : String)
    (verbose : Bool) (mask : SigMask) : Option (Outcome × Log × SigMask) :=
  block_signals_and_run sys (Scrub.do_scrub_fd_auxfds fuel w mountpoint verbose) mask

/-- The function do_balance_fd of balance.c, called with the signal mask given last. -/
def Balance.do_balance_fd (w : Balance.World) (sys : SignalWorld) (mountpoint : String)
    (verbose : Bool) (mask : SigMask) : Option (Outcome × Log × SigMask) :=
  block_signals_and_run sys (Balance.do_balance_fd_auxfds w mountpoint verbose) mask

namespace Examples

/-- A signal mask in which SIGINT is blocked and nothing else. -/
def sigint_blocked : SigMask := fun signo => signo == SIGINT

/-- A signal mask in which only SIGUSR1 (10) is blocked. -/
def sigusr1_blocked : SigMask := fun signo => signo == 10

end Examples

/-! ## main.c -/

namespace Main

/-- The constant EXIT_SUCCESS of stdlib.h. -/
def EXIT_SUCCESS : Int := 0
/-- The constant EXIT_FAILURE of stdlib.h. -/
def EXIT_FAILURE : Int := 1

/-- The five operations of ops.h. -/
inductive Action
  | scrub
  | devstats
  | defrag
  | balance
  | trim
  deriving DecidableEq, Repr

/-- One return of getopt_long (line 30): one of the four options that make getopt_long
store 0 in a flag variable and return 0, or a plain return value. The end of the list
stands for the return value -1. -/
inductive Getopt
  | no_scrub
  | no_defragment
  | no_balance
  | no_trim
  | value (c : Int)
  deriving DecidableEq, Repr

/-- The variables that the option loop of main sets (lines 12-15 and 26). -/
structure Flags where
  scrub : Bool := true
  defrag : Bool := true
  balance : Bool := true
  trim : Bool := true
  verbose : Bool := false
  deriving DecidableEq, Repr

/-- What main does that is visible from outside: its messages and its calls of the
operations, with the position of the mount point among the mount points. -/
inductive Event
  /-- Lines 42-51. -/
  | usage
  /-- Lines 59-60. -/
  | version
  /-- Line 64. -/
  | internal_error
  /-- Line 72. -/
  | no_mountpoint
  /-- A call do_x(argv[optind + i], verbose). -/
  | called (a : Action) (i : Nat) (mountpoint : String) (verbose : Bool)
  deriving DecidableEq, Repr

/-- How main ends: it returns a status, or an operation has terminated the process. -/
inductive Exit
  | status (code : Int)
  | terminated (o : Outcome)
  deriving DecidableEq, Repr

/-- The option loop of main (lines 27-68): the flags when getopt_long has returned -1, or
the status and the message of a return from inside the loop. -/
def parse_options : List Getopt → Flags → Except (Int × List Event) Flags
  | [], f => Except.ok f
  | Getopt.no_scrub :: rest, f => parse_options rest { f with scrub := false }
  | Getopt.no_defragment :: rest, f => parse_options rest { f with defrag := false }
  | Getopt.no_balance :: rest, f => parse_options rest { f with balance := false }
  | Getopt.no_trim :: rest, f => parse_options rest { f with trim := false }
  | Getopt.value c :: rest, f =>
    if c = 63 then Except.error (EXIT_FAILURE, [])
    else if c = 0 then parse_options rest f
    else if c = -1 then Except.ok f
    else if c = 104 then Except.error (EXIT_SUCCESS, [Event.usage])
    else if c = 118 then parse_options rest { f with verbose := true }
    else if c = 86 then Except.error (EXIT_SUCCESS, [Event.version])
    else Except.error (EXIT_FAILURE, [Event.internal_error])

/-- One of the for loops of lines 79-99, from the mount point of position i on:
ok &= do_x(argv[i], verbose) for each remaining mount point. The operation is given by its
outcome per position, mount point and verbose flag. -/
def for_each_mountpoint (do_x : Nat → String → Bool → Outcome) (a : Action) (verbose : Bool) :
    List String → Nat → Bool → List Event → Outcome × List Event
  | [], _, ok, log => (Outcome.returned ok, log)
  | mountpoint :: rest, i, ok, log =>
    match do_x i mountpoint verbose with
    | Outcome.returned r =>
      for_each_mountpoint do_x a verbose rest (i + 1) (ok && r)
        (log ++ [Event.called a i mountpoint verbose])
    | o => (o, log ++ [Event.called a i mountpoint verbose])

/-- One of the blocks of lines 78-100: the for loop, if the operation is enabled, entered
with the given value of ok, unless an earlier operation has terminated the process. -/
def run_if (enabled : Bool) (ops : Action → Nat → String → Bool → Outcome) (a : Action)
    (verbose : Bool) (mountpoints : List String) (st : Outcome × List Event) :
    Outcome × List Event :=
  match st with
  | (Outcome.returned ok, log) =>
    if enabled then for_each_mountpoint (ops a) a verbose mountpoints 0 ok log
    else (Outcome.returned ok, log)
  | other => other

/-- The function main of main.c for the given returns of getopt_long and the mount points
argv[optind], ..., argv[argc - 1]; ops gives the outcome of each call of an operation. -/
def main (opts : List Getopt) (mountpoints : List String)
    (ops : Action → Nat → String → Bool → Outcome) : Exit × List Event :=
  match parse_options opts {} with
  | Except.error (code, log) => (Exit.status code, log)
  | Except.ok f =>
    -- lines 71-74
    if mountpoints.isEmpty then (Exit.status EXIT_FAILURE, [Event.no_mountpoint])
    else
      -- lines 77-100
      let st : Outcome × List Event := (Outcome.returned true, [])
      let st := run_if f.scrub ops Action.scrub f.verbose mountpoints st
      let st := run_if true ops Action.devstats f.verbose mountpoints st
      let st := run_if f.defrag ops Action.defrag f.verbose mountpoints st
      let st := run_if f.balance ops Action.balance f.verbose mountpoints st
      let st := run_if f.trim ops Action.trim f.verbose mountpoints st
      -- line 103
      match st with
      | (Outcome.returned ok, log) =>
        (Exit.status (if ok then EXIT_SUCCESS else EXIT_FAILURE), log)
      | (o, log) => (Exit.terminated o, log)

/-- The operations that main runs for the given flags, in the order in which it runs them;
do_devstats cannot be disabled. -/
def enabled_actions (f : Flags) : List Action :=
  (if f.scrub then [Action.scrub] else []) ++ [Action.devstats] ++
    (if f.defrag then [Action.defrag] else []) ++
    (if f.balance then [Action.balance] else []) ++
    (if f.trim then [Action.trim] else [])

/-- The calls of one operation on every mount point from position i on, in order. -/
def calls_of (a : Action) (verbose : Bool) : List String → Nat → List Event
  | [], _ => []
  | mountpoint :: rest, i => Event.called a i mountpoint verbose :: calls_of a verbose rest (i + 1)

/-- Every enabled operation on every mount point: operation by operation, and for each
operation mount point by mount point. -/
def expected_calls (f : Flags) (mountpoints : List String) : List Event :=
  (enabled_actions f).flatMap (fun a => calls_of a f.verbose mountpoints 0)

/-- Whether the operation returned true on every mount point from position i on. -/
def all_succeeded (do_x : Nat → String → Bool → Outcome) (verbose : Bool) :
    List String → Nat → Bool
  | [], _ => true
  | mountpoint :: rest, i =>
    decide (do_x i mountpoint verbose = Outcome.returned true) &&
      all_succeeded do_x verbose rest (i + 1)

end Main

namespace Examples

/-- Operations that all return true, but for the scrub of the first mount point, which
returns false. -/
def first_scrub_fails : Main.Action → Nat → String → Bool → Outcome :=
  fun a i _ _ => Outcome.returned (decide (¬ (a = Main.Action.scrub ∧ i = 0)))

end Examples

/-! ## Theorems: scrub.c, balance.c, util.c -/

/-- When the callback refuses a device, the loop of for_each_device ends at once and
for_each_device returns true (util.c lines 25-27). -/
theorem Util.for_each_device_loop_refused {σ : Type} (mountpoint : String)
    (dev_info : Nat → Except Nat Nat)
    (cb : btrfs_ioctl_fs_info_args → btrfs_ioctl_dev_info_args → σ → Log → Bool × σ × Log)
    (fs_info : btrfs_ioctl_fs_info_args) (fuel dev_id found bytes_used : Nat) (cookie cookie1 : σ)
    (log log1 : Log) (hfound : found < fs_info.num_devices) (hid : dev_id ≤ fs_info.max_id)
    (hdev : dev_info dev_id = Except.ok bytes_used)
    (hcb : cb fs_info { devid := dev_id, bytes_used := bytes_used } cookie log
      = (false, cookie1, log1)) :
    Util.for_each_device_loop mountpoint dev_info cb fs_info (fuel + 1) dev_id found cookie log
      = some (true, cookie1, log1) := by
  have hid2 : ¬ dev_id > fs_info.max_id := by omega
  simp [Util.for_each_device_loop, hfound, hid2, hdev, hcb]

/-- The half of C2 that holds: a balance whose call failed returns false, whatever the
errno. -/
theorem Balance.failed_job_returns_false (w : Balance.World) (mountpoint : String)
    (verbose : Bool) (hcreate : w.thrd_create = thrd_rc.thrd_success)
    (hjoin : w.thrd_join ≠ thrd_rc.thrd_error) (hret : w.worker.ioctl_ret < 0)
    (r : Outcome × Log) (hr : Balance.do_balance_fd_auxfds w mountpoint verbose = some r) :
    r.1 = Outcome.returned false := by
  have hnot : ¬ w.worker.ioctl_ret ≥ 0 := by omega
  unfold Balance.do_balance_fd_auxfds at hr
  rw [hcreate] at hr
  simp only at hr
  rcases hm : Balance.monitor w.polls [Event.balance_started] with _ | ⟨done, log⟩
  · simp [hm] at hr
  · simp only [hm, hjoin, hnot, ↓reduceIte] at hr
    split at hr <;> simp at hr <;> rw [← hr]

/-- The half of C3 that holds: in the result loop of the scrub supervisor a failed job is
reported on stderr and clears the flag unless the supervisor has seen a termination signal
and the errno is ECANCELED. -/
theorem Scrub.present_failed (mountpoint : String) (verbose cancelled : Bool)
    (ti : Scrub.thread_info) (st : Bool × Log) (hret : ti.ioctl_ret < 0) :
    Scrub.present mountpoint verbose cancelled ti st
      = if cancelled = true ∧ ti.ioctl_errno = ECANCELED then st
        else (false, st.2 ++ [Event.scrub_failed mountpoint ti.devid ti.ioctl_errno]) := by
  have hnot : ¬ ti.ioctl_ret ≥ 0 := by omega
  unfold Scrub.present
  rw [if_neg hnot]
  split <;> simp_all

/-- C1 (evaluation of the code): two devices are declared, the worker of the first is
created and thrd_create fails for the second. for_each_device reports success although the
callback refused, so do_scrub_fd_auxfds skips its cleanup branch: no cancel request is
sent, the started worker is not joined, and the run ends in the failure of
assert(threads_started == thread_count) instead of returning false. -/
theorem C1_spawn_failure_skips_cleanup :
    Scrub.do_scrub_fd_auxfds 8 Examples.spawn_fails_at_second "/mnt" false
      = some (Outcome.assert_failed,
          [Event.thread_started 0 1, Event.stderr_line "thrd_create: failed"]) := by
  rfl

/-- C2 (evaluation of the code): one device, a termination signal is observed, the scrub is
cancelled and the scrub call of the worker fails with ECANCELED. do_scrub_fd_auxfds
returns true and writes no diagnostic: the cancelled job is not excluded from success. -/
theorem C2_scrub_cancelled_job_counts_as_success :
    Scrub.do_scrub_fd_auxfds 8 Examples.scrub_interrupted "/mnt" false
      = some (Outcome.returned true,
          [Event.thread_started 0 1, Event.scrub_cancel, Event.thread_joined 0]) := by
  rfl

/-- C3 (evaluation of the code): the balance worker completes on its own, no termination
signal is observed and no cancel request is sent, and the balance call failed with
ECANCELED. do_balance_fd_auxfds returns false without writing any error diagnostic. -/
theorem C3_balance_unrequested_cancel_is_silent :
    Balance.do_balance_fd_auxfds Examples.balance_cancelled_elsewhere "/mnt" false
      = some (Outcome.returned false, [Event.balance_started, Event.balance_joined]) := by
  rfl

/-! ### The result loop of the scrub supervisor -/

namespace Scrub

theorem CHECK_ERROR_log (mountpoint : String) (verbose : Bool) (devid value : Nat)
    (error_name : String) (st : Bool × Log) (e : Event) (he : e ∈ st.2) :
    e ∈ (CHECK_ERROR mountpoint verbose devid value error_name st).2 := by
  unfold CHECK_ERROR
  split
  · split <;> simp [he]
  · exact he

theorem CHECK_ERROR_false (mountpoint : String) (verbose : Bool) (devid value : Nat)
    (error_name : String) (st : Bool × Log) (h : st.1 = false) :
    (CHECK_ERROR mountpoint verbose devid value error_name st).1 = false := by
  unfold CHECK_ERROR
  split
  · split <;> simp [h]
  · exact h

theorem CHECK_ERROR_nonzero (mountpoint : String) (verbose : Bool) (devid value : Nat)
    (error_name : String) (st : Bool × Log) (h : value ≠ 0) :
    (CHECK_ERROR mountpoint verbose devid value error_name st).1 = false ∧
      Event.scrub_detected true mountpoint devid value error_name
        ∈ (CHECK_ERROR mountpoint verbose devid value error_name st).2 := by
  unfold CHECK_ERROR
  simp [h]

theorem CHECK_ERROR_zero (mountpoint : String) (verbose : Bool) (devid : Nat)
    (error_name : String) (st : Bool × Log) :
    (CHECK_ERROR mountpoint verbose devid 0 error_name st).1 = st.1 := by
  unfold CHECK_ERROR
  split <;> simp

theorem present_log (mountpoint : String) (verbose cancelled : Bool) (ti : thread_info)
    (st : Bool × Log) (e : Event) (he : e ∈ st.2) :
    e ∈ (present mountpoint verbose cancelled ti st).2 := by
  unfold present
  split
  · have h8 := CHECK_ERROR_log mountpoint verbose ti.devid ti.progress.unverified_errors
      "unverified" _ e
      (CHECK_ERROR_log mountpoint verbose ti.devid ti.progress.corrected_errors "corrected" _ e
      (CHECK_ERROR_log mountpoint verbose ti.devid ti.progress.uncorrectable_errors
        "uncorrectable" _ e
      (CHECK_ERROR_log mountpoint verbose ti.devid ti.progress.malloc_errors "malloc" _ e
      (CHECK_ERROR_log mountpoint verbose ti.devid ti.progress.super_errors "superblock" _ e
      (CHECK_ERROR_log mountpoint verbose ti.devid ti.progress.verify_errors "verify" _ e
      (CHECK_ERROR_log mountpoint verbose ti.devid ti.progress.csum_errors "checksum" _ e
      (CHECK_ERROR_log mountpoint verbose ti.devid ti.progress.read_errors "read" st e
        he)))))))
    split
    · dsimp only
      split <;> split <;> simp [h8]
    · exact h8
  · split
    · simp [he]
    · exact he

theorem present_false (mountpoint : String) (verbose cancelled : Bool) (ti : thread_info)
    (st : Bool × Log) (h : st.1 = false) :
    (present mountpoint verbose cancelled ti st).1 = false := by
  unfold present
  split
  · have h8 := CHECK_ERROR_false mountpoint verbose ti.devid ti.progress.unverified_errors
      "unverified" _
      (CHECK_ERROR_false mountpoint verbose ti.devid ti.progress.corrected_errors "corrected" _
      (CHECK_ERROR_false mountpoint verbose ti.devid ti.progress.uncorrectable_errors
        "uncorrectable" _
      (CHECK_ERROR_false mountpoint verbose ti.devid ti.progress.malloc_errors "malloc" _
      (CHECK_ERROR_false mountpoint verbose ti.devid ti.progress.super_errors "superblock" _
      (CHECK_ERROR_false mountpoint verbose ti.devid ti.progress.verify_errors "verify" _
      (CHECK_ERROR_false mountpoint verbose ti.devid ti.progress.csum_errors "checksum" _
      (CHECK_ERROR_false mountpoint verbose ti.devid ti.progress.read_errors "read" st
        h)))))))
    split
    · exact h8
    · exact h8
  · split
    · rfl
    · exact h

/-- A nonzero counter of a job whose scrub call succeeded clears the flag and is reported on
stderr with the device id and the name of the counter. -/
theorem present_nonzero (mountpoint : String) (verbose cancelled : Bool) (ti : thread_info)
    (st : Bool × Log) (k : ErrorCounter) (hret : ti.ioctl_ret ≥ 0)
    (hk : k.value ti.progress ≠ 0) :
    (present mountpoint verbose cancelled ti st).1 = false ∧
      Event.scrub_detected true mountpoint ti.devid (k.value ti.progress) k.error_name
        ∈ (present mountpoint verbose cancelled ti st).2 := by
  have key : ∀ st8 : Bool × Log, st8.1 = false →
      Event.scrub_detected true mountpoint ti.devid (k.value ti.progress) k.error_name ∈ st8.2 →
      ((if verbose = true then
          (st8.1,
            (if ti.progress.csum_discards ≠ 0 then
              (if ti.progress.no_csum ≠ 0 then
                st8.2 ++ [Event.scrub_skipped mountpoint ti.devid ti.progress.no_csum]
              else st8.2) ++ [Event.scrub_ignored mountpoint ti.devid ti.progress.csum_discards]
            else
              (if ti.progress.no_csum ≠ 0 then
                st8.2 ++ [Event.scrub_skipped mountpoint ti.devid ti.progress.no_csum]
              else st8.2)))
        else st8).1 = false ∧
       Event.scrub_detected true mountpoint ti.devid (k.value ti.progress) k.error_name ∈
        (if verbose = true then
          (st8.1,
            (if ti.progress.csum_discards ≠ 0 then
              (if ti.progress.no_csum ≠ 0 then
                st8.2 ++ [Event.scrub_skipped mountpoint ti.devid ti.progress.no_csum]
              else st8.2) ++ [Event.scrub_ignored mountpoint ti.devid ti.progress.csum_discards]
            else
              (if ti.progress.no_csum ≠ 0 then
                st8.2 ++ [Event.scrub_skipped mountpoint ti.devid ti.progress.no_csum]
              else st8.2)))
        else st8).2) := by
    intro st8 h1 h2
    split
    · refine ⟨h1, ?_⟩
      dsimp only
      split <;> split <;> simp [h2]
    · exact ⟨h1, h2⟩
  unfold present
  rw [if_pos hret]
  dsimp only
  apply key
  · cases k
    all_goals
      simp only [ErrorCounter.value] at hk
      first
        | exact (CHECK_ERROR_nonzero _ _ _ _ _ _ hk).1
        | (repeat (first
            | exact (CHECK_ERROR_nonzero _ _ _ _ _ _ hk).1
            | apply CHECK_ERROR_false))
  · cases k
    all_goals
      simp only [ErrorCounter.value, ErrorCounter.error_name] at hk ⊢
      first
        | exact (CHECK_ERROR_nonzero _ _ _ _ _ _ hk).2
        | (repeat (first
            | exact (CHECK_ERROR_nonzero _ _ _ _ _ _ hk).2
            | apply CHECK_ERROR_log))

/-- A job whose scrub call succeeded with all eight counters zero leaves the flag as it is. -/
theorem present_clean (mountpoint : String) (verbose cancelled : Bool) (ti : thread_info)
    (st : Bool × Log) (hret : ti.ioctl_ret ≥ 0)
    (hz : ∀ k : ErrorCounter, k.value ti.progress = 0) :
    (present mountpoint verbose cancelled ti st).1 = st.1 := by
  have h1 := hz ErrorCounter.read
  have h2 := hz ErrorCounter.checksum
  have h3 := hz ErrorCounter.verify
  have h4 := hz ErrorCounter.superblock
  have h5 := hz ErrorCounter.malloc
  have h6 := hz ErrorCounter.uncorrectable
  have h7 := hz ErrorCounter.corrected
  have h8 := hz ErrorCounter.unverified
  simp only [ErrorCounter.value] at h1 h2 h3 h4 h5 h6 h7 h8
  unfold present
  rw [if_pos hret, h1, h2, h3, h4, h5, h6, h7, h8]
  dsimp only
  split <;> simp only [CHECK_ERROR_zero]

theorem join_loop_spec (w : World) (mountpoint : String) (verbose cancelled : Bool)
    (threads : List thread_info) :
    ∀ (i0 : Nat) (st : Bool × Log),
      (∀ j, j < threads.length → w.thrd_join (i0 + j) ≠ thrd_rc.thrd_error) →
      ∃ ok log, join_loop w mountpoint verbose cancelled threads i0 st = (Outcome.returned ok, log) ∧
        (∀ e ∈ st.2, e ∈ log) ∧
        (st.1 = false → ok = false) ∧
        (∀ (j : Nat) (k : ErrorCounter), j < threads.length →
          (w.worker (i0 + j)).ioctl_ret ≥ 0 → k.value (w.worker (i0 + j)).progress ≠ 0 →
          ok = false ∧
          Event.scrub_detected true mountpoint (threads.getD j {}).devid
            (k.value (w.worker (i0 + j)).progress) k.error_name ∈ log) ∧
        ((∀ j, j < threads.length → (w.worker (i0 + j)).ioctl_ret ≥ 0 ∧
            ∀ k : ErrorCounter, k.value (w.worker (i0 + j)).progress = 0) → ok = st.1) := by
  induction threads with
  | nil =>
    intro i0 st _
    refine ⟨st.1, st.2, rfl, fun e he => he, fun h => h, ?_, fun _ => rfl⟩
    intro j k hj
    simp at hj
  | cons ti rest ih =>
    intro i0 st hjoin
    have h0 : w.thrd_join i0 ≠ thrd_rc.thrd_error := by
      have := hjoin 0 (by simp)
      simpa using this
    have hrest : ∀ j, j < rest.length → w.thrd_join (i0 + 1 + j) ≠ thrd_rc.thrd_error := by
      intro j hj
      have := hjoin (j + 1) (by simp; omega)
      have e : i0 + (j + 1) = i0 + 1 + j := by omega
      rwa [e] at this
    obtain ⟨ok, log, heq, hlog, hfalse, hdet, hclean⟩ :=
      ih (i0 + 1) (present mountpoint verbose cancelled (joined ti (w.worker i0))
        (st.1, st.2 ++ [Event.thread_joined i0])) hrest
    refine ⟨ok, log, ?_, ?_, ?_, ?_, ?_⟩
    · simp only [join_loop, if_neg h0]
      exact heq
    · intro e he
      apply hlog
      apply present_log
      simp [he]
    · intro hst
      apply hfalse
      apply present_false
      exact hst
    · intro j k hj hret hk
      cases j with
      | zero =>
        simp only [Nat.add_zero] at hret hk ⊢
        have hp := present_nonzero mountpoint verbose cancelled (joined ti (w.worker i0))
          (st.1, st.2 ++ [Event.thread_joined i0]) k hret hk
        refine ⟨hfalse hp.1, ?_⟩
        apply hlog
        simpa [joined] using hp.2
      | succ j =>
        have e : i0 + (j + 1) = i0 + 1 + j := by omega
        rw [e] at hret hk ⊢
        have := hdet j k (by simpa using hj) hret hk
        simpa using this
    · intro hall
      have hc := hclean (by
        intro j hj
        have := hall (j + 1) (by simp; omega)
        have e : i0 + (j + 1) = i0 + 1 + j := by omega
        rwa [e] at this)
      rw [hc]
      have h0 := hall 0 (by simp)
      simp only [Nat.add_zero] at h0
      exact present_clean mountpoint verbose cancelled (joined ti (w.worker i0)) _ h0.1 h0.2

end Scrub

/-- C4: in the result loop of do_scrub_fd_auxfds (every join succeeding), for either
verbosity: if the scrub call of some job succeeded and one of its eight error counters is
nonzero, the aggregate result is false and the log holds a stderr diagnostic with the
device id of that job, the name of the counter and its value, whatever the other jobs
report; if every job succeeded with all eight counters zero, the result is true. -/
theorem C4_scrub_counters_decide_result (w : Scrub.World) (mountpoint : String)
    (verbose cancelled : Bool) (threads : List Scrub.thread_info) (log0 : Log)
    (hjoin : ∀ j, j < threads.length → w.thrd_join j ≠ thrd_rc.thrd_error) :
    ∃ ok log,
      Scrub.join_loop w mountpoint verbose cancelled threads 0 (true, log0)
        = (Outcome.returned ok, log) ∧
      (∀ (j : Nat) (k : Scrub.ErrorCounter), j < threads.length →
        (w.worker j).ioctl_ret ≥ 0 → k.value (w.worker j).progress ≠ 0 →
        ok = false ∧
        Event.scrub_detected true mountpoint (threads.getD j {}).devid
          (k.value (w.worker j).progress) k.error_name ∈ log) ∧
      ((∀ j, j < threads.length → (w.worker j).ioctl_ret ≥ 0 ∧
          ∀ k : Scrub.ErrorCounter, k.value (w.worker j).progress = 0) → ok = true) := by
  obtain ⟨ok, log, heq, _, _, hdet, hclean⟩ :=
    Scrub.join_loop_spec w mountpoint verbose cancelled threads 0 (true, log0)
      (by simpa using hjoin)
  refine ⟨ok, log, heq, ?_, ?_⟩
  · intro j k hj hret hk
    have := hdet j k hj (by simpa using hret) (by simpa using hk)
    simpa using this
  · intro hall
    apply hclean
    simpa using hall

/-! ## Theorems: defrag.c -/

namespace Defrag

/-! ### The chunked stack -/

theorem visit_flag_append {σ : Type} (cb : stack_entry → σ → Bool × σ)
    (l1 l2 : List stack_entry) (c : σ) :
    visit_flag cb (l1 ++ l2) c =
      match visit_flag cb l1 c with
      | (false, c1) => (false, c1)
      | (true, c1) => visit_flag cb l2 c1 := by
  induction l1 generalizing c with
  | nil => simp [visit_flag]
  | cons e l ih =>
    simp only [List.cons_append, visit_flag]
    rcases h : cb e c with ⟨b, c1⟩
    cases b
    · simp
    · simp [ih]

theorem stack_init_WF : stack_init.WF := by
  simp [stack.WF, stack_init]

theorem stack_init_entries : stack_init.entries = [] := rfl

theorem stack_empty_iff (s : stack) : stack_empty s = true ↔ s.top = [] := by
  simp [stack_empty]

theorem entries_eq_nil_iff (s : stack) (h : s.WF) : s.entries = [] ↔ s.top = [] := by
  obtain ⟨h1, _, _, h4⟩ := h
  unfold stack.entries
  cases htop : s.top with
  | nil => simp
  | cons c previous =>
    have hlen := h1 c (by simp [htop])
    have hu := h4 (by simp [htop])
    simp only [List.append_eq_nil, List.reverse_eq_nil_iff, List.take_eq_nil_iff, reduceCtorEq,
      iff_false, not_and]
    intro h
    rcases h with h | h
    · omega
    · rw [h] at hlen
      simp [CHUNK_CAPACITY] at hlen

theorem stack_empty_eq (s : stack) (h : s.WF) : stack_empty s = s.entries.isEmpty := by
  have := entries_eq_nil_iff s h
  rw [Bool.eq_iff_iff]
  simp [stack_empty, this]

theorem take_set_self {α : Type} (l : List α) (n : Nat) (a : α) :
    (l.set n a).take n = l.take n := by
  rw [List.set_take]
  exact List.set_eq_of_length_le (by simp)

theorem entries_of_full (s : stack) (h : s.WF)
    (hc : s.top.isEmpty = true ∨ s.top_used = CHUNK_CAPACITY) :
    s.entries = chunk_entries s.top := by
  obtain ⟨h1, _, _, _⟩ := h
  unfold stack.entries
  cases htop : s.top with
  | nil => rfl
  | cons c previous =>
    have hlen := h1 c (by simp [htop])
    rcases hc with hc | hc
    · simp [htop] at hc
    · simp only [chunk_entries]
      rw [hc, ← hlen, List.take_length]

theorem stack_push_spec (m : Bool) (s : stack) (e : stack_entry) (h : s.WF) :
    (stack_push m s e).2.WF ∧
    ((stack_push m s e).1 = true → (stack_push m s e).2.entries = e :: s.entries) ∧
    ((stack_push m s e).1 = false → (stack_push m s e).2 = s) ∧
    ((stack_push m s e).1 = false ↔ (s.needs_malloc = true ∧ m = false)) := by
  have h8 : CHUNK_CAPACITY = 8 := rfl
  have hWF := h
  obtain ⟨h1, h2, h3, h4⟩ := h
  unfold stack_push stack.needs_malloc
  by_cases hc : s.top.isEmpty = true ∨ s.top_used = CHUNK_CAPACITY
  · rw [if_pos hc]
    have hent := entries_of_full s hWF hc
    have hb : (s.top.isEmpty || s.top_used == CHUNK_CAPACITY) = true := by
      rcases hc with hc | hc <;> simp [hc]
    cases hf : s.free_chunks with
    | nil =>
      cases m
      · simp only [hb]
        exact ⟨hWF, by simp, by simp, by simp⟩
      · simp only [↓reduceIte, hb]
        refine ⟨⟨?_, ?_, ?_, ?_⟩, ?_, ?_, ?_⟩
        · intro c hcm
          simp only [List.mem_cons] at hcm
          rcases hcm with rfl | hcm
          · simp [CHUNK_CAPACITY]
          · exact h1 c hcm
        · simp
        · simp
        · simp [CHUNK_CAPACITY]
        · intro _
          rw [hent]
          simp [stack.entries, CHUNK_CAPACITY, List.take, List.set, List.replicate]
        · simp
        · simp
    | cons c cs =>
      have hlen := h2 c (by simp [hf])
      simp only [hb]
      refine ⟨⟨?_, ?_, ?_, ?_⟩, ?_, ?_, ?_⟩
      · intro c1 hcm
        simp only [List.mem_cons] at hcm
        rcases hcm with rfl | hcm
        · simpa using hlen
        · exact h1 c1 hcm
      · intro c1 hcm
        exact h2 c1 (by simp [hf, hcm])
      · simp
      · simp [CHUNK_CAPACITY]
      · intro _
        have hpos : 0 < c.entries.length := by rw [hlen]; simp [CHUNK_CAPACITY]
        rw [hent]
        cases hce : c.entries with
        | nil => simp [hce] at hpos
        | cons x xs => simp [stack.entries, List.set, List.take]
      · simp
      · simp
  · rw [if_neg hc]
    have hc1 : s.top.isEmpty = false := by
      cases hh : s.top.isEmpty
      · rfl
      · exact absurd (Or.inl hh) hc
    have hc2 : s.top_used ≠ CHUNK_CAPACITY := fun hh => hc (Or.inr hh)
    cases htop : s.top with
    | nil => simp [htop] at hc1
    | cons c previous =>
      have hlen := h1 c (by simp [htop])
      have hu := h4 (by simp [htop])
      have hlt : s.top_used < c.entries.length := by omega
      simp only
      refine ⟨⟨?_, ?_, ?_, ?_⟩, ?_, ?_, ?_⟩
      · intro c1 hcm
        simp only [List.mem_cons] at hcm
        rcases hcm with rfl | hcm
        · simpa using hlen
        · exact h1 c1 (by simp [htop, hcm])
      · exact h2
      · simp
      · intro _
        simp only
        omega
      · intro _
        simp only [stack.entries, htop]
        rw [List.take_succ, take_set_self]
        simp [hlt]
      · simp
      · simp [hc2]

theorem chunk_entries_full (c : stack_chunk) (previous : List stack_chunk)
    (hlen : c.entries.length = CHUNK_CAPACITY) :
    ({ top := c :: previous, top_used := CHUNK_CAPACITY, free_chunks := [] } : stack).entries
      = chunk_entries (c :: previous) := by
  simp only [stack.entries, chunk_entries]
  rw [← hlen, List.take_length]

/-- On a non-empty stack the current entry is the one stack_peek returns, and below it are
the entries of the stack after stack_pop. -/
theorem entries_peek_pop (s : stack) (h : s.WF) (hne : s.top ≠ []) :
    s.entries = stack_peek s :: (stack_pop s).entries := by
  have h8 : CHUNK_CAPACITY = 8 := rfl
  obtain ⟨h1, h2, h3, h4⟩ := h
  cases htop : s.top with
  | nil => exact absurd htop hne
  | cons c previous =>
    have hlen := h1 c (by simp [htop])
    have hu := h4 hne
    obtain ⟨k, hk⟩ : ∃ k, s.top_used = k + 1 := ⟨s.top_used - 1, by omega⟩
    have hklt : k < c.entries.length := by omega
    have hhead : (List.take (k + 1) c.entries).reverse
        = c.entries.getD k default :: (List.take k c.entries).reverse := by
      rw [List.take_succ]
      simp [hklt]
    unfold stack_peek stack_pop
    simp only [stack.entries, htop, hk, Nat.add_sub_cancel]
    rw [hhead]
    by_cases hk0 : k = 0
    · subst hk0
      simp only [↓reduceIte, List.take_zero, List.reverse_nil, List.nil_append, List.cons_append]
      cases hp : previous with
      | nil => simp [chunk_entries]
      | cons c1 p1 =>
        have hlen1 := h1 c1 (by simp [htop, hp])
        simp only [List.isEmpty_cons, Bool.false_eq_true, ↓reduceIte, chunk_entries]
        rw [← hlen1, List.take_length]
    · simp only [hk0, ↓reduceIte, htop, List.cons_append]

theorem stack_pop_WF (s : stack) (h : s.WF) : (stack_pop s).WF := by
  have h8 : CHUNK_CAPACITY = 8 := rfl
  have hWF := h
  obtain ⟨h1, h2, h3, h4⟩ := h
  unfold stack_pop
  cases htop : s.top with
  | nil => simpa [htop] using hWF
  | cons c previous =>
    have hlen := h1 c (by simp [htop])
    have hu := h4 (by simp [htop])
    simp only
    split
    · refine ⟨?_, ?_, ?_, ?_⟩
      · intro c1 hc1
        exact h1 c1 (by simp [htop]; exact Or.inr hc1)
      · intro c1 hc1
        simp only [List.mem_cons] at hc1
        rcases hc1 with rfl | hc1
        · exact hlen
        · exact h2 c1 hc1
      · intro hp
        simp only at hp
        simp [hp]
      · intro hp
        simp only at hp
        have : previous.isEmpty = false := by
          cases previous with
          | nil => exact absurd rfl hp
          | cons _ _ => rfl
        simp [this, h8]
    · refine ⟨?_, h2, ?_, ?_⟩
      · intro c1 hc1
        exact h1 c1 (by rw [htop]; exact hc1)
      · intro hp
        simp [htop] at hp
      · intro _
        simp only
        omega

/-- Advancing the stream of the current entry changes nothing else. -/
theorem stack_advance_spec (s : stack) (rest : Dir) (h : s.WF) (hne : s.top ≠ []) :
    (stack_advance s rest).WF ∧
    (stack_advance s rest).entries = (stack_peek s).advance rest :: (stack_pop s).entries ∧
    (stack_advance s rest).top ≠ [] ∧
    (stack_advance s rest).needs_malloc = s.needs_malloc := by
  have h8 : CHUNK_CAPACITY = 8 := rfl
  have hpp := entries_peek_pop s h hne
  obtain ⟨h1, h2, h3, h4⟩ := h
  cases htop : s.top with
  | nil => exact absurd htop hne
  | cons c previous =>
    have hlen := h1 c (by simp [htop])
    have hu := h4 hne
    obtain ⟨k, hk⟩ : ∃ k, s.top_used = k + 1 := ⟨s.top_used - 1, by omega⟩
    have hklt : k < c.entries.length := by omega
    have hadv : stack_advance s rest
        = { top := { entries := c.entries.set k ((stack_peek s).advance rest) } :: previous,
            top_used := s.top_used, free_chunks := s.free_chunks } := by
      simp [stack_advance, htop, hk]
    rw [hadv]
    refine ⟨⟨?_, h2, ?_, ?_⟩, ?_, ?_, ?_⟩
    · intro c1 hc1
      simp only [List.mem_cons] at hc1
      rcases hc1 with rfl | hc1
      · simpa using hlen
      · exact h1 c1 (by simp [htop, hc1])
    · intro hp
      simp at hp
    · intro _
      exact hu
    · have hs : s.entries = (List.take (k + 1) c.entries).reverse ++ chunk_entries previous := by
        simp [stack.entries, htop, hk]
      rw [hs, List.take_succ] at hpp
      simp only [stack.entries, hk]
      rw [List.take_succ, take_set_self]
      simp only [List.length_set, hklt, List.getElem?_eq_getElem, List.getElem_set_self,
        Option.toList_some, List.reverse_append, List.reverse_cons, List.reverse_nil,
        List.nil_append, List.singleton_append, List.cons_append, List.cons.injEq,
        true_and] at hpp ⊢
      exact hpp.2
    · simp
    · simp [stack.needs_malloc, htop]

/-! ### The two iteration orders -/

theorem visit_flag_single {σ : Type} (cb : stack_entry → σ → Bool × σ) (e : stack_entry)
    (c : σ) : visit_flag cb [e] c = cb e c := by
  simp only [visit_flag]
  rcases cb e c with ⟨b, c1⟩
  cases b <;> rfl

theorem foreach_down_chunk_eq {σ : Type} (cb : stack_entry → σ → Bool × σ)
    (entries : List stack_entry) (i : Nat) (hi : i < entries.length) (c : σ) :
    stack_foreach_down_chunk cb entries i c
      = visit_flag cb (entries.take (i + 1)).reverse c := by
  induction i generalizing c with
  | zero =>
    have : (List.take 1 entries).reverse = [entries.getD 0 default] := by
      cases entries with
      | nil => simp at hi
      | cons x xs => simp
    rw [this, visit_flag_single]
    rfl
  | succ i ih =>
    have hrev : (List.take (i + 1 + 1) entries).reverse
        = entries.getD (i + 1) default :: (List.take (i + 1) entries).reverse := by
      rw [List.take_succ]
      simp [hi]
    rw [hrev]
    simp only [stack_foreach_down_chunk, visit_flag]
    rcases cb (entries.getD (i + 1) default) c with ⟨b, c1⟩
    cases b
    · rfl
    · exact ih (by omega) c1

theorem foreach_down_chunks_eq {σ : Type} (cb : stack_entry → σ → Bool × σ)
    (c0 : stack_chunk) (previous : List stack_chunk)
    (hlen : ∀ c ∈ c0 :: previous, c.entries.length = CHUNK_CAPACITY)
    (i : Nat) (hi : i < CHUNK_CAPACITY) (cookie : σ) :
    stack_foreach_down_chunks cb (c0 :: previous) i cookie
      = visit cb ((c0.entries.take (i + 1)).reverse ++ chunk_entries previous) cookie := by
  induction previous generalizing c0 i cookie with
  | nil =>
    have h0 := hlen c0 (by simp)
    simp only [stack_foreach_down_chunks, chunk_entries, List.append_nil, visit]
    rw [foreach_down_chunk_eq cb c0.entries i (by omega) cookie]
    rcases visit_flag cb (List.take (i + 1) c0.entries).reverse cookie with ⟨b, c1⟩
    cases b <;> rfl
  | cons c1 p ih =>
    have h0 := hlen c0 (by simp)
    have h1 := hlen c1 (by simp)
    simp only [stack_foreach_down_chunks, visit]
    rw [foreach_down_chunk_eq cb c0.entries i (by omega) cookie, visit_flag_append]
    rcases visit_flag cb (List.take (i + 1) c0.entries).reverse cookie with ⟨b, k1⟩
    cases b
    · rfl
    · have := ih c1 (by intro c hc; exact hlen c (by simp at hc ⊢; exact Or.inr hc))
        (CHUNK_CAPACITY - 1) (by simp [CHUNK_CAPACITY]) k1
      simp only [stack_foreach_down_chunks, visit] at this
      simp only [this, chunk_entries]
      have e8 : CHUNK_CAPACITY - 1 + 1 = c1.entries.length := by rw [h1]; rfl
      rw [e8, List.take_length]

/-- On a well-formed stack stack_foreach_down applies the callback to the entries that are
on the stack, from the current one towards the root, until it returns false. -/
theorem stack_foreach_down_eq {σ : Type} (s : stack) (h : s.WF)
    (cb : stack_entry → σ → Bool × σ) (cookie : σ) :
    stack_foreach_down s cb cookie = visit cb s.entries cookie := by
  obtain ⟨h1, _, _, h4⟩ := h
  unfold stack_foreach_down stack.entries
  cases htop : s.top with
  | nil => rfl
  | cons c previous =>
    have hu := h4 (by simp [htop])
    have := foreach_down_chunks_eq cb c previous (by rw [← htop]; exact h1) (s.top_used - 1)
      (by omega) cookie
    rw [this]
    have e : s.top_used - 1 + 1 = s.top_used := by omega
    simp only [e]

theorem foreach_up_chunk_inner {σ : Type} (cb : stack_entry → σ → Bool × σ)
    (entries : List stack_entry) (top_used : Nat) (left : Nat) :
    ∀ (i : Nat) (c : σ), left + i = entries.length →
      stack_foreach_up_chunk cb entries false top_used left i c
        = visit_flag cb (entries.drop i) c := by
  induction left with
  | zero =>
    intro i c hi
    have : entries.drop i = [] := List.drop_eq_nil_of_le (by omega)
    rw [this]
    rfl
  | succ left ih =>
    intro i c hi
    have hlt : i < entries.length := by omega
    rw [List.drop_eq_getElem_cons hlt]
    simp only [stack_foreach_up_chunk, visit_flag]
    have hg : entries.getD i default = entries[i] := by simp [hlt]
    rw [hg]
    rcases cb entries[i] c with ⟨b, c1⟩
    cases b
    · rfl
    · simp only [Bool.false_eq_true, false_and, ↓reduceIte]
      exact ih (i + 1) c1 (by omega)

theorem foreach_up_chunk_top {σ : Type} (cb : stack_entry → σ → Bool × σ)
    (entries : List stack_entry) (top_used : Nat) (htu : top_used ≤ entries.length)
    (left : Nat) :
    ∀ (i : Nat) (c : σ), left + i = entries.length → i < top_used →
      stack_foreach_up_chunk cb entries true top_used left i c
        = (false, (visit_flag cb ((entries.take top_used).drop i) c).2) := by
  induction left with
  | zero =>
    intro i c hi hlt
    omega
  | succ left ih =>
    intro i c hi hlt
    have hlt2 : i < (entries.take top_used).length := by simp; omega
    rw [List.drop_eq_getElem_cons hlt2]
    simp only [stack_foreach_up_chunk, visit_flag]
    have hg : entries.getD i default = (List.take top_used entries)[i] := by
      rw [List.getElem_take]
      have : i < entries.length := by omega
      simp [this]
    rw [hg]
    rcases cb (List.take top_used entries)[i] c with ⟨b, c1⟩
    cases b
    · rfl
    · by_cases he : i + 1 = top_used
      · have : List.drop (i + 1) (List.take top_used entries) = [] :=
          List.drop_eq_nil_of_le (by simp; omega)
        rw [this]
        simp only [he, and_self, ↓reduceIte, visit_flag]
      · simp only [he, and_false, ↓reduceIte]
        exact ih (i + 1) c1 (by omega) (by omega)

theorem foreach_up_chunks_eq {σ : Type} (cb : stack_entry → σ → Bool × σ) (top_used : Nat)
    (htu : 1 ≤ top_used ∧ top_used ≤ CHUNK_CAPACITY) (below : List stack_chunk)
    (ctop : stack_chunk) (hlen : ∀ c ∈ below ++ [ctop], c.entries.length = CHUNK_CAPACITY)
    (cookie : σ) :
    stack_foreach_up_chunks cb top_used (below ++ [ctop]) cookie
      = visit cb (chunk_entries_up below ++ ctop.entries.take top_used) cookie := by
  induction below generalizing cookie with
  | nil =>
    have h0 := hlen ctop (by simp)
    simp only [List.nil_append, stack_foreach_up_chunks, List.isEmpty_nil, chunk_entries_up,
      visit]
    rw [foreach_up_chunk_top cb ctop.entries top_used (by omega) CHUNK_CAPACITY 0 cookie
      (by omega) (by omega)]
    rfl
  | cons c0 b ih =>
    have h0 := hlen c0 (by simp)
    have hb : (b ++ [ctop]).isEmpty = false := by cases b <;> rfl
    have hb2 : (b.append [ctop]).isEmpty = false := hb
    simp only [List.cons_append, stack_foreach_up_chunks, chunk_entries_up,
      List.append_assoc, visit]
    rw [hb2]
    rw [foreach_up_chunk_inner cb c0.entries top_used CHUNK_CAPACITY 0 cookie (by omega),
      visit_flag_append]
    simp only [List.drop_zero]
    rcases visit_flag cb c0.entries cookie with ⟨f, k1⟩
    cases f
    · rfl
    · have := ih (by intro c hc; exact hlen c (by simp at hc ⊢; exact Or.inr hc)) k1
      simpa [visit] using this

theorem chunk_entries_reverse (l : List stack_chunk) :
    (chunk_entries l).reverse = chunk_entries_up l.reverse := by
  have happ : ∀ (l1 : List stack_chunk) (c : stack_chunk),
      chunk_entries_up (l1 ++ [c]) = chunk_entries_up l1 ++ c.entries := by
    intro l1 c
    induction l1 with
    | nil => simp [chunk_entries_up]
    | cons x xs ih => simp [chunk_entries_up, ih]
  induction l with
  | nil => rfl
  | cons c p ih =>
    simp only [chunk_entries, List.reverse_append, List.reverse_reverse, List.reverse_cons, ih,
      happ]

/-- On a well-formed stack stack_foreach_up applies the callback to the entries that are on
the stack, from the root towards the current one, until it returns false. -/
theorem stack_foreach_up_eq {σ : Type} (s : stack) (h : s.WF)
    (cb : stack_entry → σ → Bool × σ) (cookie : σ) :
    stack_foreach_up s cb cookie = visit cb s.entries.reverse cookie := by
  obtain ⟨h1, _, _, h4⟩ := h
  unfold stack_foreach_up stack.entries
  cases htop : s.top with
  | nil => rfl
  | cons c previous =>
    have hu := h4 (by simp [htop])
    simp only [List.reverse_cons, List.reverse_append, List.reverse_reverse]
    rw [foreach_up_chunks_eq cb s.top_used hu previous.reverse c
      (by intro c1 hc1; exact h1 c1 (by simp [htop] at hc1 ⊢; tauto)) cookie,
      chunk_entries_reverse]

theorem visit_print_path (l : List stack_entry) (dest : String) :
    visit print_path_impl l dest = dest ++ path_text l := by
  induction l generalizing dest with
  | nil => simp [visit, visit_flag, path_text]
  | cons e l ih =>
    have := ih (dest ++ e.name ++ "/")
    simp only [visit, visit_flag, print_path_impl, path_text] at this ⊢
    rw [this]
    simp [String.append_assoc]

/-- The text of print_path in terms of the entries on the stack. -/
theorem print_path_eq (s : stack) (h : s.WF) (final_component : Option String) :
    print_path s final_component
      = path_text s.entries.reverse ++ final_component.getD "" := by
  unfold print_path
  rw [stack_foreach_up_eq s h, visit_print_path]
  cases final_component <;> simp

theorem visit_check_loop (l : List stack_entry) (check : loop_check) :
    (visit check_loop l check).loop_found
      = (check.loop_found || on_stack (check.dev_major, check.dev_minor, check.inode) l) := by
  induction l with
  | nil => simp [visit, visit_flag, on_stack]
  | cons e l ih =>
    simp only [visit, visit_flag, check_loop, on_stack, List.any_cons] at ih ⊢
    by_cases hm : check.dev_major = e.dev_major ∧ check.dev_minor = e.dev_minor ∧
        check.inode = e.inode
    · have : e.id = (check.dev_major, check.dev_minor, check.inode) := by
        simp [stack_entry.id, hm.1, hm.2.1, hm.2.2]
      simp [hm, this]
    · have : ¬ e.id = (check.dev_major, check.dev_minor, check.inode) := by
        intro he
        simp only [stack_entry.id, Prod.mk.injEq] at he
        exact hm ⟨he.1.symm, he.2.1.symm, he.2.2.symm⟩
      simp only [hm, ↓reduceIte, this, decide_False, Bool.false_or]
      exact ih

/-- The loop check of process finds a loop exactly when an entry on the stack has the
identity looked for. -/
theorem check_loop_eq (s : stack) (h : s.WF) (a b c : Nat) :
    (stack_foreach_down s check_loop
      { dev_major := a, dev_minor := b, inode := c, loop_found := false }).loop_found
      = on_stack (a, b, c) s.entries := by
  rw [stack_foreach_down_eq s h, visit_check_loop]
  simp

/-! ### Admission of one name -/

theorem on_stack_iff (id : Nat × Nat × Nat) (l : List stack_entry) :
    on_stack id l = true ↔ ∃ e ∈ l, e.id = id := by
  simp [on_stack]

theorem S_ISDIR_not_S_ISREG (mode : Nat) (h : S_ISDIR mode = true) : S_ISREG mode = false := by
  simp only [S_ISDIR, S_ISREG, beq_iff_eq, beq_eq_false_iff_ne] at h ⊢
  rw [h]
  decide

/-- A directory whose identity is on the stack is rejected by the loop check of process. -/
theorem process_loop (name : String) (a : Answers) (sub : Dir) (sb : statx) (w : Walk)
    (hWF : w.stack.WF)
    (hopenat : a.openat = Except.ok ())
    (hstatx : a.statx = Except.ok sb)
    (hmask : sb.stx_mask &&& (STATX_TYPE ||| STATX_INO) = STATX_TYPE ||| STATX_INO)
    (hfstatfs : a.fstatfs = Except.ok BTRFS_SUPER_MAGIC)
    (hdir : S_ISDIR sb.stx_mode = true)
    (hreopen : a.reopen = Except.ok ())
    (hloop : on_stack sb.id w.stack.entries = true) :
    process name a sub w
      = (false, show_path_error w (some name) (Message.text "filesystem loop detected")) := by
  have hl := check_loop_eq w.stack hWF sb.stx_dev_major sb.stx_dev_minor sb.stx_ino
  simp only [statx.id] at hloop
  rw [hloop] at hl
  simp [process, hopenat, hstatx, hmask, hfstatfs, hdir, hreopen, hl]

theorem defrag_calls_append (l1 l2 : List Event) :
    defrag_calls (l1 ++ l2) = defrag_calls l1 ++ defrag_calls l2 := by
  induction l1 with
  | nil => rfl
  | cons e l ih => cases e <;> simp [defrag_calls, ih]

/-- The first half of process_defrag (lines 362-389): the defragment request. -/
theorem process_defrag_eq (name : String) (a : Answers) (sub : Dir) (sb : statx)
    (ndn : Bool) (w : Walk) :
    ∃ (ok : Bool) (log : List Event),
      defrag_calls log
        = (if S_ISREG sb.stx_mode = true ∨ ndn = true then [print_path w.stack (some name)]
           else []) ∧
      (ok = false ↔ (S_ISREG sb.stx_mode = true ∨ ndn = true) ∧
        ∃ errno, a.defrag = Except.error errno ∧ errno ≠ EROFS) ∧
      process_defrag name a sub sb ndn w =
        if S_ISDIR sb.stx_mode then
          if a.strdup then
            match a.fdopendir with
            | Except.ok _ =>
              match stack_push a.malloc w.stack (pushed_entry name sb sub) with
              | (true, s1) => (ok, { w with stack := s1, log := w.log ++ log })
              | (false, s1) =>
                (ok, { w with stack := s1,
                              log := w.log ++ log ++ [Event.perror "malloc" ENOMEM] })
            | Except.error errno =>
              (false, { w with log := w.log ++ log ++
                [Event.path_error (print_path w.stack (some name)) (Message.strerror errno)] })
          else
            (false, { w with log := w.log ++ log ++ [Event.perror "strdup" ENOMEM] })
        else
          (ok, { w with log := w.log ++ log }) := by
  unfold process_defrag
  by_cases hd : S_ISREG sb.stx_mode = true ∨ ndn = true
  · simp only [hd, ↓reduceIte]
    rcases hdef : a.defrag with errno | u
    · by_cases he : errno = EROFS
      · refine ⟨true, [Event.defrag (print_path w.stack (some name))], rfl, ?_, ?_⟩
        · simp [he]
        · simp [he, show_path_errno, show_path_error]
      · refine ⟨false, [Event.defrag (print_path w.stack (some name)),
          Event.path_error (print_path w.stack (some name)) (Message.strerror errno)], rfl, ?_, ?_⟩
        · simp [he]
        · simp [he, show_path_errno, show_path_error]
    · refine ⟨true, [Event.defrag (print_path w.stack (some name))], rfl, ?_, ?_⟩
      · simp
      · simp [show_path_errno, show_path_error]
  · refine ⟨true, [], ?_, ?_, ?_⟩
    · simp [hd, defrag_calls]
    · simp [hd]
    · simp [hd, show_path_errno, show_path_error]
theorem defrag_calls_path_error (l : List Event) (p : String) (m : Message) :
    defrag_calls (l ++ [Event.path_error p m]) = defrag_calls l := by
  simp [defrag_calls_append, defrag_calls]

theorem defrag_calls_perror (l : List Event) (p : String) (m : Nat) :
    defrag_calls (l ++ [Event.perror p m]) = defrag_calls l := by
  simp [defrag_calls_append, defrag_calls]

/-- An object that is neither a regular file nor a directory of the target filesystem type
is left alone by process: no request, nothing pushed. -/
theorem process_other (name : String) (a : Answers) (sub : Dir) (w : Walk)
    (hk : a.kind = NodeKind.other) :
    (process name a sub w).2.stack = w.stack ∧ (process name a sub w).2.fsid = w.fsid ∧
      defrag_calls (process name a sub w).2.log = defrag_calls w.log := by
  unfold process
  rcases ho : a.openat with errno | u
  · by_cases he : errno = ENOENT <;>
      simp [he, show_path_errno, show_path_error, defrag_calls_path_error]
  · rcases hs : a.statx with errno | sb
    · simp [show_path_errno, show_path_error, defrag_calls_path_error]
    · by_cases hm : sb.stx_mask &&& (STATX_TYPE ||| STATX_INO) = STATX_TYPE ||| STATX_INO
      · rcases hf : a.fstatfs with errno | f_type
        · simp [hm, show_path_errno, show_path_error, defrag_calls_path_error]
        · by_cases hb : f_type = BTRFS_SUPER_MAGIC
          · simp only [Answers.kind, hs, hf, hb, ne_eq, not_true_eq_false, ↓reduceIte] at hk
            have hreg : S_ISREG sb.stx_mode = false := by
              cases h : S_ISREG sb.stx_mode
              · rfl
              · simp [h] at hk
            have hdir : S_ISDIR sb.stx_mode = false := by
              cases h : S_ISDIR sb.stx_mode
              · rfl
              · simp [h, hreg] at hk
            simp [hm, hb, hreg, hdir]
          · simp [hm, hb]
      · simp [hm, show_path_errno, show_path_error, defrag_calls_path_error]
theorem kind_regular_file (a : Answers) (sb : statx) (hk : a.kind = NodeKind.regular_file sb) :
    a.statx = Except.ok sb ∧ a.fstatfs = Except.ok BTRFS_SUPER_MAGIC ∧
      S_ISREG sb.stx_mode = true ∧ S_ISDIR sb.stx_mode = false := by
  unfold Answers.kind at hk
  rcases hs : a.statx with errno | sb1
  · simp [hs] at hk
  · rcases hf : a.fstatfs with errno | f_type
    · simp [hs, hf] at hk
    · simp only [hs, hf] at hk
      by_cases hb : f_type = BTRFS_SUPER_MAGIC
      · cases hreg : S_ISREG sb1.stx_mode
        · cases hdir : S_ISDIR sb1.stx_mode <;> simp [hb, hreg, hdir] at hk
        · simp only [hb, ne_eq, not_true_eq_false, ↓reduceIte, hreg, NodeKind.regular_file.injEq]
            at hk
          subst hk
          refine ⟨rfl, by rw [hb], hreg, ?_⟩
          cases hdir : S_ISDIR sb1.stx_mode
          · rfl
          · rw [S_ISDIR_not_S_ISREG _ hdir] at hreg
            exact absurd hreg (by simp)
      · simp [hb] at hk

theorem kind_directory (a : Answers) (sb : statx) (hk : a.kind = NodeKind.directory sb) :
    a.statx = Except.ok sb ∧ a.fstatfs = Except.ok BTRFS_SUPER_MAGIC ∧
      S_ISDIR sb.stx_mode = true ∧ S_ISREG sb.stx_mode = false := by
  unfold Answers.kind at hk
  rcases hs : a.statx with errno | sb1
  · simp [hs] at hk
  · rcases hf : a.fstatfs with errno | f_type
    · simp [hs, hf] at hk
    · simp only [hs, hf] at hk
      by_cases hb : f_type = BTRFS_SUPER_MAGIC
      · cases hreg : S_ISREG sb1.stx_mode
        · cases hdir : S_ISDIR sb1.stx_mode
          · simp [hb, hreg, hdir] at hk
          · simp only [hb, ne_eq, not_true_eq_false, ↓reduceIte, hreg, hdir, Bool.false_eq_true,
              NodeKind.directory.injEq] at hk
            subst hk
            exact ⟨rfl, by rw [hb], hdir, hreg⟩
        · simp [hb, hreg] at hk
      · simp [hb] at hk

/-- A regular file of the target filesystem type that can be opened gets exactly one
defragment request and is not pushed. -/
theorem process_regular (name : String) (a : Answers) (sub : Dir) (sb : statx) (w : Walk)
    (hne : stack_empty w.stack = false)
    (hk : a.kind = NodeKind.regular_file sb) (ho : a.opens sb) :
    (process name a sub w).2.stack = w.stack ∧ (process name a sub w).2.fsid = w.fsid ∧
      defrag_calls (process name a sub w).2.log
        = defrag_calls w.log ++ [print_path w.stack (some name)] := by
  obtain ⟨hs, hf, hreg, hdir⟩ := kind_regular_file a sb hk
  obtain ⟨ho1, ho2, ho3⟩ := ho
  have hp : process name a sub w
      = process_defrag name a sub sb
          (decide (stack_empty w.stack = true ∨
            sb.stx_dev_major ≠ (stack_peek w.stack).dev_major ∨
            sb.stx_dev_minor ≠ (stack_peek w.stack).dev_minor)) w := by
    simp [process, process_boundary, ho1, hs, ho2, hf, hreg, hdir, ho3, hne]
  obtain ⟨ok, log, hlog, _, heq⟩ := process_defrag_eq name a sub sb
    (decide (stack_empty w.stack = true ∨
            sb.stx_dev_major ≠ (stack_peek w.stack).dev_major ∨
            sb.stx_dev_minor ≠ (stack_peek w.stack).dev_minor)) w
  rw [hp, heq]
  simp only [hdir, Bool.false_eq_true, ↓reduceIte, defrag_calls_append, hlog, hreg, true_or,
    and_self]

/-- A directory of the target filesystem type that can be opened, is not on the stack, and
either has the device number pair of its parent or belongs to the filesystem of the root,
is pushed; it gets a defragment request exactly if its device number pair is new. -/
theorem process_directory (name : String) (a : Answers) (sub : Dir) (sb : statx) (w : Walk)
    (hWF : w.stack.WF) (hne : stack_empty w.stack = false)
    (hk : a.kind = NodeKind.directory sb) (ho : a.opens sb)
    (hloop : on_stack sb.id w.stack.entries = false)
    (hfs : sb.dev ≠ (stack_peek w.stack).dev →
      sb.stx_ino ≠ 2 ∧ a.fs_info = Except.ok w.fsid)
    (hstrdup : a.strdup = true) (hfdopendir : a.fdopendir = Except.ok ())
    (hmalloc : a.malloc = true) :
    (process name a sub w).2.stack.WF ∧
    (process name a sub w).2.stack.entries = pushed_entry name sb sub :: w.stack.entries ∧
    (process name a sub w).2.fsid = w.fsid ∧
    defrag_calls (process name a sub w).2.log
      = defrag_calls w.log ++
          (if sb.dev ≠ (stack_peek w.stack).dev then [print_path w.stack (some name)] else []) := by
  obtain ⟨hs, hf, hdir, hreg⟩ := kind_directory a sb hk
  obtain ⟨ho1, ho2, ho3⟩ := ho
  have hl := check_loop_eq w.stack hWF sb.stx_dev_major sb.stx_dev_minor sb.stx_ino
  simp only [statx.id] at hloop
  rw [hloop] at hl
  have hdev : sb.dev ≠ (stack_peek w.stack).dev ↔
      (sb.stx_dev_major ≠ (stack_peek w.stack).dev_major ∨
        sb.stx_dev_minor ≠ (stack_peek w.stack).dev_minor) := by
    simp only [statx.dev, stack_entry.dev, ne_eq, Prod.mk.injEq, not_and]
    tauto
  have hp : process name a sub w
      = process_defrag name a sub sb (decide (sb.dev ≠ (stack_peek w.stack).dev)) w := by
    by_cases hd : sb.dev ≠ (stack_peek w.stack).dev
    · obtain ⟨hino, hfsid⟩ := hfs hd
      have hd2 := hdev.mp hd
      simp [process, process_boundary, ho1, hs, ho2, hf, hreg, hdir, ho3, hne, hl, hd, hd2,
        hino, hfsid]
    · have hd2 : ¬ (sb.stx_dev_major ≠ (stack_peek w.stack).dev_major ∨
        sb.stx_dev_minor ≠ (stack_peek w.stack).dev_minor) := fun h => hd (hdev.mpr h)
      simp [process, process_boundary, ho1, hs, ho2, hf, hreg, hdir, ho3, hne, hl, hd, hd2]
  obtain ⟨ok, log, hlog, _, heq⟩ := process_defrag_eq name a sub sb
    (decide (sb.dev ≠ (stack_peek w.stack).dev)) w
  obtain ⟨hpw, hpe, _, hpf⟩ := stack_push_spec a.malloc w.stack (pushed_entry name sb sub) hWF
  have hp1 : (stack_push a.malloc w.stack (pushed_entry name sb sub)).1 = true := by
    cases h : (stack_push a.malloc w.stack (pushed_entry name sb sub)).1
    · have := hpf.mp h
      rw [hmalloc] at this
      exact absurd this.2 (by simp)
    · rfl
  rw [hp, heq]
  rcases hpush : stack_push a.malloc w.stack (pushed_entry name sb sub) with ⟨b, s1⟩
  rw [hpush] at hp1 hpw hpe
  simp only at hp1 hpw hpe
  subst hp1
  simp only [hdir, ↓reduceIte, hstrdup, hfdopendir, hpw, hpe, defrag_calls_append, hlog, hreg,
    Bool.false_eq_true, false_or, decide_eq_true_eq, true_and]

/-! ### The loop of do_defrag -/

theorem loop_empty (fuel : Nat) (ok : Bool) (w : Walk) (he : stack_empty w.stack = true) :
    do_defrag_loop fuel ok w = some (ok, w) := by
  cases fuel <;> simp [do_defrag_loop, he]

theorem loop_entry_processed (fuel : Nat) (ok : Bool) (w : Walk) (d_type : Nat)
    (d_name : String) (a : Answers) (sub rest : Dir) (hne : stack_empty w.stack = false)
    (hd : (stack_peek w.stack).dir_handle = Dir.entry d_type d_name a sub rest)
    (hl : listed d_type) (hn1 : d_name ≠ ".") (hn2 : d_name ≠ "..") :
    do_defrag_loop (fuel + 1) ok w
      = do_defrag_loop fuel
          (ok && (process d_name a sub { w with stack := stack_advance w.stack rest }).1)
          (process d_name a sub { w with stack := stack_advance w.stack rest }).2 := by
  unfold listed at hl
  simp [do_defrag_loop, hne, hd, hl, hn1, hn2]

theorem loop_entry_skipped (fuel : Nat) (ok : Bool) (w : Walk) (d_type : Nat)
    (d_name : String) (a : Answers) (sub rest : Dir) (hne : stack_empty w.stack = false)
    (hd : (stack_peek w.stack).dir_handle = Dir.entry d_type d_name a sub rest)
    (hs : ¬ listed d_type ∨ d_name = "." ∨ d_name = "..") :
    do_defrag_loop (fuel + 1) ok w
      = do_defrag_loop fuel ok { w with stack := stack_advance w.stack rest } := by
  unfold listed at hs
  simp only [do_defrag_loop, hne, hd, Bool.false_eq_true, ↓reduceIte]
  by_cases hl : d_type = DT_DIR ∨ d_type = DT_REG ∨ d_type = DT_UNKNOWN
  · have : ¬ (d_name ≠ "." ∧ d_name ≠ "..") := by
      rcases hs with hs | hs | hs
      · exact absurd hl hs
      · simp [hs]
      · simp [hs]
    simp [hl, this]
  · simp [hl]

theorem loop_done (fuel : Nat) (ok : Bool) (w : Walk) (errno : Nat)
    (hne : stack_empty w.stack = false)
    (hd : (stack_peek w.stack).dir_handle = Dir.done errno) :
    do_defrag_loop (fuel + 1) ok w
      = do_defrag_loop fuel ok
          { stack := stack_pop w.stack, fsid := w.fsid,
            log := if errno ≠ 0 then
                w.log ++ [Event.path_error (print_path w.stack none) (Message.strerror errno)]
              else w.log } := by
  simp only [do_defrag_loop, hne, hd, Bool.false_eq_true, ↓reduceIte]
  by_cases he : errno = 0 <;> simp [he, show_path_errno, show_path_error]

theorem entries_cons (s : stack) (h : s.WF) (cur : stack_entry) (below : List stack_entry)
    (he : s.entries = cur :: below) :
    stack_empty s = false ∧ s.top ≠ [] ∧ stack_peek s = cur ∧ (stack_pop s).entries = below := by
  have hne : s.top ≠ [] := by
    intro ht
    have := (entries_eq_nil_iff s h).mpr ht
    rw [this] at he
    exact absurd he (by simp)
  have hpp := entries_peek_pop s h hne
  rw [he] at hpp
  simp only [List.cons.injEq] at hpp
  refine ⟨?_, hne, hpp.1.symm, hpp.2.symm⟩
  rw [stack_empty_eq s h, he]
  rfl

theorem path_text_append (l : List stack_entry) (e : stack_entry) :
    path_text (l ++ [e]) = path_text l ++ e.name ++ "/" := by
  induction l with
  | nil => simp [path_text]
  | cons x xs ih => simp [path_text, ih, String.append_assoc]

theorem path_text_advance (cur : stack_entry) (rest : Dir) (below : List stack_entry) :
    path_text (cur.advance rest :: below).reverse = path_text (cur :: below).reverse := by
  simp [path_text_append, stack_entry.advance]

theorem on_stack_false_iff (id : Nat × Nat × Nat) (l : List stack_entry) :
    on_stack id l = false ↔ id ∉ l.map stack_entry.id := by
  simp only [on_stack, List.any_eq_false, decide_eq_true_eq, List.mem_map, not_exists, not_and]

/-- Reading a clean directory stream to its end: the loop arrives, within size-many
iterations, at the state in which the directory has been popped, and on the way it issues
exactly the expected defragment requests. -/
theorem walk_clean (d : Dir) :
    ∀ (fuel : Nat) (ok : Bool) (w : Walk) (cur : stack_entry) (below : List stack_entry),
      w.stack.WF → w.stack.entries = cur :: below → cur.dir_handle = d →
      Clean w.fsid ((cur :: below).map stack_entry.id) cur.dev d → d.size ≤ fuel →
      ∃ (fuel1 : Nat) (ok1 : Bool) (w1 : Walk),
        fuel ≤ fuel1 + d.size ∧
        do_defrag_loop fuel ok w = do_defrag_loop fuel1 ok1 w1 ∧
        w1.stack.WF ∧ w1.stack.entries = below ∧ w1.fsid = w.fsid ∧
        defrag_calls w1.log
          = defrag_calls w.log ++ expected_calls cur.dev (path_text (cur :: below).reverse) d := by
  induction d with
  | done errno =>
    intro fuel ok w cur below hWF hent hcur _ hfuel
    obtain ⟨hne, _, hpeek, hpop⟩ := entries_cons w.stack hWF cur below hent
    simp only [Dir.size] at hfuel
    obtain ⟨k, rfl⟩ : ∃ k, fuel = k + 1 := ⟨fuel - 1, by omega⟩
    refine ⟨k, ok, _, ?_, loop_done k ok w errno hne (by rw [hpeek, hcur]), ?_, hpop, rfl, ?_⟩
    · simp [Dir.size]
    · exact stack_pop_WF w.stack hWF
    · simp only [expected_calls, List.append_nil]
      split
      · exact defrag_calls_path_error _ _ _
      · rfl
  | entry d_type d_name a sub rest ihsub ihrest =>
    intro fuel ok w cur below hWF hent hcur hclean hfuel
    obtain ⟨hne, htop, hpeek, hpop⟩ := entries_cons w.stack hWF cur below hent
    simp only [Dir.size] at hfuel
    obtain ⟨k, rfl⟩ : ∃ k, fuel = k + 1 := ⟨fuel - 1, by omega⟩
    obtain ⟨hadvWF, hadvent, _, _⟩ := stack_advance_spec w.stack rest hWF htop
    rw [hpeek, hpop] at hadvent
    have hhandle : (stack_peek w.stack).dir_handle = Dir.entry d_type d_name a sub rest := by
      rw [hpeek, hcur]
    obtain ⟨hcrest, hcentry⟩ := hclean
    -- the state after the entry has been dealt with, nothing having stayed on the stack
    have key : ∀ (f : Nat) (ok2 : Bool) (w2 : Walk) (calls : List String),
        rest.size ≤ f → k ≤ f + sub.size →
        do_defrag_loop (k + 1) ok w = do_defrag_loop f ok2 w2 →
        w2.stack.WF → w2.stack.entries = cur.advance rest :: below → w2.fsid = w.fsid →
        defrag_calls w2.log = defrag_calls w.log ++ calls →
        ∃ (fuel1 : Nat) (ok1 : Bool) (w1 : Walk),
          k + 1 ≤ fuel1 + (1 + sub.size + rest.size) ∧
          do_defrag_loop (k + 1) ok w = do_defrag_loop fuel1 ok1 w1 ∧
          w1.stack.WF ∧ w1.stack.entries = below ∧ w1.fsid = w.fsid ∧
          defrag_calls w1.log
            = defrag_calls w.log ++
                (calls ++ expected_calls cur.dev (path_text (cur :: below).reverse) rest) := by
      intro f ok2 w2 calls hf hk heq hWF2 hent2 hfsid2 hcalls2
      obtain ⟨f1, ok1, w1, hf1, heq1, hWF1, hent1, hfsid1, hcalls1⟩ :=
        ihrest f ok2 w2 (cur.advance rest) below hWF2 hent2 rfl
          (by rw [hfsid2]; exact hcrest) hf
      refine ⟨f1, ok1, w1, by omega, heq.trans heq1, hWF1, hent1, hfsid1.trans hfsid2, ?_⟩
      rw [hcalls1, hcalls2, List.append_assoc, path_text_advance]
      rfl
    by_cases hdots : d_name = "." ∨ d_name = ".."
    · -- the entries . and .. are skipped
      have hstep := loop_entry_skipped k ok w d_type d_name a sub rest hne hhandle (Or.inr hdots)
      have := key k ok { w with stack := stack_advance w.stack rest } [] (by omega) (by omega)
        hstep hadvWF hadvent rfl (by simp)
      simpa [expected_calls, hdots] using this
    · have hn1 : d_name ≠ "." := fun h => hdots (Or.inl h)
      have hn2 : d_name ≠ ".." := fun h => hdots (Or.inr h)
      have hcentry : match a.kind with
          | NodeKind.other => True
          | NodeKind.regular_file sb => listed d_type ∧ a.opens sb
          | NodeKind.directory sb =>
            listed d_type ∧ a.opens sb ∧ sb.id ∉ (cur :: below).map stack_entry.id ∧
            (sb.dev ≠ cur.dev → sb.stx_ino ≠ 2 ∧ a.fs_info = Except.ok w.fsid) ∧
            a.strdup = true ∧ a.fdopendir = Except.ok () ∧ a.malloc = true ∧
            Clean w.fsid (sb.id :: (cur :: below).map stack_entry.id) sb.dev sub := by
        rcases hcentry with h | h | h
        · exact absurd h hn1
        · exact absurd h hn2
        · exact h
      have hne1 : stack_empty (stack_advance w.stack rest) = false :=
        (entries_cons _ hadvWF _ _ hadvent).1
      have hpeek1 : stack_peek (stack_advance w.stack rest) = cur.advance rest :=
        (entries_cons _ hadvWF _ _ hadvent).2.2.1
      have hpath : print_path (stack_advance w.stack rest) (some d_name)
          = path_text (cur :: below).reverse ++ d_name := by
        rw [print_path_eq _ hadvWF, hadvent]
        simp [path_text_append, stack_entry.advance]
      rcases hkind : a.kind with sb | sb | _
      · -- a regular file
        rw [hkind] at hcentry
        obtain ⟨hl, ho⟩ := hcentry
        have hstep := loop_entry_processed k ok w d_type d_name a sub rest hne hhandle hl hn1 hn2
        obtain ⟨hst, hfs, hcalls⟩ := process_regular d_name a sub sb
          { w with stack := stack_advance w.stack rest } hne1 hkind ho
        have := key k _ _ [path_text (cur :: below).reverse ++ d_name] (by omega) (by omega)
          hstep (by rw [hst]; exact hadvWF) (by rw [hst]; exact hadvent) hfs
          (by rw [hcalls, hpath])
        simpa [expected_calls, hdots, hkind] using this
      · -- a directory
        rw [hkind] at hcentry
        obtain ⟨hl, ho, hanc, hfs, hstrdup, hfdo, hmalloc, hcsub⟩ := hcentry
        have hstep := loop_entry_processed k ok w d_type d_name a sub rest hne hhandle hl hn1 hn2
        have hloop : on_stack sb.id (stack_advance w.stack rest).entries = false := by
          rw [on_stack_false_iff, hadvent]
          simpa [stack_entry.advance, stack_entry.id] using hanc
        obtain ⟨hWF2, hent2, hfsid2, hcalls2⟩ := process_directory d_name a sub sb
          { w with stack := stack_advance w.stack rest } hadvWF hne1 hkind ho hloop
          (by rw [hpeek1]; exact hfs) hstrdup hfdo hmalloc
        simp only [hadvent] at hent2
        obtain ⟨f3, ok3, w3, hf3, heq3, hWF3, hent3, hfsid3, hcalls3⟩ :=
          ihsub k _ _ (pushed_entry d_name sb sub) (cur.advance rest :: below) hWF2 hent2 rfl
            (by
              rw [hfsid2]
              simpa [pushed_entry, stack_entry.id, stack_entry.dev, stack_entry.advance,
                statx.id, statx.dev] using hcsub)
            (by omega)
        have := key f3 ok3 w3
          ((if sb.dev ≠ cur.dev then [path_text (cur :: below).reverse ++ d_name] else []) ++
            expected_calls sb.dev
              (path_text (cur :: below).reverse ++ strip_trailing_slashes d_name ++ "/") sub)
          (by omega) (by omega) (hstep.trans heq3) hWF3 hent3 (hfsid3.trans hfsid2)
          (by
            have hpath2 : path_text (pushed_entry d_name sb sub :: cur.advance rest :: below).reverse
                = path_text (cur :: below).reverse ++ strip_trailing_slashes d_name ++ "/" := by
              rw [List.reverse_cons, path_text_append, path_text_advance]
              rfl
            rw [hcalls3, hcalls2, hpath, hpeek1, hpath2, List.append_assoc]
            rfl)
        simpa [expected_calls, hdots, hkind] using this
      · -- anything else
        by_cases hl : listed d_type
        · have hstep :=
            loop_entry_processed k ok w d_type d_name a sub rest hne hhandle hl hn1 hn2
          obtain ⟨hst, hfs, hcalls⟩ := process_other d_name a sub
            { w with stack := stack_advance w.stack rest } hkind
          have := key k _ _ [] (by omega) (by omega)
            hstep (by rw [hst]; exact hadvWF) (by rw [hst]; exact hadvent) hfs
            (by rw [hcalls]; simp)
          simpa [expected_calls, hdots, hkind] using this
        · have hstep := loop_entry_skipped k ok w d_type d_name a sub rest hne hhandle
            (Or.inl hl)
          have := key k ok { w with stack := stack_advance w.stack rest } [] (by omega)
            (by omega) hstep hadvWF hadvent rfl (by simp)
          simpa [expected_calls, hdots, hkind] using this

/-- The admission of a directory that passes every check of lines 217-358 comes down to
lines 360-447. -/
theorem process_directory_eq (name : String) (a : Answers) (sub : Dir) (sb : statx) (w : Walk)
    (hWF : w.stack.WF) (hne : stack_empty w.stack = false)
    (hk : a.kind = NodeKind.directory sb) (ho : a.opens sb)
    (hloop : on_stack sb.id w.stack.entries = false)
    (hfs : sb.dev ≠ (stack_peek w.stack).dev →
      sb.stx_ino ≠ 2 ∧ a.fs_info = Except.ok w.fsid) :
    process name a sub w
      = process_defrag name a sub sb (decide (sb.dev ≠ (stack_peek w.stack).dev)) w := by
  obtain ⟨hs, hf, hdir, hreg⟩ := kind_directory a sb hk
  obtain ⟨ho1, ho2, ho3⟩ := ho
  have hl := check_loop_eq w.stack hWF sb.stx_dev_major sb.stx_dev_minor sb.stx_ino
  simp only [statx.id] at hloop
  rw [hloop] at hl
  have hdev : sb.dev ≠ (stack_peek w.stack).dev ↔
      (sb.stx_dev_major ≠ (stack_peek w.stack).dev_major ∨
        sb.stx_dev_minor ≠ (stack_peek w.stack).dev_minor) := by
    simp only [statx.dev, stack_entry.dev, ne_eq, Prod.mk.injEq, not_and]
    tauto
  by_cases hd : sb.dev ≠ (stack_peek w.stack).dev
  · obtain ⟨hino, hfsid⟩ := hfs hd
    have hd2 := hdev.mp hd
    simp [process, process_boundary, ho1, hs, ho2, hf, hreg, hdir, ho3, hne, hl, hd, hd2,
      hino, hfsid]
  · have hd2 : ¬ (sb.stx_dev_major ≠ (stack_peek w.stack).dev_major ∨
      sb.stx_dev_minor ≠ (stack_peek w.stack).dev_minor) := fun h => hd (hdev.mpr h)
    simp [process, process_boundary, ho1, hs, ho2, hf, hreg, hdir, ho3, hne, hl, hd, hd2]

/-- The admission of the traversal root, a directory: it is defragmented and pushed, and
its identity token is captured. -/
theorem process_root (name : String) (a : Answers) (sub : Dir) (sb : statx) (fsid : List Nat)
    (w : Walk) (hWF : w.stack.WF) (he : stack_empty w.stack = true)
    (hk : a.kind = NodeKind.directory sb) (ho : a.opens sb)
    (hfs : a.fs_info = Except.ok fsid)
    (hstrdup : a.strdup = true) (hfdopendir : a.fdopendir = Except.ok ())
    (hmalloc : a.malloc = true) :
    (process name a sub w).2.stack.WF ∧
    (process name a sub w).2.stack.entries = [pushed_entry name sb sub] ∧
    (process name a sub w).2.fsid = fsid ∧
    defrag_calls (process name a sub w).2.log = defrag_calls w.log ++ [name] := by
  obtain ⟨hs, hf, hdir, hreg⟩ := kind_directory a sb hk
  obtain ⟨ho1, ho2, ho3⟩ := ho
  have hent : w.stack.entries = [] := by
    rw [stack_empty_eq w.stack hWF] at he
    simpa using he
  have hl := check_loop_eq w.stack hWF sb.stx_dev_major sb.stx_dev_minor sb.stx_ino
  rw [hent] at hl
  simp only [on_stack, List.any_nil] at hl
  have hp : process name a sub w
      = process_defrag name a sub sb true { w with fsid := fsid } := by
    simp [process, process_boundary, ho1, hs, ho2, hf, hreg, hdir, ho3, he, hl, hfs]
  obtain ⟨ok, log, hlog, _, heq⟩ :=
    process_defrag_eq name a sub sb true { w with fsid := fsid }
  obtain ⟨hpw, hpe, _, hpf⟩ := stack_push_spec a.malloc w.stack (pushed_entry name sb sub) hWF
  have hp1 : (stack_push a.malloc w.stack (pushed_entry name sb sub)).1 = true := by
    cases h : (stack_push a.malloc w.stack (pushed_entry name sb sub)).1
    · have := hpf.mp h
      rw [hmalloc] at this
      exact absurd this.2 (by simp)
    · rfl
  have hpath : print_path w.stack (some name) = name := by
    rw [print_path_eq w.stack hWF, hent]
    simp [path_text]
  rw [hp, heq]
  rcases hpush : stack_push a.malloc w.stack (pushed_entry name sb sub) with ⟨b, s1⟩
  rw [hpush] at hp1 hpw hpe
  simp only at hp1 hpw hpe
  subst hp1
  simp only [hdir, ↓reduceIte, hstrdup, hfdopendir, hpw, hpe, hent, defrag_calls_append, hlog,
    or_true, hpath, true_and]

theorem expected_calls_length (d : Dir) :
    ∀ (pdev : Nat × Nat) (pfx : String),
      (expected_calls pdev pfx d).length = regular_files d + subvolume_roots pdev d := by
  induction d with
  | done errno => intro pdev pfx; rfl
  | entry d_type d_name a sub rest ihsub ihrest =>
    intro pdev pfx
    simp only [expected_calls, regular_files, subvolume_roots, List.length_append, ihrest]
    by_cases hdots : d_name = "." ∨ d_name = ".."
    · simp [hdots]
    · rcases hkind : a.kind with sb | sb | _
      · simp only [hdots, ↓reduceIte, List.length_cons, List.length_nil]
        omega
      · simp only [hdots, ↓reduceIte, List.length_append, ihsub]
        split <;> simp <;> omega
      · simp [hdots]

end Defrag

/-- C5 (as amended): for a traversal root that is a directory of the target filesystem and
a cycle-free tree below it that lies in that one filesystem (Clean), do_defrag returns, and
the sequence of its defragment requests is exactly: the traversal root first, then the
pre-order sequence of the regular files and of the directories whose device number pair
differs from that of their parent; these are 1 + N + M requests. -/
theorem C5_defrag_calls_are_root_then_preorder (fuel : Nat) (mountpoint : String)
    (a : Defrag.Answers) (root : Defrag.Dir) (fsid0 fsid : List Nat) (sb : Defrag.statx)
    (hkind : a.kind = Defrag.NodeKind.directory sb) (hopens : a.opens sb)
    (hfsid : a.fs_info = Except.ok fsid) (hstrdup : a.strdup = true)
    (hfdopendir : a.fdopendir = Except.ok ()) (hmalloc : a.malloc = true)
    (hclean : Defrag.Clean fsid [sb.id] sb.dev root) (hfuel : root.size ≤ fuel) :
    ∃ (ok : Bool) (log : List Defrag.Event),
      Defrag.do_defrag fuel mountpoint a root fsid0 = some (ok, log) ∧
      Defrag.defrag_calls log
        = mountpoint ::
            Defrag.expected_calls sb.dev (Defrag.strip_trailing_slashes mountpoint ++ "/") root ∧
      (Defrag.defrag_calls log).length
        = 1 + Defrag.regular_files root + Defrag.subvolume_roots sb.dev root := by
  obtain ⟨hWF1, hent1, hfsid1, hcalls1⟩ := Defrag.process_root mountpoint a root sb fsid
    { stack := Defrag.stack_init, fsid := fsid0, log := [] } Defrag.stack_init_WF rfl
    hkind hopens hfsid hstrdup hfdopendir hmalloc
  obtain ⟨f2, ok2, w2, _, heq2, hWF2, hent2, _, hcalls2⟩ :=
    Defrag.walk_clean root fuel
      (Defrag.process mountpoint a root
        { stack := Defrag.stack_init, fsid := fsid0, log := [] }).1
      (Defrag.process mountpoint a root
        { stack := Defrag.stack_init, fsid := fsid0, log := [] }).2
      (Defrag.pushed_entry mountpoint sb root) [] hWF1 hent1 rfl
      (by rw [hfsid1]; exact hclean) hfuel
  have hempty : Defrag.stack_empty w2.stack = true := by
    rw [Defrag.stack_empty_eq w2.stack hWF2, hent2]
    rfl
  have hcalls : Defrag.defrag_calls w2.log
      = mountpoint ::
          Defrag.expected_calls sb.dev (Defrag.strip_trailing_slashes mountpoint ++ "/") root := by
    rw [hcalls2, hcalls1]
    simp [Defrag.defrag_calls, Defrag.path_text, Defrag.pushed_entry, Defrag.stack_entry.dev,
      Defrag.statx.dev]
  refine ⟨ok2, w2.log, ?_, hcalls, ?_⟩
  · simp only [Defrag.do_defrag]
    rw [heq2, Defrag.loop_empty f2 ok2 w2 hempty]
  · rw [hcalls, List.length_cons, Defrag.expected_calls_length]
    omega

namespace Defrag

theorem process_defrag_stack (name : String) (a : Answers) (sub : Dir) (sb : statx)
    (ndn : Bool) (w : Walk) (hWF : w.stack.WF) :
    (process_defrag name a sub sb ndn w).2.stack.WF ∧
    (process_defrag name a sub sb ndn w).2.fsid = w.fsid ∧
    ((process_defrag name a sub sb ndn w).2.stack = w.stack ∨
      (S_ISDIR sb.stx_mode = true ∧
        (process_defrag name a sub sb ndn w).2.stack.entries
          = pushed_entry name sb sub :: w.stack.entries)) := by
  obtain ⟨ok, log, _, _, heq⟩ := process_defrag_eq name a sub sb ndn w
  obtain ⟨hpw, hpe, hps, _⟩ := stack_push_spec a.malloc w.stack (pushed_entry name sb sub) hWF
  rw [heq]
  cases hdir : S_ISDIR sb.stx_mode
  · simp [hWF]
  · cases hstr : a.strdup
    · simp [hWF]
    · rcases hfdo : a.fdopendir with errno | u
      · simp [hWF]
      · rcases hpush : stack_push a.malloc w.stack (pushed_entry name sb sub) with ⟨b, s1⟩
        rw [hpush] at hpw hpe hps
        simp only at hpw hpe hps
        cases b
        · simp [hps rfl, hWF]
        · simp [hpw, hpe rfl]

theorem process_boundary_stack (name : String) (a : Answers) (sub : Dir) (sb : statx)
    (w : Walk) (hWF : w.stack.WF) :
    (process_boundary name a sub sb w).2.stack.WF ∧
    (process_boundary name a sub sb w).2.fsid = w.fsid ∧
    ((process_boundary name a sub sb w).2.stack = w.stack ∨
      (S_ISDIR sb.stx_mode = true ∧
        (process_boundary name a sub sb w).2.stack.entries
          = pushed_entry name sb sub :: w.stack.entries)) := by
  unfold process_boundary
  simp only
  split
  · split
    · exact ⟨hWF, rfl, Or.inl rfl⟩
    · split
      · exact ⟨hWF, rfl, Or.inl rfl⟩
      · split
        · exact ⟨hWF, rfl, Or.inl rfl⟩
        · exact process_defrag_stack name a sub sb _ w hWF
  · exact process_defrag_stack name a sub sb _ w hWF

/-- What process can do to the stack: nothing, or push the entry of a directory whose
identity is not on the stack. -/
theorem process_stack (name : String) (a : Answers) (sub : Dir) (w : Walk) (hWF : w.stack.WF) :
    (process name a sub w).2.stack.WF ∧
    ((process name a sub w).2.stack = w.stack ∨
      ∃ sb, on_stack sb.id w.stack.entries = false ∧
        (process name a sub w).2.stack.entries = pushed_entry name sb sub :: w.stack.entries) := by
  unfold process
  rcases ho : a.openat with errno | u
  · by_cases he : errno = ENOENT <;> simp [he, show_path_errno, show_path_error, hWF]
  · rcases hs : a.statx with errno | sb
    · simp [show_path_errno, show_path_error, hWF]
    · by_cases hm : sb.stx_mask &&& (STATX_TYPE ||| STATX_INO) = STATX_TYPE ||| STATX_INO
      · rcases hf : a.fstatfs with errno | f_type
        · simp [hm, show_path_errno, show_path_error, hWF]
        · by_cases hb : f_type = BTRFS_SUPER_MAGIC
          · rcases hr : a.reopen with errno | u
            · cases hdir : S_ISDIR sb.stx_mode <;> cases hreg : S_ISREG sb.stx_mode <;>
                simp [hm, hb, hdir, hreg, show_path_errno, show_path_error, hWF]
            · have hl := check_loop_eq w.stack hWF sb.stx_dev_major sb.stx_dev_minor sb.stx_ino
              simp only [hm, ne_eq, not_true_eq_false, ↓reduceIte, hb, hl]
              have hrest : ∀ w1 : Walk, w1.stack = w.stack →
                  (S_ISDIR sb.stx_mode = true → on_stack sb.id w.stack.entries = false) →
                  (process_boundary name a sub sb w1).2.stack.WF ∧
                  ((process_boundary name a sub sb w1).2.stack = w.stack ∨
                    ∃ sb1, on_stack sb1.id w.stack.entries = false ∧
                      (process_boundary name a sub sb w1).2.stack.entries
                        = pushed_entry name sb1 sub :: w.stack.entries) := by
                intro w1 hw1 hnot
                obtain ⟨h1, _, h3⟩ := process_boundary_stack name a sub sb w1 (by rw [hw1]; exact hWF)
                refine ⟨h1, ?_⟩
                rw [hw1] at h3
                rcases h3 with h3 | ⟨hd, h3⟩
                · exact Or.inl h3
                · exact Or.inr ⟨sb, hnot hd, h3⟩
              cases hdir : S_ISDIR sb.stx_mode
              · cases hreg : S_ISREG sb.stx_mode
                · simp [hWF]
                · simp only [Bool.false_eq_true, not_false_eq_true, not_true_eq_false, and_false,
                    ↓reduceIte, false_and]
                  have hnot : S_ISDIR sb.stx_mode = true → on_stack sb.id w.stack.entries = false := by
                    intro hd
                    rw [hdir] at hd
                    exact absurd hd (by simp)
                  by_cases hemp : stack_empty w.stack = true
                  · simp only [hemp, ↓reduceIte]
                    rcases hfi : a.fs_info with errno | args_fsid
                    · simp [show_path_errno, show_path_error, hWF]
                    · exact hrest { w with fsid := args_fsid } rfl hnot
                  · simp only [hemp, Bool.false_eq_true, ↓reduceIte]
                    exact hrest w rfl hnot
              · cases hon : on_stack (sb.stx_dev_major, sb.stx_dev_minor, sb.stx_ino) w.stack.entries
                · simp only [not_true_eq_false, false_and, ↓reduceIte, Bool.false_eq_true,
                    and_false]
                  have hnot : S_ISDIR sb.stx_mode = true → on_stack sb.id w.stack.entries = false :=
                    fun _ => hon
                  by_cases hemp : stack_empty w.stack = true
                  · simp only [hemp, ↓reduceIte]
                    rcases hfi : a.fs_info with errno | args_fsid
                    · simp [show_path_errno, show_path_error, hWF]
                    · exact hrest { w with fsid := args_fsid } rfl hnot
                  · simp only [hemp, Bool.false_eq_true, ↓reduceIte]
                    exact hrest w rfl hnot
                · simp [show_path_error, hWF]
          · simp [hm, hb, hWF]
      · simp [hm, show_path_errno, show_path_error, hWF]

/-- Along every sequence of steps of the walk the stack is well formed and no two of its
entries have the same identity. -/
theorem reachable_invariant (w : Walk) (h : Reachable w) :
    w.stack.WF ∧ w.stack.entries.Pairwise (fun e1 e2 => e1.id ≠ e2.id) := by
  induction h with
  | init fsid0 => exact ⟨stack_init_WF, by simp [stack_init_entries]⟩
  | process name a sub w _ ih =>
    obtain ⟨hWF, hpw⟩ := ih
    obtain ⟨h1, h2⟩ := process_stack name a sub w hWF
    refine ⟨h1, ?_⟩
    rcases h2 with h2 | ⟨sb, hns, h2⟩
    · rw [h2]
      exact hpw
    · rw [h2, List.pairwise_cons]
      refine ⟨?_, hpw⟩
      intro e he heq
      have : on_stack sb.id w.stack.entries = true := by
        rw [on_stack_iff]
        exact ⟨e, he, by rw [← heq]; rfl⟩
      rw [hns] at this
      exact absurd this (by simp)
  | readdir rest w _ hne ih =>
    obtain ⟨hWF, hpw⟩ := ih
    have htop : w.stack.top ≠ [] := by
      intro ht
      rw [(stack_empty_iff w.stack).mpr ht] at hne
      exact absurd hne (by simp)
    obtain ⟨h1, h2, _, _⟩ := stack_advance_spec w.stack rest hWF htop
    refine ⟨h1, ?_⟩
    have hpp := entries_peek_pop w.stack hWF htop
    rw [hpp] at hpw
    simp only at h2 ⊢
    rw [h2]
    rw [List.pairwise_cons] at hpw ⊢
    exact ⟨hpw.1, hpw.2⟩
  | report errno w _ ih => exact ih
  | pop w _ hne ih =>
    obtain ⟨hWF, hpw⟩ := ih
    have htop : w.stack.top ≠ [] := by
      intro ht
      rw [(stack_empty_iff w.stack).mpr ht] at hne
      exact absurd hne (by simp)
    refine ⟨stack_pop_WF w.stack hWF, ?_⟩
    have hpp := entries_peek_pop w.stack hWF htop
    rw [hpp, List.pairwise_cons] at hpw
    exact hpw.2

theorem loop_next_stream (w : Walk) (rest : Dir) (hWF : w.stack.WF)
    (hne : stack_empty w.stack = false) :
    (stack_peek (stack_advance w.stack rest)).dir_handle = rest ∧
    stack_empty (stack_advance w.stack rest) = false := by
  have htop : w.stack.top ≠ [] := by
    intro ht
    rw [(stack_empty_iff w.stack).mpr ht] at hne
    exact absurd hne (by simp)
  obtain ⟨h1, h2, _, _⟩ := stack_advance_spec w.stack rest hWF htop
  obtain ⟨h3, _, h4, _⟩ := entries_cons _ h1 _ _ h2
  rw [h4]
  exact ⟨rfl, h3⟩

theorem on_stack_advance (w : Walk) (rest : Dir) (hWF : w.stack.WF)
    (hne : stack_empty w.stack = false) (id : Nat × Nat × Nat) :
    on_stack id (stack_advance w.stack rest).entries = on_stack id w.stack.entries := by
  have htop : w.stack.top ≠ [] := by
    intro ht
    rw [(stack_empty_iff w.stack).mpr ht] at hne
    exact absurd hne (by simp)
  obtain ⟨_, h2, _, _⟩ := stack_advance_spec w.stack rest hWF htop
  rw [h2, entries_peek_pop w.stack hWF htop]
  simp [on_stack, stack_entry.id, stack_entry.advance]

end Defrag

/-- C5 (witness): the scenario of the specification. -/
theorem C5_defrag_calls_are_root_then_preorder_witness :
    ∃ (ok : Bool) (log : List Defrag.Event),
      Defrag.do_defrag 19 "/mnt" Examples.mnt Examples.scenario [] = some (ok, log) ∧
      Defrag.defrag_calls log = ["/mnt", "/mnt/a", "/mnt/b", "/mnt/b/c"] ∧
      (Defrag.defrag_calls log).length = 1 + 2 + 1 := by
  have hclean : Defrag.Clean [7] [(0, 30, 256)] (0, 30) Examples.scenario := by
    simp +decide [Defrag.Clean, Examples.scenario, Examples.dots, Examples.dir, Examples.reg,
      Defrag.Answers.kind, Defrag.listed, Defrag.Answers.opens, Defrag.statx.id,
      Defrag.statx.dev, Defrag.BTRFS_SUPER_MAGIC, Defrag.S_ISREG, Defrag.S_ISDIR,
      Defrag.S_IFDIR, Defrag.S_IFREG, Defrag.S_IFMT, Defrag.STATX_TYPE, Defrag.STATX_INO,
      Defrag.DT_DIR, Defrag.DT_REG, Defrag.DT_UNKNOWN]
  obtain ⟨ok, log, h1, h2, h3⟩ :=
    C5_defrag_calls_are_root_then_preorder 19 "/mnt" Examples.mnt Examples.scenario [] [7]
      { stx_mode := Defrag.S_IFDIR ||| 0o755, stx_ino := 256, stx_dev_major := 0,
        stx_dev_minor := 30 }
      rfl ⟨rfl, rfl, rfl⟩ rfl rfl rfl rfl hclean (by decide)
  exact ⟨ok, log, h1, h2.trans rfl, h3.trans rfl⟩

/-- C5 (counterexample): in the scenario of the specification (root holding file a, the
subvolume-boundary directory b holding file c, and the directory d of another filesystem
type) the defragment requests are not exactly a, b, c: the first request is made on the
traversal root itself. -/
theorem C5_counterexample_root_is_defragmented :
    Defrag.do_defrag 19 "/mnt" Examples.mnt Examples.scenario []
      = some (true, [Defrag.Event.defrag "/mnt", Defrag.Event.defrag "/mnt/a",
          Defrag.Event.defrag "/mnt/b", Defrag.Event.defrag "/mnt/b/c"]) ∧
    Defrag.defrag_calls [Defrag.Event.defrag "/mnt", Defrag.Event.defrag "/mnt/a",
          Defrag.Event.defrag "/mnt/b", Defrag.Event.defrag "/mnt/b/c"]
      ≠ ["/mnt/a", "/mnt/b", "/mnt/b/c"] := by
  refine ⟨rfl, ?_⟩
  decide

/-- C6 (as amended): a non-root directory of the target filesystem type that can be opened
and is not on the stack, whose device number pair differs from that of its parent and whose
filesystem identity token differs from the captured one, is skipped without error: process
returns true and leaves the stack, the token and the log as they are, so no defragment
request is made and nothing is pushed. -/
theorem C6_foreign_directory_is_skipped (name : String) (a : Defrag.Answers) (sub : Defrag.Dir)
    (sb : Defrag.statx) (token : List Nat) (w : Defrag.Walk)
    (hWF : w.stack.WF) (hne : Defrag.stack_empty w.stack = false)
    (hkind : a.kind = Defrag.NodeKind.directory sb) (hopens : a.opens sb)
    (hloop : ¬ ∃ e ∈ w.stack.entries, e.id = sb.id)
    (hdev : sb.dev ≠ (Defrag.stack_peek w.stack).dev)
    (htoken : a.fs_info = Except.ok token) (hdiff : token ≠ w.fsid) :
    Defrag.process name a sub w = (true, w) := by
  obtain ⟨hs, hf, hdir, hreg⟩ := Defrag.kind_directory a sb hkind
  obtain ⟨ho1, ho2, ho3⟩ := hopens
  have hl := Defrag.check_loop_eq w.stack hWF sb.stx_dev_major sb.stx_dev_minor sb.stx_ino
  have hon : Defrag.on_stack sb.id w.stack.entries = false := by
    cases h : Defrag.on_stack sb.id w.stack.entries
    · rfl
    · exact absurd ((Defrag.on_stack_iff _ _).mp h) hloop
  simp only [Defrag.statx.id] at hon
  rw [hon] at hl
  have hd2 : sb.stx_dev_major ≠ (Defrag.stack_peek w.stack).dev_major ∨
      sb.stx_dev_minor ≠ (Defrag.stack_peek w.stack).dev_minor := by
    simp only [Defrag.statx.dev, Defrag.stack_entry.dev, ne_eq, Prod.mk.injEq, not_and] at hdev
    by_cases h : sb.stx_dev_major = (Defrag.stack_peek w.stack).dev_major
    · exact Or.inr (hdev h)
    · exact Or.inl h
  by_cases hino : sb.stx_ino = 2
  · have hl2 := hl
    rw [hino] at hl2
    simp [Defrag.process, Defrag.process_boundary, ho1, hs, ho2, hf, hreg, hdir, ho3, hne, hl2,
      hd2, hino]
  · simp [Defrag.process, Defrag.process_boundary, ho1, hs, ho2, hf, hreg, hdir, ho3, hne, hl,
      hd2, hino, htoken, hdiff]

/-- C6 (counterexample): a regular file whose device number pair differs from that of its
parent and whose filesystem reports another identity token than the root is not skipped:
process makes a defragment request on it. -/
theorem C6_counterexample_foreign_file_is_defragmented :
    Defrag.do_defrag 3 "/mnt" Examples.mnt Examples.foreign_file []
      = some (true, [Defrag.Event.defrag "/mnt", Defrag.Event.defrag "/mnt/f"]) := by
  rfl


/-- C6 (witness): below the root of the scenario, a directory on which another btrfs
filesystem is mounted. -/
theorem C6_foreign_directory_is_skipped_witness :
    Defrag.process "other" Examples.foreign_dir (Defrag.Dir.done 0) Examples.at_root
      = (true, Examples.at_root) :=
  C6_foreign_directory_is_skipped "other" Examples.foreign_dir (Defrag.Dir.done 0)
    { stx_mode := Defrag.S_IFDIR ||| 0o755, stx_ino := 256, stx_dev_major := 0,
      stx_dev_minor := 50 } [9] Examples.at_root
    (Defrag.process_stack _ _ _ _ Defrag.stack_init_WF).1 rfl rfl ⟨rfl, rfl, rfl⟩
    (by decide) (by decide) rfl (by decide)

/-- C7: a directory entry that can be opened and whose (device major, device minor, inode)
triple equals that of an entry on the traversal stack: process returns false, its only
effect is the diagnostic of a filesystem loop against the path of the entry (no defragment
request, the stack as before, nothing pushed), and the walk goes on with the remaining
entries of the directory that listed it. -/
theorem C7_loop_entry_is_reported_and_not_entered (fuel : Nat) (ok : Bool) (w : Defrag.Walk)
    (d_type : Nat) (d_name : String) (a : Defrag.Answers) (sub rest : Defrag.Dir)
    (sb : Defrag.statx)
    (hWF : w.stack.WF) (hne : Defrag.stack_empty w.stack = false)
    (hhandle : (Defrag.stack_peek w.stack).dir_handle = Defrag.Dir.entry d_type d_name a sub rest)
    (hlisted : Defrag.listed d_type) (hn1 : d_name ≠ ".") (hn2 : d_name ≠ "..")
    (hkind : a.kind = Defrag.NodeKind.directory sb) (hopens : a.opens sb)
    (hloop : ∃ e ∈ w.stack.entries, e.id = sb.id) :
    Defrag.process d_name a sub { w with stack := Defrag.stack_advance w.stack rest }
      = (false,
          { stack := Defrag.stack_advance w.stack rest, fsid := w.fsid,
            log := w.log ++
              [Defrag.Event.path_error
                (Defrag.print_path (Defrag.stack_advance w.stack rest) (some d_name))
                (Defrag.Message.text "filesystem loop detected")] }) ∧
    Defrag.do_defrag_loop (fuel + 1) ok w
      = Defrag.do_defrag_loop fuel false
          { stack := Defrag.stack_advance w.stack rest, fsid := w.fsid,
            log := w.log ++
              [Defrag.Event.path_error
                (Defrag.print_path (Defrag.stack_advance w.stack rest) (some d_name))
                (Defrag.Message.text "filesystem loop detected")] } ∧
    (Defrag.stack_peek (Defrag.stack_advance w.stack rest)).dir_handle = rest ∧
    Defrag.stack_empty (Defrag.stack_advance w.stack rest) = false := by
  obtain ⟨hs, hf, hdir, hreg⟩ := Defrag.kind_directory a sb hkind
  obtain ⟨ho1, ho2, ho3⟩ := hopens
  have htop : w.stack.top ≠ [] := by
    intro ht
    rw [(Defrag.stack_empty_iff w.stack).mpr ht] at hne
    exact absurd hne (by simp)
  have hadv := Defrag.stack_advance_spec w.stack rest hWF htop
  have hon : Defrag.on_stack sb.id (Defrag.stack_advance w.stack rest).entries = true := by
    rw [Defrag.on_stack_advance w rest hWF hne, Defrag.on_stack_iff]
    exact hloop
  have hp := Defrag.process_loop d_name a sub sb
    { w with stack := Defrag.stack_advance w.stack rest } hadv.1 ho1 hs ho2 hf hdir ho3 hon
  have hnext := Defrag.loop_next_stream w rest hWF hne
  refine ⟨hp, ?_, hnext.1, hnext.2⟩
  rw [Defrag.loop_entry_processed fuel ok w d_type d_name a sub rest hne hhandle hlisted hn1 hn2,
    hp]
  simp [Defrag.show_path_error]


/-- C7 (witness): the root /mnt lists a directory that has the identity of the root. -/
theorem C7_loop_entry_is_reported_and_not_entered_witness :
    Defrag.do_defrag_loop 4 true Examples.at_cyclic_root
      = Defrag.do_defrag_loop 3 false
          { stack := Defrag.stack_advance Examples.at_cyclic_root.stack
              (Defrag.Dir.entry Defrag.DT_REG "f" (Examples.reg 30 301) (Defrag.Dir.done 0)
                (Defrag.Dir.done 0)),
            fsid := [7],
            log := [Defrag.Event.defrag "/mnt",
              Defrag.Event.path_error "/mnt/loop"
                (Defrag.Message.text "filesystem loop detected")] } :=
  (C7_loop_entry_is_reported_and_not_entered 3 true Examples.at_cyclic_root Defrag.DT_DIR "loop"
    (Examples.dir 30 256 [7])
    (Defrag.Dir.entry Defrag.DT_REG "again" (Examples.reg 30 301) (Defrag.Dir.done 0)
      (Defrag.Dir.done 0))
    (Defrag.Dir.entry Defrag.DT_REG "f" (Examples.reg 30 301) (Defrag.Dir.done 0)
      (Defrag.Dir.done 0))
    { stx_mode := Defrag.S_IFDIR ||| 0o755, stx_ino := 256, stx_dev_major := 0,
      stx_dev_minor := 30 }
    (Defrag.process_stack _ _ _ _ Defrag.stack_init_WF).1 rfl rfl (Or.inl rfl) (by decide)
    (by decide) rfl ⟨rfl, rfl, rfl⟩ (by decide)).2.1

/-- C8: in every state reached from the empty stack by calls of process, reads of the
current entry stream and stack_pop on a non-empty stack, no two entries on the traversal
stack have the same (device major, device minor, inode) triple. -/
theorem C8_stack_identities_are_distinct (w : Defrag.Walk) (h : Defrag.Reachable w) :
    w.stack.entries.Pairwise (fun e1 e2 => e1.id ≠ e2.id) :=
  (Defrag.reachable_invariant w h).2

/-- C8 (witness): the scenario after the admission of the root and of the subvolume b. -/
theorem C8_stack_identities_are_distinct_witness :
    (Defrag.process "b" (Examples.dir 31 256 [7]) (Defrag.Dir.done 0)
      Examples.at_root).2.stack.entries.Pairwise (fun e1 e2 => e1.id ≠ e2.id) :=
  C8_stack_identities_are_distinct _
    (Defrag.Reachable.process "b" (Examples.dir 31 256 [7]) (Defrag.Dir.done 0) Examples.at_root
      (Defrag.Reachable.process "/mnt" Examples.mnt Examples.scenario _
        (Defrag.Reachable.init [])))

/-- C9 (as amended): a directory that passes every check of process while the next
stack_push has to allocate a chunk and malloc fails: the failure is reported by perror,
the directory is not pushed (the stack stays as it was), and the walk is not aborted: the
loop of do_defrag goes on with the remaining entries of the directory that listed it. -/
theorem C9_failed_allocation_skips_the_directory (fuel : Nat) (ok : Bool) (w : Defrag.Walk)
    (d_type : Nat) (d_name : String) (a : Defrag.Answers) (sub rest : Defrag.Dir)
    (sb : Defrag.statx)
    (hWF : w.stack.WF) (hne : Defrag.stack_empty w.stack = false)
    (hhandle : (Defrag.stack_peek w.stack).dir_handle = Defrag.Dir.entry d_type d_name a sub rest)
    (hlisted : Defrag.listed d_type) (hn1 : d_name ≠ ".") (hn2 : d_name ≠ "..")
    (hkind : a.kind = Defrag.NodeKind.directory sb) (hopens : a.opens sb)
    (hloop : ¬ ∃ e ∈ w.stack.entries, e.id = sb.id)
    (hfs : sb.dev ≠ (Defrag.stack_peek w.stack).dev →
      sb.stx_ino ≠ 2 ∧ a.fs_info = Except.ok w.fsid)
    (hstrdup : a.strdup = true) (hfdopendir : a.fdopendir = Except.ok ())
    (hneeds : w.stack.needs_malloc = true) (hmalloc : a.malloc = false) :
    (Defrag.process d_name a sub
      { w with stack := Defrag.stack_advance w.stack rest }).2.stack
      = Defrag.stack_advance w.stack rest ∧
    (Defrag.process d_name a sub
      { w with stack := Defrag.stack_advance w.stack rest }).2.log.getLast?
      = some (Defrag.Event.perror "malloc" ENOMEM) ∧
    Defrag.do_defrag_loop (fuel + 1) ok w
      = Defrag.do_defrag_loop fuel
          (ok && (Defrag.process d_name a sub
            { w with stack := Defrag.stack_advance w.stack rest }).1)
          (Defrag.process d_name a sub
            { w with stack := Defrag.stack_advance w.stack rest }).2 ∧
    (Defrag.stack_peek (Defrag.process d_name a sub
      { w with stack := Defrag.stack_advance w.stack rest }).2.stack).dir_handle = rest ∧
    Defrag.stack_empty (Defrag.process d_name a sub
      { w with stack := Defrag.stack_advance w.stack rest }).2.stack = false := by
  have htop : w.stack.top ≠ [] := by
    intro ht
    rw [(Defrag.stack_empty_iff w.stack).mpr ht] at hne
    exact absurd hne (by simp)
  obtain ⟨hadvWF, hadvent, _, hadvneeds⟩ := Defrag.stack_advance_spec w.stack rest hWF htop
  obtain ⟨hnext1, hnext2⟩ := Defrag.loop_next_stream w rest hWF hne
  have hon : Defrag.on_stack sb.id (Defrag.stack_advance w.stack rest).entries = false := by
    rw [Defrag.on_stack_advance w rest hWF hne]
    cases h : Defrag.on_stack sb.id w.stack.entries
    · rfl
    · exact absurd ((Defrag.on_stack_iff _ _).mp h) hloop
  have hpeek : (Defrag.stack_peek (Defrag.stack_advance w.stack rest)).dev
      = (Defrag.stack_peek w.stack).dev := by
    have := (Defrag.entries_cons _ hadvWF _ _ hadvent).2.2.1
    rw [this]
    rfl
  have hp := Defrag.process_directory_eq d_name a sub sb
    { w with stack := Defrag.stack_advance w.stack rest } hadvWF hnext2 hkind hopens hon
    (by rw [hpeek]; exact hfs)
  obtain ⟨okd, log, _, _, heq⟩ := Defrag.process_defrag_eq d_name a sub sb
    (decide (sb.dev ≠ (Defrag.stack_peek (Defrag.stack_advance w.stack rest)).dev))
    { w with stack := Defrag.stack_advance w.stack rest }
  obtain ⟨_, _, hps, hpf⟩ := Defrag.stack_push_spec a.malloc (Defrag.stack_advance w.stack rest)
    (Defrag.pushed_entry d_name sb sub) hadvWF
  have hfalse : (Defrag.stack_push a.malloc (Defrag.stack_advance w.stack rest)
      (Defrag.pushed_entry d_name sb sub)).1 = false :=
    hpf.mpr ⟨by rw [hadvneeds]; exact hneeds, hmalloc⟩
  have hsame := hps hfalse
  have hdir := (Defrag.kind_directory a sb hkind).2.2.1
  have hres : Defrag.process d_name a sub { w with stack := Defrag.stack_advance w.stack rest }
      = (okd, { stack := Defrag.stack_advance w.stack rest, fsid := w.fsid,
                log := w.log ++ log ++ [Defrag.Event.perror "malloc" ENOMEM] }) := by
    rw [hp, heq]
    rcases hpush : Defrag.stack_push a.malloc (Defrag.stack_advance w.stack rest)
      (Defrag.pushed_entry d_name sb sub) with ⟨b, s1⟩
    rw [hpush] at hfalse hsame
    simp only at hfalse hsame
    subst hfalse
    subst hsame
    simp [hdir, hstrdup, hfdopendir]
  refine ⟨?_, ?_, ?_, ?_, ?_⟩
  · rw [hres]
  · rw [hres]
    simp
  · exact Defrag.loop_entry_processed fuel ok w d_type d_name a sub rest hne hhandle hlisted
      hn1 hn2
  · rw [hres]
    exact hnext1
  · rw [hres]
    exact hnext2


theorem eight_deep_WF : Examples.eight_deep.stack.WF := by
  refine ⟨by decide, by decide, ?_, fun _ => by decide⟩
  intro h
  simp [Examples.eight_deep] at h

/-- C9 (witness): eight directories fill the only chunk of the stack, and malloc fails when
the directory x is admitted. -/
theorem C9_failed_allocation_skips_the_directory_witness :
    (Defrag.process "x" Examples.x_answers Examples.inside_x
      { stack := Defrag.stack_advance Examples.eight_deep.stack Examples.after_x,
        fsid := [7], log := [] }).2.stack
      = Defrag.stack_advance Examples.eight_deep.stack Examples.after_x :=
  (C9_failed_allocation_skips_the_directory 2 true Examples.eight_deep Defrag.DT_DIR "x"
    Examples.x_answers Examples.inside_x Examples.after_x
    { stx_mode := Defrag.S_IFDIR ||| 0o755, stx_ino := 400, stx_dev_major := 0,
      stx_dev_minor := 30 }
    eight_deep_WF rfl rfl (Or.inl rfl) (by decide) (by decide) rfl ⟨rfl, rfl, rfl⟩
    (by decide) (fun h => absurd rfl h) rfl rfl rfl rfl).1

/-- C9 (counterexample): seven nested directories below the root fill the first chunk; in
the innermost, malloc fails when the directory x is admitted. The walk is not aborted, the
file f listed after x is still processed, and do_defrag returns true. -/
theorem C9_counterexample_walk_goes_on_and_succeeds :
    Defrag.do_defrag 21 "/mnt" Examples.mnt Examples.deep []
      = some (true, [Defrag.Event.defrag "/mnt", Defrag.Event.perror "malloc" ENOMEM,
          Defrag.Event.defrag "/mnt/d/d/d/d/d/d/d/f"]) := by
  rfl

/-- C10 (evaluation of the code): the root lists a directory bad, whose entry stream fails
with errno 5 at the first readdir, and then a file f. The error is reported against the
path of bad, bad is popped and the walk resumes with the root (f is defragmented), but
do_defrag returns true: the failure is not recorded in the result. -/
theorem C10_readdir_error_does_not_fail_the_run :
    Defrag.do_defrag 5 "/mnt" Examples.mnt Examples.unreadable []
      = some (true, [Defrag.Event.defrag "/mnt",
          Defrag.Event.path_error "/mnt/bad/" (Defrag.Message.strerror 5),
          Defrag.Event.defrag "/mnt/f"]) := by
  rfl

/-- C4 (witness): two devices are scrubbed, both calls succeed, device 2 reports three
checksum errors: the result is false and the diagnostic names device 2 and the counter. -/
theorem C4_scrub_counters_decide_result_witness :
    ∃ log,
      Scrub.join_loop Examples.checksum_errors_on_second "/mnt" false false
        [{ devid := 1, started := true }, { devid := 2, started := true }] 0 (true, [])
        = (Outcome.returned false, log) ∧
      Event.scrub_detected true "/mnt" 2 3 "checksum" ∈ log := by
  obtain ⟨ok, log, heq, hdet, _⟩ :=
    C4_scrub_counters_decide_result Examples.checksum_errors_on_second "/mnt" false false
      [{ devid := 1, started := true }, { devid := 2, started := true }] []
      (fun _ _ => by simp [Examples.checksum_errors_on_second])
  obtain ⟨hok, hmem⟩ := hdet 1 Scrub.ErrorCounter.checksum (by decide) (by decide) (by decide)
  subst hok
  exact ⟨log, heq, hmem⟩

/-- The scenario of the specification for scrub, run through do_scrub_fd_auxfds: device 1
completes cleanly, device 2 reports three checksum errors, the result is false. -/
theorem scrub_checksum_scenario :
    Scrub.do_scrub_fd_auxfds 8 Examples.checksum_errors_on_second "/mnt" false
      = some (Outcome.returned false,
          [Event.thread_started 0 1, Event.thread_started 1 2, Event.thread_joined 0,
            Event.thread_joined 1, Event.scrub_detected true "/mnt" 2 3 "checksum"]) := by
  rfl


/-! ## Theorems: progress display -/

/-- As long as the product observed * 1000 fits in 64 bits, the value computed by
scrub.c is the one the specification gives. -/
theorem Scrub.permille_eq_of_small (observed expected : Nat)
    (hsmall : observed * 1000 < UINT64_MOD) :
    Scrub.permille observed expected = progress_tenths observed expected := by
  unfold Scrub.permille progress_tenths
  by_cases h0 : expected = 0
  · simp [h0]
  · simp only [h0, ↓reduceIte]
    by_cases hgt : observed > expected
    · simp only [hgt, ↓reduceIte]
      rw [Nat.min_eq_right (Nat.le_of_lt hgt)]
      exact (Nat.mul_div_cancel 1000 (Nat.pos_of_ne_zero h0)).symm
    · simp only [hgt, ↓reduceIte]
      have hle : observed ≤ expected := Nat.le_of_not_gt hgt
      rw [Nat.min_eq_left hle, Nat.mod_eq_of_lt hsmall, Nat.mul_comm 1000 observed]
      apply Nat.mod_eq_of_lt
      have h1 : observed * 1000 / expected ≤ 1000 := by
        apply Nat.div_le_of_le_mul
        exact Nat.mul_le_mul_right _ hle
      have : (1000 : Nat) < UINT_MOD := by decide
      omega

/-- The two copies of the computation agree. -/
theorem Balance.permille_eq_scrub (considered expected : Nat) :
    Balance.permille considered expected = Scrub.permille considered expected := rfl

/-- C11 (evaluation of the code): a device with 2^55 bytes in use of which all 2^55 have
been scrubbed. The product 2^55 * 1000 does not fit in a uint64_t and wraps, so the code
computes 488 (48.8%) where floor(1000 * min(observed, expected) / expected) is 1000; the
balance code computes the same for these counter values. -/
theorem C11_progress_wraps_for_large_counters :
    Scrub.permille (2 ^ 55) (2 ^ 55) = 488 ∧ Balance.permille (2 ^ 55) (2 ^ 55) = 488 ∧
      progress_tenths (2 ^ 55) (2 ^ 55) = 1000 ∧ 2 ^ 55 < UINT64_MOD := by
  decide

/-- C12 (evaluation of the code): with 2^55 bytes in use, the value computed for 2^54
scrubbed bytes is 500 and the value computed for 2^55 scrubbed bytes is 488: the progress
value goes down although the counter has grown, because the product 2^55 * 1000 wraps in
uint64_t. -/
theorem C12_progress_not_monotone_for_large_counters :
    2 ^ 54 ≤ 2 ^ 55 ∧ Scrub.permille (2 ^ 54) (2 ^ 55) = 500 ∧
      Scrub.permille (2 ^ 55) (2 ^ 55) = 488 ∧
      ¬ Scrub.permille (2 ^ 54) (2 ^ 55) ≤ Scrub.permille (2 ^ 55) (2 ^ 55) := by
  decide

/-- As long as the products fit in 64 bits, the value computed by scrub.c does not go down
when the counter grows. -/
theorem Scrub.permille_mono_of_small (observed1 observed2 expected : Nat)
    (hexp : expected ≠ 0) (hle : observed1 ≤ observed2)
    (hsmall : observed2 * 1000 < UINT64_MOD) :
    Scrub.permille observed1 expected ≤ Scrub.permille observed2 expected := by
  have hsmall1 : observed1 * 1000 < UINT64_MOD :=
    Nat.lt_of_le_of_lt (Nat.mul_le_mul_right _ hle) hsmall
  rw [Scrub.permille_eq_of_small _ _ hsmall1, Scrub.permille_eq_of_small _ _ hsmall]
  unfold progress_tenths
  simp only [hexp, ↓reduceIte]
  apply Nat.div_le_div_right
  apply Nat.mul_le_mul_left
  exact min_le_min_right expected hle

/-! ## Theorems: use of chunks and iteration orders of the traversal stack -/

namespace Defrag

/-- A push adds a chunk to those that the stack holds exactly when it needs a chunk and
the free list is empty (lines 53-55); otherwise the stack holds the chunks it held. -/
theorem push_chunks (s : stack) (e : stack_entry) :
    (stack_push true s e).2.chunks = s.chunks + (if s.needs_malloc then 1 else 0) := by
  unfold stack_push stack.chunks stack.needs_malloc
  by_cases hu : s.top_used = CHUNK_CAPACITY <;> cases htop : s.top <;>
    cases hf : s.free_chunks <;> simp [hu] <;> omega

/-- The chunks that a push allocates: one when it needs a chunk and the free list is
empty, none otherwise. -/
theorem stack_push_mallocs_eq (s : stack) (e : stack_entry) :
    stack_push_mallocs s e = if s.needs_malloc then 1 else 0 := by
  unfold stack_push_mallocs
  rw [push_chunks]
  omega

/-- A push that needs a chunk while the free list is not empty takes the first chunk of
the free list (lines 63-67) and allocates nothing. -/
theorem stack_push_reuses_free_chunk (m : Bool) (s : stack) (e : stack_entry)
    (c : stack_chunk) (rest : List stack_chunk) (hfree : s.free_chunks = c :: rest)
    (hneeds : s.top = [] ∨ s.top_used = CHUNK_CAPACITY) :
    (stack_push m s e).1 = true ∧ (stack_push m s e).2.free_chunks = rest ∧
    (stack_push m s e).2.top.length = s.top.length + 1 ∧
    (stack_push m s e).2.chunks = s.chunks ∧ stack_push_mallocs s e = 0 := by
  have hm : stack_push_mallocs s e = 0 := by
    rw [stack_push_mallocs_eq]
    simp [stack.needs_malloc, hfree]
  refine ⟨?_, ?_, ?_, ?_, hm⟩
  all_goals
    rcases hneeds with hn | hn <;> simp [stack_push, stack.chunks, hn, hfree] <;> try omega

/-- A pop that empties the top chunk puts it on the free list (lines 83-86). -/
theorem stack_pop_frees_to_list (s : stack) (c : stack_chunk) (previous : List stack_chunk)
    (htop : s.top = c :: previous) (hused : s.top_used = 1) :
    (stack_pop s).top = previous ∧ (stack_pop s).free_chunks = c :: s.free_chunks := by
  unfold stack_pop
  simp [htop, hused]

end Defrag
namespace Defrag

theorem built_spec (s : stack) (l : List stack_entry) (h : Built s l) :
    s.WF ∧ s.entries = l := by
  induction h with
  | init => exact ⟨stack_init_WF, stack_init_entries⟩
  | push m s l e _ hok ih =>
    obtain ⟨hWF, hent⟩ := ih
    obtain ⟨h1, h2, _, _⟩ := stack_push_spec m s e hWF
    exact ⟨h1, by rw [h2 hok, hent]⟩
  | pop s e l _ ih =>
    obtain ⟨hWF, hent⟩ := ih
    exact ⟨stack_pop_WF s hWF, (entries_cons s hWF e l hent).2.2.2⟩

theorem visit_record (l seen : List stack_entry) : visit record l seen = seen ++ l := by
  induction l generalizing seen with
  | nil => simp [visit, visit_flag]
  | cons e l ih =>
    have := ih (seen ++ [e])
    simp only [visit, visit_flag, record] at this ⊢
    rw [this]
    simp

end Defrag

/-- C14: for every stack reached from the initialised stack by stack_push and stack_pop,
holding the entries l (most recent first; l may be empty or of a length that is a multiple
of CHUNK_CAPACITY), stack_foreach_up with a callback that always continues visits exactly
the entries of l in the order in which they were pushed, and stack_foreach_down visits
exactly the same entries in the reverse order, the current one first. Both functions only
read the stack: they return nothing but the cookie of the callback. -/
theorem C14_iteration_orders (s : Defrag.stack) (l : List Defrag.stack_entry)
    (h : Defrag.Built s l) :
    Defrag.stack_foreach_up s Defrag.record [] = l.reverse ∧
    Defrag.stack_foreach_down s Defrag.record [] = l := by
  obtain ⟨hWF, hent⟩ := Defrag.built_spec s l h
  rw [Defrag.stack_foreach_up_eq s hWF, Defrag.stack_foreach_down_eq s hWF, hent,
    Defrag.visit_record, Defrag.visit_record]
  simp

/-- C14 (witness): the stack after two pushes and one pop. -/
theorem C14_iteration_orders_witness :
    Defrag.stack_foreach_up
        (Defrag.stack_pop (Defrag.stack_push true (Defrag.stack_push true Defrag.stack_init
          (Examples.ent 1 (Defrag.Dir.done 0))).2 (Examples.ent 2 (Defrag.Dir.done 0))).2)
        Defrag.record []
      = [Examples.ent 1 (Defrag.Dir.done 0)].reverse ∧
    Defrag.stack_foreach_down
        (Defrag.stack_pop (Defrag.stack_push true (Defrag.stack_push true Defrag.stack_init
          (Examples.ent 1 (Defrag.Dir.done 0))).2 (Examples.ent 2 (Defrag.Dir.done 0))).2)
        Defrag.record []
      = [Examples.ent 1 (Defrag.Dir.done 0)] :=
  C14_iteration_orders _ _
    (Defrag.Built.pop _ (Examples.ent 2 (Defrag.Dir.done 0)) _
      (Defrag.Built.push true _ _ (Examples.ent 2 (Defrag.Dir.done 0))
        (Defrag.Built.push true _ _ (Examples.ent 1 (Defrag.Dir.done 0)) Defrag.Built.init rfl)
        rfl))

/-! ## Theorems: device enumeration -/

/-- While no device is found, the loop of for_each_device only advances dev_id. -/
theorem Util.for_each_device_loop_skip {σ : Type} (mountpoint : String)
    (dev_info : Nat → Except Nat Nat)
    (cb : btrfs_ioctl_fs_info_args → btrfs_ioctl_dev_info_args → σ → Log → Bool × σ × Log)
    (fs_info : btrfs_ioctl_fs_info_args) (fuel found : Nat) (cookie : σ) (log : Log)
    (hfound : found < fs_info.num_devices) :
    ∀ (n dev_id : Nat), dev_id + n ≤ fs_info.max_id + 1 → dev_id + n < UINT64_MOD →
      (∀ i, dev_id ≤ i → i < dev_id + n → dev_info i = Except.error ENODEV) →
      Util.for_each_device_loop mountpoint dev_info cb fs_info (n + fuel) dev_id found cookie log
        = Util.for_each_device_loop mountpoint dev_info cb fs_info fuel (dev_id + n) found
            cookie log := by
  intro n
  induction n with
  | zero =>
    intro dev_id _ _ _
    simp
  | succ n ih =>
    intro dev_id hmax hmod hnone
    have hfuel : n + 1 + fuel = (n + fuel) + 1 := by omega
    have hid : ¬ dev_id > fs_info.max_id := by omega
    have hwrap : (dev_id + 1) % UINT64_MOD = dev_id + 1 := Nat.mod_eq_of_lt (by omega)
    rw [hfuel]
    simp only [Util.for_each_device_loop, hfound, hid, ↓reduceIte,
      hnone dev_id (Nat.le_refl _) (by omega), hwrap]
    rw [ih (dev_id + 1) (by omega) (by omega) (fun i h1 h2 => hnone i (by omega) (by omega))]
    congr 1
    omega

/-- The loop of for_each_device with an accepting callback, from a device id at most
max_id + 1 when max_id + 1 still fits a uint64_t: it returns true with the next
num_devices - found existing ids when there are that many up to max_id, and otherwise
false after the diagnostic. -/
theorem Util.for_each_device_loop_small (mountpoint : String) (dev_info : Nat → Except Nat Nat)
    (fs_info : btrfs_ioctl_fs_info_args) (hmax : fs_info.max_id + 1 < UINT64_MOD)
    (hsoft : ∀ id errno, id ≤ fs_info.max_id → dev_info id = Except.error errno →
      errno = ENODEV) :
    ∀ (k fuel dev_id found : Nat) (seen : List Nat) (log : Log),
      dev_id + k = fs_info.max_id + 1 → k < fuel →
      Util.for_each_device_loop mountpoint dev_info Util.accept_and_record fs_info fuel dev_id
          found seen log
        = if fs_info.num_devices ≤ found + (Util.existing_ids dev_info dev_id k).length then
            some (true,
              seen ++ (Util.existing_ids dev_info dev_id k).take (fs_info.num_devices - found),
              log)
          else
            some (false, seen ++ Util.existing_ids dev_info dev_id k,
              log ++ [Event.devices_missing mountpoint fs_info.num_devices
                (found + (Util.existing_ids dev_info dev_id k).length)]) := by
  intro k
  induction k with
  | zero =>
    intro fuel dev_id found seen log hk hfuel
    obtain ⟨f, rfl⟩ : ∃ f, fuel = f + 1 := ⟨fuel - 1, by omega⟩
    have hid : dev_id > fs_info.max_id := by omega
    by_cases hfound : found < fs_info.num_devices
    · have h2 : ¬ fs_info.num_devices ≤ found := by omega
      simp [Util.for_each_device_loop, hfound, hid, Util.existing_ids, h2]
    · have h2 : fs_info.num_devices ≤ found := by omega
      simp [Util.for_each_device_loop, hfound, Util.existing_ids, h2]
  | succ k ih =>
    intro fuel dev_id found seen log hk hfuel
    obtain ⟨f, rfl⟩ : ∃ f, fuel = f + 1 := ⟨fuel - 1, by omega⟩
    have hid : ¬ dev_id > fs_info.max_id := by omega
    have hwrap : (dev_id + 1) % UINT64_MOD = dev_id + 1 := Nat.mod_eq_of_lt (by omega)
    by_cases hfound : found < fs_info.num_devices
    · cases hdev : dev_info dev_id with
      | ok bytes_used =>
        have hex : Util.existing_ids dev_info dev_id (k + 1)
            = dev_id :: Util.existing_ids dev_info (dev_id + 1) k := by
          simp [Util.existing_ids, List.range', Util.device_exists, hdev]
        have hsub : fs_info.num_devices - found = (fs_info.num_devices - (found + 1)) + 1 := by
          omega
        simp only [Util.for_each_device_loop, hfound, hid, ↓reduceIte, hdev,
          Util.accept_and_record, hwrap]
        rw [ih f (dev_id + 1) (found + 1) (seen ++ [dev_id]) log (by omega) (by omega), hex,
          hsub, List.take_succ_cons]
        simp only [List.length_cons, List.append_assoc, List.singleton_append]
        have e1 : found + 1 + (Util.existing_ids dev_info (dev_id + 1) k).length
            = found + ((Util.existing_ids dev_info (dev_id + 1) k).length + 1) := by omega
        rw [e1]
      | error errno =>
        have he := hsoft dev_id errno (by omega) hdev
        subst he
        have hex : Util.existing_ids dev_info dev_id (k + 1)
            = Util.existing_ids dev_info (dev_id + 1) k := by
          simp [Util.existing_ids, List.range', Util.device_exists, hdev]
        simp only [Util.for_each_device_loop, hfound, hid, ↓reduceIte, hdev, hwrap]
        rw [ih f (dev_id + 1) found seen log (by omega) (by omega), hex]
    · have h2 : fs_info.num_devices ≤
          found + (Util.existing_ids dev_info dev_id (k + 1)).length := by omega
      have h3 : fs_info.num_devices - found = 0 := by omega
      simp [Util.for_each_device_loop, hfound, h2, h3]

/-- The property of C17 for every max_id below the largest uint64_t: with an accepting
callback, no hard query error and enough iterations, for_each_device returns true exactly
when at least num_devices existing ids lie in [0, max_id], having called the callback on
the first num_devices of them in ascending order; otherwise it returns false after the
diagnostic, having called the callback on every existing id. -/
theorem Util.for_each_device_small (fuel : Nat) (w : Util.DeviceWorld) (mountpoint : String)
    (fs_info : btrfs_ioctl_fs_info_args) (hfs : w.fs_info = Except.ok fs_info)
    (hmax : fs_info.max_id + 1 < UINT64_MOD)
    (hsoft : ∀ id errno, id ≤ fs_info.max_id → w.dev_info id = Except.error errno →
      errno = ENODEV)
    (hfuel : fs_info.max_id + 1 < fuel) :
    ∃ (ok : Bool) (seen : List Nat) (log : Log),
      Util.for_each_device fuel w mountpoint Util.accept_and_record [] [] = some (ok, seen, log) ∧
      (ok = true ↔
        fs_info.num_devices ≤ (Util.existing_ids w.dev_info 0 (fs_info.max_id + 1)).length) ∧
      (ok = true → seen.length = fs_info.num_devices ∧
        seen = (Util.existing_ids w.dev_info 0 (fs_info.max_id + 1)).take fs_info.num_devices) ∧
      (ok = false → seen = Util.existing_ids w.dev_info 0 (fs_info.max_id + 1) ∧
        log = [Event.devices_missing mountpoint fs_info.num_devices seen.length]) := by
  have h := Util.for_each_device_loop_small mountpoint w.dev_info fs_info hmax hsoft
    (fs_info.max_id + 1) fuel 0 0 [] [] (by omega) hfuel
  simp only [Util.for_each_device, hfs]
  rw [h]
  by_cases hc : fs_info.num_devices ≤ (Util.existing_ids w.dev_info 0 (fs_info.max_id + 1)).length
  · simp [hc]
  · simp [hc]

/-- One iteration of the loop of for_each_device that finds a device the callback accepts. -/
theorem Util.for_each_device_loop_found {σ : Type} (mountpoint : String)
    (dev_info : Nat → Except Nat Nat)
    (cb : btrfs_ioctl_fs_info_args → btrfs_ioctl_dev_info_args → σ → Log → Bool × σ × Log)
    (fs_info : btrfs_ioctl_fs_info_args) (fuel dev_id found bytes_used : Nat)
    (cookie cookie1 : σ) (log log1 : Log)
    (hfound : found < fs_info.num_devices) (hid : dev_id ≤ fs_info.max_id)
    (hdev : dev_info dev_id = Except.ok bytes_used)
    (hcb : cb fs_info { devid := dev_id, bytes_used := bytes_used } cookie log
      = (true, cookie1, log1)) :
    Util.for_each_device_loop mountpoint dev_info cb fs_info (fuel + 1) dev_id found cookie log
      = Util.for_each_device_loop mountpoint dev_info cb fs_info fuel
          ((dev_id + 1) % UINT64_MOD) (found + 1) cookie1 log1 := by
  have hid2 : ¬ dev_id > fs_info.max_id := by omega
  simp [Util.for_each_device_loop, hfound, hid2, hdev, hcb]

/-- Once num_devices devices were found, the loop of for_each_device ends with true. -/
theorem Util.for_each_device_loop_done {σ : Type} (mountpoint : String)
    (dev_info : Nat → Except Nat Nat)
    (cb : btrfs_ioctl_fs_info_args → btrfs_ioctl_dev_info_args → σ → Log → Bool × σ × Log)
    (fs_info : btrfs_ioctl_fs_info_args) (fuel dev_id found : Nat) (cookie : σ) (log : Log)
    (hfound : ¬ found < fs_info.num_devices) :
    Util.for_each_device_loop mountpoint dev_info cb fs_info fuel dev_id found cookie log
      = some (true, cookie, log) := by
  cases fuel <;> simp [Util.for_each_device_loop, hfound]

/-- C17 (failing input): the filesystem declares two devices and max_id = 2^64 - 1, and only
the device with id 2^64 - 1 exists, so fewer than num_devices existing ids lie in
[0, max_id]. The test dev_id > max_id can never hold, dev_id wraps to 0 after the device,
and the same device is found a second time: for_each_device returns true without a
diagnostic, having called the callback twice with the same id. -/
theorem C17_device_id_wraps_at_max_id (extra : Nat) :
    Util.for_each_device (2 ^ 65 + extra) Examples.last_id_only "/mnt" Util.accept_and_record
        [] []
      = some (true, [UINT64_MAX, UINT64_MAX], []) ∧
    UINT64_MAX = 2 ^ 64 - 1 ∧
    (∀ id, Util.device_exists Examples.last_id_only.dev_info id = true ↔ id = UINT64_MAX) := by
  refine ⟨?_, rfl, ?_⟩
  · have hfuel : 2 ^ 65 + extra
        = UINT64_MAX + ((UINT64_MAX + (extra + 1)) + 1) := by
      have : UINT64_MAX = 2 ^ 64 - 1 := rfl
      norm_num [this]
      omega
    have hnone : ∀ i, 0 ≤ i → i < 0 + UINT64_MAX →
        Examples.last_id_only.dev_info i = Except.error ENODEV := by
      intro i _ hi
      have : i ≠ UINT64_MAX := by omega
      simp [Examples.last_id_only, this]
    have hlast : Examples.last_id_only.dev_info UINT64_MAX = Except.ok 4096 := by
      simp [Examples.last_id_only]
    have hwrap : (UINT64_MAX + 1) % UINT64_MOD = 0 := by decide
    have hlt : 0 + UINT64_MAX < UINT64_MOD := by decide
    have hfs : Examples.last_id_only.fs_info
        = Except.ok { max_id := UINT64_MAX, num_devices := 2 } := rfl
    unfold Util.for_each_device
    rw [hfs, hfuel]
    simp only []
    rw [Util.for_each_device_loop_skip "/mnt" _ Util.accept_and_record
        { max_id := UINT64_MAX, num_devices := 2 } _ 0 [] [] (by decide) UINT64_MAX 0
        (by simp) hlt hnone,
      Nat.zero_add,
      Util.for_each_device_loop_found "/mnt" _ Util.accept_and_record
        { max_id := UINT64_MAX, num_devices := 2 } _ UINT64_MAX 0 4096 [] [UINT64_MAX] [] []
        (by decide) (Nat.le_refl _) hlast rfl,
      hwrap,
      Util.for_each_device_loop_skip "/mnt" _ Util.accept_and_record
        { max_id := UINT64_MAX, num_devices := 2 } _ 1 [UINT64_MAX] [] (by decide) UINT64_MAX 0
        (by simp) hlt hnone,
      Nat.zero_add,
      Util.for_each_device_loop_found "/mnt" _ Util.accept_and_record
        { max_id := UINT64_MAX, num_devices := 2 } _ UINT64_MAX 1 4096 [UINT64_MAX]
        [UINT64_MAX, UINT64_MAX] [] [] (by decide) (Nat.le_refl _) hlast rfl,
      Util.for_each_device_loop_done _ _ _ _ _ _ _ _ _ (by decide)]
  · intro id
    by_cases h : id = UINT64_MAX
    · simp [Util.device_exists, Examples.last_id_only, h]
    · simp [Util.device_exists, Examples.last_id_only, h]

/-- Three devices are declared with ids up to 5, and the devices 1 and 4 exist. -/
theorem Util.for_each_device_small_witness :
    ∃ (ok : Bool) (seen : List Nat) (log : Log),
      Util.for_each_device 7 Examples.sparse_short "/mnt" Util.accept_and_record [] []
        = some (ok, seen, log) ∧
      (ok = true ↔ 3 ≤ (Util.existing_ids Examples.sparse_short.dev_info 0 (5 + 1)).length) ∧
      (ok = true → seen.length = 3 ∧
        seen = (Util.existing_ids Examples.sparse_short.dev_info 0 (5 + 1)).take 3) ∧
      (ok = false → seen = Util.existing_ids Examples.sparse_short.dev_info 0 (5 + 1) ∧
        log = [Event.devices_missing "/mnt" 3 seen.length]) :=
  Util.for_each_device_small 7 Examples.sparse_short "/mnt" { max_id := 5, num_devices := 3 } rfl
    (by decide) (by
      intro id errno _ h
      simp only [Examples.sparse_short] at h
      split at h
      · cases h
      · injection h with h
        exact h.symm) (by decide)

/-! ## Theorems: the defragment request and the fsid buffer -/

/-- C19: a regular file or a subvolume-root directory (the traversal root, or a directory
with a new device number pair that belongs to the filesystem of the root) that passes the
checks of process and whose defragment request fails with errno: the request was made,
process returns true exactly if errno is EROFS, and in both cases a directory is pushed
(given that strdup, fdopendir and the chunk allocation succeed) while a regular file
leaves the stack as it was. -/
theorem C19_read_only_refusal_is_success (name : String) (a : Defrag.Answers)
    (sub : Defrag.Dir) (sb : Defrag.statx) (w : Defrag.Walk) (errno : Nat)
    (hWF : w.stack.WF) (ho : a.opens sb)
    (hroot : Defrag.stack_empty w.stack = true → ∃ fsid, a.fs_info = Except.ok fsid)
    (hadm : a.kind = Defrag.NodeKind.regular_file sb ∨
      (a.kind = Defrag.NodeKind.directory sb ∧
        Defrag.on_stack sb.id w.stack.entries = false ∧
        (Defrag.stack_empty w.stack = false →
          sb.dev ≠ (Defrag.stack_peek w.stack).dev ∧ sb.stx_ino ≠ 2 ∧
            a.fs_info = Except.ok w.fsid) ∧
        a.strdup = true ∧ a.fdopendir = Except.ok () ∧
        (w.stack.needs_malloc = true → a.malloc = true)))
    (hdefrag : a.defrag = Except.error errno) :
    ((Defrag.process name a sub w).1 = true ↔ errno = EROFS) ∧
    Defrag.defrag_calls (Defrag.process name a sub w).2.log
      = Defrag.defrag_calls w.log ++ [Defrag.print_path w.stack (some name)] ∧
    (a.kind = Defrag.NodeKind.directory sb →
      (Defrag.process name a sub w).2.stack.entries
        = Defrag.pushed_entry name sb sub :: w.stack.entries) ∧
    (a.kind = Defrag.NodeKind.regular_file sb →
      (Defrag.process name a sub w).2.stack = w.stack) := by
  obtain ⟨ho1, ho2, ho3⟩ := ho
  rcases hadm with hk | ⟨hk, hloop, hsub, hstrdup, hfdopendir, hmalloc⟩
  · obtain ⟨hs, hf, hreg, hdir⟩ := Defrag.kind_regular_file a sb hk
    have hnd : a.kind ≠ Defrag.NodeKind.directory sb := by rw [hk]; simp
    cases hne : Defrag.stack_empty w.stack
    · by_cases he : errno = EROFS <;>
        simp [Defrag.process, Defrag.process_boundary, Defrag.process_defrag, ho1, hs, ho2,
          hf, hreg, hdir, ho3, hne, hdefrag, he, hnd, Defrag.show_path_errno,
          Defrag.show_path_error, Defrag.defrag_calls_append, Defrag.defrag_calls]
    · obtain ⟨fsid, hfsid⟩ := hroot hne
      by_cases he : errno = EROFS <;>
        simp [Defrag.process, Defrag.process_boundary, Defrag.process_defrag, ho1, hs, ho2,
          hf, hreg, hdir, ho3, hne, hdefrag, he, hnd, hfsid, Defrag.show_path_errno,
          Defrag.show_path_error, Defrag.defrag_calls_append, Defrag.defrag_calls]
  · obtain ⟨hs, hf, hdir, hreg⟩ := Defrag.kind_directory a sb hk
    have hnr : a.kind ≠ Defrag.NodeKind.regular_file sb := by rw [hk]; simp
    have hl := Defrag.check_loop_eq w.stack hWF sb.stx_dev_major sb.stx_dev_minor sb.stx_ino
    simp only [Defrag.statx.id] at hloop
    rw [hloop] at hl
    obtain ⟨_, hpe, _, hpf⟩ :=
      Defrag.stack_push_spec a.malloc w.stack (Defrag.pushed_entry name sb sub) hWF
    have hp1 : (Defrag.stack_push a.malloc w.stack (Defrag.pushed_entry name sb sub)).1
        = true := by
      cases h : (Defrag.stack_push a.malloc w.stack (Defrag.pushed_entry name sb sub)).1
      · have h2 := hpf.mp h
        rw [hmalloc h2.1] at h2
        exact absurd h2.2 (by simp)
      · rfl
    have hpe1 := hpe hp1
    rcases hpush : Defrag.stack_push a.malloc w.stack (Defrag.pushed_entry name sb sub)
      with ⟨b, s1⟩
    rw [hpush] at hp1 hpe1
    simp only at hp1 hpe1
    subst hp1
    cases hne : Defrag.stack_empty w.stack
    · obtain ⟨hd, hino, hfsid⟩ := hsub hne
      have hd2 : ¬ sb.stx_dev_major = (Defrag.stack_peek w.stack).dev_major ∨
          ¬ sb.stx_dev_minor = (Defrag.stack_peek w.stack).dev_minor := by
        by_cases h1 : sb.stx_dev_major = (Defrag.stack_peek w.stack).dev_major
        · refine Or.inr (fun h2 => hd ?_)
          simp [Defrag.statx.dev, Defrag.stack_entry.dev, h1, h2]
        · exact Or.inl h1
      by_cases he : errno = EROFS <;>
        simp [Defrag.process, Defrag.process_boundary, Defrag.process_defrag, ho1, hs, ho2,
          hf, hreg, hdir, ho3, hne, hdefrag, he, hnr, hl, hd2, hino, hfsid, hstrdup,
          hfdopendir, hpush, hpe1, Defrag.show_path_errno,
          Defrag.show_path_error, Defrag.defrag_calls_append, Defrag.defrag_calls]
    · obtain ⟨fsid, hfsid⟩ := hroot hne
      by_cases he : errno = EROFS <;>
        simp [Defrag.process, Defrag.process_boundary, Defrag.process_defrag, ho1, hs, ho2,
          hf, hreg, hdir, ho3, hne, hdefrag, he, hnr, hl, hfsid, hstrdup,
          hfdopendir, hpush, hpe1, Defrag.show_path_errno,
          Defrag.show_path_error, Defrag.defrag_calls_append, Defrag.defrag_calls]

/-- C19 (witness): the root b of a read-only subvolume, listed by the root of the scenario. -/
theorem C19_read_only_refusal_is_success_witness :
    ((Defrag.process "b" Examples.read_only_subvolume (Defrag.Dir.done 0) Examples.at_root).1
        = true ↔ EROFS = EROFS) ∧
    Defrag.defrag_calls
        (Defrag.process "b" Examples.read_only_subvolume (Defrag.Dir.done 0) Examples.at_root).2.log
      = Defrag.defrag_calls Examples.at_root.log
          ++ [Defrag.print_path Examples.at_root.stack (some "b")] ∧
    (Examples.read_only_subvolume.kind
        = Defrag.NodeKind.directory
            { stx_mode := Defrag.S_IFDIR ||| 0o755, stx_ino := 256, stx_dev_major := 0,
              stx_dev_minor := 31 } →
      (Defrag.process "b" Examples.read_only_subvolume (Defrag.Dir.done 0)
          Examples.at_root).2.stack.entries
        = Defrag.pushed_entry "b"
            { stx_mode := Defrag.S_IFDIR ||| 0o755, stx_ino := 256, stx_dev_major := 0,
              stx_dev_minor := 31 } (Defrag.Dir.done 0) :: Examples.at_root.stack.entries) ∧
    (Examples.read_only_subvolume.kind
        = Defrag.NodeKind.regular_file
            { stx_mode := Defrag.S_IFDIR ||| 0o755, stx_ino := 256, stx_dev_major := 0,
              stx_dev_minor := 31 } →
      (Defrag.process "b" Examples.read_only_subvolume (Defrag.Dir.done 0)
          Examples.at_root).2.stack = Examples.at_root.stack) :=
  C19_read_only_refusal_is_success "b" Examples.read_only_subvolume (Defrag.Dir.done 0)
    { stx_mode := Defrag.S_IFDIR ||| 0o755, stx_ino := 256, stx_dev_major := 0,
      stx_dev_minor := 31 } Examples.at_root EROFS
    (Defrag.process_stack _ _ _ _ Defrag.stack_init_WF).1 ⟨rfl, by decide, rfl⟩
    (fun h => absurd h (by decide))
    (Or.inr ⟨rfl, by decide, fun _ => ⟨by decide, by decide, rfl⟩, rfl, rfl, fun _ => rfl⟩)
    rfl

namespace Defrag

/-- The loop of do_defrag is the iteration of its body until the stack is empty. -/
theorem do_defrag_loop_eq_iterations (fuel : Nat) :
    ∀ (ok : Bool) (w : Walk),
      do_defrag_loop fuel ok w
        = if stack_empty (do_defrag_iterations fuel ok w).2.stack
          then some (do_defrag_iterations fuel ok w) else none := by
  induction fuel with
  | zero =>
    intro ok w
    simp [do_defrag_loop, do_defrag_iterations]
  | succ fuel ih =>
    intro ok w
    by_cases he : stack_empty w.stack = true
    · simp [do_defrag_loop, do_defrag_iterations, he]
    · simp only [do_defrag_loop, do_defrag_iterations, he, Bool.false_eq_true, ↓reduceIte]
      rw [← ih]
      unfold do_defrag_iteration
      split <;> (try split) <;> (try split) <;> rfl

theorem process_defrag_fsid (name : String) (a : Answers) (sub : Dir) (sb : statx)
    (ndn : Bool) (w : Walk) : (process_defrag name a sub sb ndn w).2.fsid = w.fsid := by
  obtain ⟨ok, log, _, _, heq⟩ := process_defrag_eq name a sub sb ndn w
  rw [heq]
  repeat' split
  all_goals rfl

theorem process_boundary_fsid (name : String) (a : Answers) (sub : Dir) (sb : statx)
    (w : Walk) : (process_boundary name a sub sb w).2.fsid = w.fsid := by
  unfold process_boundary
  simp only
  repeat' split
  all_goals first | rfl | exact process_defrag_fsid _ _ _ _ _ _

/-- Lines 313-323 of process: with a non-empty stack the fsid buffer is not written. -/
theorem process_fsid (name : String) (a : Answers) (sub : Dir) (w : Walk)
    (hne : stack_empty w.stack = false) : (process name a sub w).2.fsid = w.fsid := by
  unfold process
  simp only [hne, Bool.false_eq_true, ↓reduceIte]
  repeat' split
  all_goals first | rfl | exact process_boundary_fsid _ _ _ _ _

theorem stack_advance_empty (s : stack) (rest : Dir) :
    stack_empty (stack_advance s rest) = stack_empty s := by
  unfold stack_advance stack_empty
  cases h : s.top <;> simp [h]

theorem do_defrag_iteration_fsid (ok : Bool) (w : Walk) (hne : stack_empty w.stack = false) :
    (do_defrag_iteration ok w).2.fsid = w.fsid := by
  unfold do_defrag_iteration
  split
  · rename_i d_type d_name a sub rest _
    simp only
    split
    · split
      · exact process_fsid _ _ _ _ (by rw [stack_advance_empty]; exact hne)
      · rfl
    · rfl
  · split <;> rfl

theorem do_defrag_iterations_fsid (n : Nat) :
    ∀ (ok : Bool) (w : Walk), (do_defrag_iterations n ok w).2.fsid = w.fsid := by
  induction n with
  | zero => intro ok w; rfl
  | succ n ih =>
    intro ok w
    by_cases he : stack_empty w.stack = true
    · simp [do_defrag_iterations, he]
    · simp only [do_defrag_iterations, he, Bool.false_eq_true, ↓reduceIte]
      rw [ih, do_defrag_iteration_fsid ok w (by simpa using he)]

end Defrag

/-- C20: the fsid buffer is written only by a process call on an empty stack, and the loop
of do_defrag never makes one. From any state (ok, w) of the loop, in do_defrag the state
after the process call for the traversal root: after any number of iterations the buffer
holds what it held in w, so it does when the loop returns; a process call on a non-empty
stack leaves the buffer alone; and the stack that the loop hands to process, the current
stack after the readdir, is non-empty whenever the loop has not ended. -/
theorem C20_fsid_is_written_only_for_the_root (n : Nat) (ok : Bool) (w : Defrag.Walk) :
    (Defrag.do_defrag_iterations n ok w).2.fsid = w.fsid ∧
    (∀ ok1 w1, Defrag.do_defrag_loop n ok w = some (ok1, w1) → w1.fsid = w.fsid) ∧
    (∀ name a sub, Defrag.stack_empty w.stack = false →
      (Defrag.process name a sub w).2.fsid = w.fsid) ∧
    (∀ rest, Defrag.stack_empty w.stack = false →
      Defrag.stack_empty (Defrag.stack_advance w.stack rest) = false) := by
  refine ⟨Defrag.do_defrag_iterations_fsid n ok w, ?_, ?_, ?_⟩
  · intro ok1 w1 h
    rw [Defrag.do_defrag_loop_eq_iterations] at h
    split at h
    · injection h with h
      have h2 := Defrag.do_defrag_iterations_fsid n ok w
      rw [h] at h2
      exact h2
    · cases h
  · intro name a sub hne
    exact Defrag.process_fsid name a sub w hne
  · intro rest hne
    rw [Defrag.stack_advance_empty]
    exact hne

/-- C20 (witness): the walk of the scenario from the state after the admission of its
root, where the buffer holds [7]; a directory b that reports the token [8] does not change
it. -/
theorem C20_fsid_is_written_only_for_the_root_witness :
    (Defrag.do_defrag_iterations 19 true Examples.at_root).2.fsid = [7] ∧
    (∃ ok1 w1, Defrag.do_defrag_loop 19 true Examples.at_root = some (ok1, w1) ∧
      w1.fsid = [7]) ∧
    (Defrag.process "b" (Examples.dir 31 256 [8]) (Defrag.Dir.done 0) Examples.at_root).2.fsid
      = [7] ∧
    Defrag.stack_empty (Defrag.stack_advance Examples.at_root.stack (Defrag.Dir.done 0))
      = false :=
  ⟨(C20_fsid_is_written_only_for_the_root 19 true Examples.at_root).1,
   ⟨(Defrag.do_defrag_iterations 19 true Examples.at_root).1,
    (Defrag.do_defrag_iterations 19 true Examples.at_root).2, rfl,
    (C20_fsid_is_written_only_for_the_root 19 true Examples.at_root).2.1 _ _ rfl⟩,
   (C20_fsid_is_written_only_for_the_root 19 true Examples.at_root).2.2.1 "b"
     (Examples.dir 31 256 [8]) (Defrag.Dir.done 0) rfl,
   (C20_fsid_is_written_only_for_the_root 19 true Examples.at_root).2.2.2 (Defrag.Dir.done 0)
     rfl⟩

/-! ## Theorems: the completion protocol -/

/-- The branch of the monitor loop that reads the completion counter is monitor_read. -/
theorem Scrub.monitor_efd_in (p : PollAnswer) (ps : List PollAnswer) (remaining count : Nat)
    (log : Log) (hr : remaining ≠ 0) (hf : p.failed = false) (hs : p.sig_in = false)
    (he : p.efd_in = true) (hread : p.efd_read = Except.ok count) :
    Scrub.monitor (p :: ps) remaining log
      = match Scrub.monitor_read count remaining with
        | some r => Scrub.monitor ps r log
        | none => some (Scrub.MonitorExit.assert_failed, log) := by
  by_cases hc : count ≤ remaining <;>
    simp [Scrub.monitor, Scrub.monitor_read, hr, hf, hs, he, hread, hc]

theorem Scrub.count_set_posted (l : List Bool) :
    ∀ i, i < l.length → l.getD i true = false →
      (l.set i true).count false + 1 = l.count false ∧
      (l.set i true).count true = l.count true + 1 := by
  induction l with
  | nil => intro i hi; simp at hi
  | cons b l ih =>
    intro i hi hget
    cases i with
    | zero =>
      simp only [List.getD_cons_zero] at hget
      subst hget
      simp
    | succ i =>
      simp only [List.getD_cons_succ] at hget
      simp only [List.length_cons, Nat.add_lt_add_iff_right] at hi
      obtain ⟨h1, h2⟩ := ih i hi hget
      cases b <;> simp [List.count_cons] <;> omega

theorem Scrub.completion_invariant (thread_count : Nat) (s : Scrub.Completion)
    (h : Scrub.Completion.Reachable thread_count s) :
    s.assert_failed = false ∧
    s.remaining = s.posted.count false + s.counter ∧
    s.read_total + s.counter = s.posted.count true ∧
    s.posted.count false + s.posted.count true = thread_count := by
  induction h with
  | start =>
    simp [Scrub.Completion.start, List.count_replicate]
  | post i s s1 _ hstep ih =>
    obtain ⟨h1, h2, h3, h4⟩ := ih
    unfold Scrub.Completion.post at hstep
    split at hstep
    · rename_i hc
      obtain ⟨hi, hget, _⟩ := hc
      obtain ⟨c1, c2⟩ := Scrub.count_set_posted s.posted i hi hget
      injection hstep with hstep
      subst hstep
      simp only
      refine ⟨h1, ?_, ?_, ?_⟩ <;> omega
    · cases hstep
  | read s s1 _ hstep ih =>
    obtain ⟨h1, h2, h3, h4⟩ := ih
    unfold Scrub.Completion.read at hstep
    split at hstep
    · have hle : s.counter ≤ s.remaining := by omega
      simp only [Scrub.monitor_read, hle, ↓reduceIte] at hstep
      injection hstep with hstep
      subst hstep
      simp only
      refine ⟨h1, ?_, ?_, h4⟩ <;> omega
    · cases hstep

/-- C18: in every state that the completion protocol reaches from the start with
thread_count workers, under any interleaving of posts and reads: remaining is the number of
workers that have not posted plus the value of the counter (the posted and unread
increments); assert(count <= remaining) has not failed and would hold for a read in this
state; the counts read so far and remaining add up to thread_count, so remaining is 0
exactly when all thread_count completions have been read. -/
theorem C18_remaining_counts_outstanding_completions (thread_count : Nat)
    (s : Scrub.Completion) (h : Scrub.Completion.Reachable thread_count s) :
    s.remaining = s.posted.count false + s.counter ∧
    s.assert_failed = false ∧
    Scrub.monitor_read s.counter s.remaining = some (s.remaining - s.counter) ∧
    s.read_total + s.remaining = thread_count ∧
    (s.remaining = 0 ↔ s.read_total = thread_count) := by
  obtain ⟨h1, h2, h3, h4⟩ := Scrub.completion_invariant thread_count s h
  refine ⟨h2, h1, ?_, ?_, ?_⟩
  · have hle : s.counter ≤ s.remaining := by omega
    simp [Scrub.monitor_read, hle]
  · omega
  · omega

/-- C18 (witness): three workers; the workers 1 and 0 have posted and the monitor has read
the count 2. -/
theorem C18_remaining_counts_outstanding_completions_witness :
    (1 : Nat) = [true, true, false].count false + 0 ∧
    false = false ∧
    Scrub.monitor_read 0 1 = some (1 - 0) ∧
    2 + 1 = 3 ∧
    ((1 : Nat) = 0 ↔ 2 = 3) :=
  C18_remaining_counts_outstanding_completions 3
    { posted := [true, true, false], counter := 0, remaining := 1, read_total := 2 }
    (Scrub.Completion.Reachable.read
      { posted := [true, true, false], counter := 2, remaining := 3 } _
      (Scrub.Completion.Reachable.post 0
        { posted := [false, true, false], counter := 1, remaining := 3 } _
        (Scrub.Completion.Reachable.post 1 (Scrub.Completion.start 3) _
          Scrub.Completion.Reachable.start rfl) rfl) rfl)

/-! ## Theorems: signal masking -/

/-- The signal mask with which the shared body of do_scrub_fd and do_balance_fd returns:
the mask of the call when the first sigprocmask failed, and otherwise that mask without
SIGINT, SIGQUIT and SIGTERM. -/
theorem block_signals_and_run_mask (sys : SignalWorld) (auxfds : Option (Outcome × Log))
    (mask mask1 : SigMask) (ret : Bool) (log : Log)
    (h : block_signals_and_run sys auxfds mask = some (Outcome.returned ret, log, mask1)) :
    (sys.sigprocmask_block ≠ none ∧ mask1 = mask) ∨
    (sys.sigprocmask_block = none ∧
      mask1 = SIG_UNBLOCK termination_signals (SIG_BLOCK termination_signals mask)) := by
  unfold block_signals_and_run at h
  split at h
  · rename_i errno hb
    simp only [Option.some.injEq, Prod.mk.injEq] at h
    exact Or.inl ⟨by simp [hb], h.2.2.symm⟩
  · rename_i hb
    simp only at h
    split at h
    · cases h
    · split at h
      · cases h
      · split at h
        · cases h
        · simp only [Option.some.injEq, Prod.mk.injEq] at h
          exact Or.inr ⟨hb, h.2.2.symm⟩
    · rename_i o log1 hno _
      simp only [Option.some.injEq, Prod.mk.injEq] at h
      exact absurd h.1 (fun heq => hno ret heq)

theorem unblock_block_of_free (mask : SigMask)
    (hfree : ∀ signo ∈ termination_signals, mask signo = false) (signo : Nat) :
    SIG_UNBLOCK termination_signals (SIG_BLOCK termination_signals mask) signo = mask signo := by
  unfold SIG_UNBLOCK SIG_BLOCK
  by_cases hs : signo ∈ termination_signals
  · simp [hs, hfree signo hs]
  · simp [hs]

/-- A termination signal that is pending when the mask is lifted and is not ignored ends
the process: the shared body of do_scrub_fd and do_balance_fd does not return. -/
theorem block_signals_and_run_killed (sys : SignalWorld) (auxfds : Option (Outcome × Log))
    (mask : SigMask) (signo : Nat) (ret : Bool) (log : Log)
    (hblock : sys.sigprocmask_block = none) (hsigfd : sys.signalfd = Except.ok ())
    (hefd : sys.eventfd = Except.ok ()) (haux : auxfds = some (Outcome.returned ret, log))
    (hunblock : sys.sigprocmask_unblock = none)
    (hsig : sys.delivered termination_signals = some signo) :
    ∃ mask1, block_signals_and_run sys auxfds mask
      = some (Outcome.killed_by_signal signo, log, mask1) := by
  simp [block_signals_and_run, hblock, hsigfd, hefd, haux, hunblock, hsig]

/-- The scrub of the example scrub_interrupted, whose first poll reports a termination
signal: with SIGINT pending and not ignored when the mask is lifted, do_scrub_fd does not
return; with SIGINT ignored it returns. -/
theorem do_scrub_fd_interrupted :
    (∃ log mask1,
      Scrub.do_scrub_fd 2 Examples.scrub_interrupted { pending := [SIGINT] } "/mnt" false
          (fun _ => false) = some (Outcome.killed_by_signal SIGINT, log, mask1)) ∧
    (∃ ret log mask1,
      Scrub.do_scrub_fd 2 Examples.scrub_interrupted
          { pending := [SIGINT], ignored := fun signo => signo == SIGINT } "/mnt" false
          (fun _ => false) = some (Outcome.returned ret, log, mask1)) :=
  ⟨⟨_, _, rfl⟩, ⟨_, _, _, rfl⟩⟩

/-- C16 (counterexample): SIGINT is blocked when do_scrub_fd or do_balance_fd is called.
Either returns with SIGINT unblocked, after a run of the monitored region and also after a
failure of signalfd: the state of SIGINT is not what it was before the call. -/
theorem C16_counterexample_blocked_signal_is_unblocked :
    Examples.sigint_blocked SIGINT = true ∧
    (∃ ret log mask1,
      Scrub.do_scrub_fd 3 Examples.checksum_errors_on_second {} "/mnt" false
          Examples.sigint_blocked = some (Outcome.returned ret, log, mask1) ∧
        mask1 SIGINT = false) ∧
    (∃ ret log mask1,
      Balance.do_balance_fd Examples.balance_cancelled_elsewhere {} "/mnt" false
          Examples.sigint_blocked = some (Outcome.returned ret, log, mask1) ∧
        mask1 SIGINT = false) ∧
    (∃ ret log mask1,
      Scrub.do_scrub_fd 3 Examples.checksum_errors_on_second { signalfd := Except.error 24 }
          "/mnt" false Examples.sigint_blocked = some (Outcome.returned ret, log, mask1) ∧
        mask1 SIGINT = false) :=
  ⟨rfl, ⟨_, _, _, rfl, rfl⟩, ⟨_, _, _, rfl, rfl⟩, ⟨_, _, _, rfl, rfl⟩⟩

/-- C16 (as amended): when none of SIGINT, SIGQUIT and SIGTERM is blocked at the call,
do_scrub_fd and do_balance_fd return, on every path on which they return (the first
sigprocmask failed, signalfd or eventfd failed, or the monitored region ran and succeeded
or failed), with the signal mask of the call: the blocked state of these three signals and
of every other signal is as before. -/
theorem C16_unblocked_signals_are_restored (mask : SigMask)
    (hfree : ∀ signo ∈ termination_signals, mask signo = false) :
    (∀ (fuel : Nat) (w : Scrub.World) (sys : SignalWorld) (mountpoint : String)
        (verbose ret : Bool) (log : Log) (mask1 : SigMask),
      Scrub.do_scrub_fd fuel w sys mountpoint verbose mask
          = some (Outcome.returned ret, log, mask1) → mask1 = mask) ∧
    (∀ (w : Balance.World) (sys : SignalWorld) (mountpoint : String)
        (verbose ret : Bool) (log : Log) (mask1 : SigMask),
      Balance.do_balance_fd w sys mountpoint verbose mask
          = some (Outcome.returned ret, log, mask1) → mask1 = mask) := by
  have key : ∀ (sys : SignalWorld) (auxfds : Option (Outcome × Log)) (ret : Bool) (log : Log)
      (mask1 : SigMask),
      block_signals_and_run sys auxfds mask = some (Outcome.returned ret, log, mask1) →
      mask1 = mask := by
    intro sys auxfds ret log mask1 h
    rcases block_signals_and_run_mask sys auxfds mask mask1 ret log h with ⟨_, h1⟩ | ⟨_, h1⟩
    · exact h1
    · rw [h1]
      funext signo
      exact unblock_block_of_free mask hfree signo
  exact ⟨fun fuel w sys mountpoint verbose ret log mask1 h => key sys _ ret log mask1 h,
    fun w sys mountpoint verbose ret log mask1 h => key sys _ ret log mask1 h⟩

/-- C16 (witness): only SIGUSR1 is blocked at the call; a scrub that runs, and a balance
whose eventfd cannot be created, return with the same mask. -/
theorem C16_unblocked_signals_are_restored_witness :
    (∃ ret log mask1,
      Scrub.do_scrub_fd 3 Examples.checksum_errors_on_second {} "/mnt" false
          Examples.sigusr1_blocked = some (Outcome.returned ret, log, mask1) ∧
        mask1 = Examples.sigusr1_blocked) ∧
    (∃ ret log mask1,
      Balance.do_balance_fd Examples.balance_cancelled_elsewhere { eventfd := Except.error 24 }
          "/mnt" false Examples.sigusr1_blocked = some (Outcome.returned ret, log, mask1) ∧
        mask1 = Examples.sigusr1_blocked) :=
  ⟨⟨_, _, _, rfl,
      (C16_unblocked_signals_are_restored Examples.sigusr1_blocked (by decide)).1 3
        Examples.checksum_errors_on_second {} "/mnt" false _ _ _ rfl⟩,
   ⟨_, _, _, rfl,
      (C16_unblocked_signals_are_restored Examples.sigusr1_blocked (by decide)).2
        Examples.balance_cancelled_elsewhere { eventfd := Except.error 24 } "/mnt" false _ _ _
        rfl⟩⟩

/-! ## Theorems: main.c -/

namespace Main

/-- A for loop of main over mount points on which the operation returns: every mount point
is visited, and ok ends as the conjunction of its value at entry and all outcomes. -/
theorem for_each_mountpoint_returns (do_x : Nat → String → Bool → Outcome) (a : Action)
    (verbose : Bool) (hret : ∀ i mountpoint, ∃ r, do_x i mountpoint verbose = Outcome.returned r) :
    ∀ (mountpoints : List String) (i : Nat) (ok : Bool) (log : List Event),
      for_each_mountpoint do_x a verbose mountpoints i ok log
        = (Outcome.returned (ok && all_succeeded do_x verbose mountpoints i),
            log ++ calls_of a verbose mountpoints i) := by
  intro mountpoints
  induction mountpoints with
  | nil => intro i ok log; simp [for_each_mountpoint, all_succeeded, calls_of]
  | cons mountpoint rest ih =>
    intro i ok log
    obtain ⟨r, hr⟩ := hret i mountpoint
    simp only [for_each_mountpoint, hr, ih, all_succeeded, calls_of]
    cases r <;> cases ok <;> simp

theorem run_if_returns (enabled : Bool) (ops : Action → Nat → String → Bool → Outcome)
    (a : Action) (verbose : Bool) (mountpoints : List String) (ok : Bool) (log : List Event)
    (hret : ∀ i mountpoint, ∃ r, ops a i mountpoint verbose = Outcome.returned r) :
    run_if enabled ops a verbose mountpoints (Outcome.returned ok, log)
      = (Outcome.returned (ok && (!enabled || all_succeeded (ops a) verbose mountpoints 0)),
          log ++ (if enabled then calls_of a verbose mountpoints 0 else [])) := by
  cases enabled
  · simp [run_if]
  · simp [run_if, for_each_mountpoint_returns (ops a) a verbose hret]

end Main

theorem Main.all_succeeded_iff (do_x : Nat → String → Bool → Outcome) (verbose : Bool) :
    ∀ (mountpoints : List String) (k : Nat),
      Main.all_succeeded do_x verbose mountpoints k = true ↔
        ∀ i mountpoint, mountpoints[i]? = some mountpoint →
          do_x (k + i) mountpoint verbose = Outcome.returned true := by
  intro mountpoints
  induction mountpoints with
  | nil => intro k; simp [Main.all_succeeded]
  | cons m rest ih =>
    intro k
    simp only [Main.all_succeeded, Bool.and_eq_true, decide_eq_true_eq, ih]
    constructor
    · rintro ⟨h0, hrest⟩ i mountpoint hi
      cases i with
      | zero =>
        simp only [List.getElem?_cons_zero, Option.some.injEq] at hi
        subst hi
        exact h0
      | succ i =>
        simp only [List.getElem?_cons_succ] at hi
        have := hrest i mountpoint hi
        rw [show k + (i + 1) = k + 1 + i by omega]
        exact this
    · intro h
      refine ⟨h 0 m (by simp), fun i mountpoint hi => ?_⟩
      have := h (i + 1) mountpoint (by simpa using hi)
      rw [show k + 1 + i = k + (i + 1) by omega]
      exact this

/-- C15 (counterexample): no mount point is given. With every operation enabled and
willing to succeed, main calls no operation and returns EXIT_FAILURE: no operation that was
run has failed, yet the exit status is not success. -/
theorem C15_counterexample_no_mountpoint :
    Main.main [] [] (fun _ _ _ _ => Outcome.returned true)
      = (Main.Exit.status Main.EXIT_FAILURE, [Main.Event.no_mountpoint]) ∧
    Main.EXIT_FAILURE ≠ Main.EXIT_SUCCESS ∧
    Main.expected_calls {} [] = [] :=
  ⟨rfl, by decide, rfl⟩

/-- C15 (as amended): when the option loop ends with the flags f and at least one mount
point is given, and every call of an operation returns, main calls every enabled operation
(do_devstats always) on every mount point, operation by operation in the order scrub,
devstats, defrag, balance, trim, whatever the earlier calls returned, and returns
EXIT_SUCCESS if every one of these calls returned true and EXIT_FAILURE otherwise. -/
theorem C15_every_enabled_action_runs_on_every_mountpoint (opts : List Main.Getopt)
    (mountpoints : List String) (ops : Main.Action → Nat → String → Bool → Outcome)
    (f : Main.Flags) (hparse : Main.parse_options opts {} = Except.ok f)
    (hne : mountpoints ≠ [])
    (hret : ∀ a i mountpoint, ∃ r, ops a i mountpoint f.verbose = Outcome.returned r) :
    ∃ code : Int,
      Main.main opts mountpoints ops
        = (Main.Exit.status code, Main.expected_calls f mountpoints) ∧
      (code = Main.EXIT_SUCCESS ∨ code = Main.EXIT_FAILURE) ∧
      (code = Main.EXIT_SUCCESS ↔
        ∀ a ∈ Main.enabled_actions f, ∀ i mountpoint, mountpoints[i]? = some mountpoint →
          ops a i mountpoint f.verbose = Outcome.returned true) := by
  have hemp : mountpoints.isEmpty = false := by
    cases mountpoints with
    | nil => exact absurd rfl hne
    | cons _ _ => rfl
  have hall : ∀ a, Main.all_succeeded (ops a) f.verbose mountpoints 0 = true ↔
      ∀ i mountpoint, mountpoints[i]? = some mountpoint →
        ops a i mountpoint f.verbose = Outcome.returned true := by
    intro a
    have := Main.all_succeeded_iff (ops a) f.verbose mountpoints 0
    simpa using this
  simp only [Main.main, hparse, hemp, Bool.false_eq_true, ↓reduceIte,
    Main.run_if_returns _ ops _ f.verbose mountpoints _ _ (hret _)]
  refine ⟨_, congrArg (Prod.mk _) ?_, ?_, ?_⟩
  · rcases f with ⟨fs, fd, fb, ft, fv⟩
    cases fs <;> cases fd <;> cases fb <;> cases ft <;>
      simp [Main.expected_calls, Main.enabled_actions]
  · split <;> simp
  · simp only [← hall]
    rcases f with ⟨fs, fd, fb, ft, fv⟩
    cases fs <;> cases fd <;> cases fb <;> cases ft <;>
      simp +decide [Main.enabled_actions, Main.EXIT_SUCCESS, Main.EXIT_FAILURE]

/-- C15 (witness): balance disabled, verbose set, two mount points; the scrub of the first
mount point fails and every other call succeeds. -/
theorem C15_every_enabled_action_runs_on_every_mountpoint_witness :
    ∃ code : Int,
      Main.main [Main.Getopt.no_balance, Main.Getopt.value 118] ["/mnt", "/srv"]
          Examples.first_scrub_fails
        = (Main.Exit.status code,
            Main.expected_calls { balance := false, verbose := true } ["/mnt", "/srv"]) ∧
      (code = Main.EXIT_SUCCESS ∨ code = Main.EXIT_FAILURE) ∧
      (code = Main.EXIT_SUCCESS ↔
        ∀ a ∈ Main.enabled_actions { balance := false, verbose := true },
          ∀ i mountpoint, ["/mnt", "/srv"][i]? = some mountpoint →
            Examples.first_scrub_fails a i mountpoint true = Outcome.returned true) :=
  C15_every_enabled_action_runs_on_every_mountpoint
    [Main.Getopt.no_balance, Main.Getopt.value 118] ["/mnt", "/srv"] Examples.first_scrub_fails
    { balance := false, verbose := true } rfl (by simp) (fun _ _ _ => ⟨_, rfl⟩)

end MaintainBtrfs
